import Mathlib

/-!
# Evolve: the routine execution session and its statistics

A shallow embedding of `src/pages/RoutineExecution.jsx`: the React state of the
`RoutineExecution` component, its event handlers (`handleComplete`, the timer effect,
the pause button, `handleExit`, `confirmExit`, `onSubmitStats`) and `saveStatistics`,
together with the document store that `saveStatistics` reads and writes.

Conventions of the embedding:

* JavaScript numbers that the component only counts with (`currentSeries`,
  `currentExerciseIndex`, `elapsedTime`, the type counters) are `Int`;
* a number read from the text of a form field, and every number computed from one, is a
  `JsNum`: an IEEE 754 double, rounded to the nearest as JavaScript does, or `NaN`, or an
  infinity;
* one handler runs to completion before the next event is taken; in `step` the body of the
  asynchronous `saveStatistics` is taken as one step of that kind, in `stepAsync` it is taken
  in its three parts, with other events handled in between.
-/

namespace Evolve

/-! ## JavaScript numbers -/

/-- The number of binary digits of a natural number, by a recursion that makes at most `fuel`
steps. -/
def bitLengthAux : Nat → Nat → Nat
  | 0, _ => 0
  | fuel + 1, n => if n = 0 then 0 else bitLengthAux fuel (n / 2) + 1

/-- The number of binary digits of a natural number: 0 for 0, and `k` for a number from
`2 ^ (k - 1)` to `2 ^ k - 1`. -/
def bitLength (n : Nat) : Nat := bitLengthAux n n

/-- The whole number `e` with `2 ^ e ≤ n / d < 2 ^ (e + 1)`, for `n` and `d` positive. -/
def log2Ratio (n d : Nat) : Int :=
  let e0 : Int := (bitLength n : Int) - (bitLength d : Int)
  if d * 2 ^ e0.toNat ≤ n * 2 ^ (-e0).toNat then e0 else e0 - 1

/-- The whole number nearest to `n / d`, the even one of the two when `n / d` is halfway
between them, for `d` positive. -/
def divRoundEven (n d : Nat) : Nat :=
  if 2 * (n % d) < d then n / d
  else if d < 2 * (n % d) then n / d + 1
  else if n / d % 2 = 0 then n / d else n / d + 1

/-- A JavaScript number, which is an IEEE 754 double: `NaN`, one of the two infinities, or
the finite number `mantissa * 2 ^ exponent`. The finite numbers that the operations below
give have `2 ^ 52 ≤ |mantissa| < 2 ^ 53` and `-1074 ≤ exponent ≤ 971`, or
`|mantissa| < 2 ^ 52` and `exponent = -1074`, or are `0 * 2 ^ 0`; the sign of zero is not
kept. -/
inductive JsNum
  | nan
  | infinity (negative : Bool)
  | finite (mantissa : Int) (exponent : Int)
  deriving DecidableEq, Repr

/-- The double nearest to `n / d` (to `-(n / d)` when `negative`), the one with the even
mantissa when two are equally near, and an infinity from `2 ^ 1024 - 2 ^ 970` on; for `d`
positive. -/
def JsNum.ofRatio (negative : Bool) (n d : Nat) : JsNum :=
  if n = 0 then JsNum.finite 0 0
  else
    let k : Int := max (log2Ratio n d) (-1022) - 52
    let m := divRoundEven (n * 2 ^ (-k).toNat) (d * 2 ^ k.toNat)
    let m1 := if m = 2 ^ 53 then 2 ^ 52 else m
    let k1 := if m = 2 ^ 53 then k + 1 else k
    if m1 = 0 then JsNum.finite 0 0
    else if 971 < k1 then JsNum.infinity negative
    else JsNum.finite (if negative then -(m1 : Int) else (m1 : Int)) k1

/-- The double nearest to `s * 2 ^ e`. -/
def JsNum.ofScaled (s : Int) (e : Int) : JsNum :=
  JsNum.ofRatio (decide (s < 0)) (s.natAbs * 2 ^ e.toNat) (2 ^ (-e).toNat)

/-- The double nearest to a whole number. -/
def JsNum.ofInt (n : Int) : JsNum := JsNum.ofRatio (decide (n < 0)) n.natAbs 1

instance (n : Nat) : OfNat JsNum n := ⟨JsNum.ofInt (n : Int)⟩

/-- The sum `x + y` of two numbers. -/
def JsNum.add : JsNum → JsNum → JsNum
  | JsNum.nan, _ => JsNum.nan
  | _, JsNum.nan => JsNum.nan
  | JsNum.infinity a, JsNum.infinity b => if a = b then JsNum.infinity a else JsNum.nan
  | JsNum.infinity a, JsNum.finite _ _ => JsNum.infinity a
  | JsNum.finite _ _, JsNum.infinity b => JsNum.infinity b
  | JsNum.finite m1 e1, JsNum.finite m2 e2 =>
    JsNum.ofScaled (m1 * 2 ^ (e1 - min e1 e2).toNat + m2 * 2 ^ (e2 - min e1 e2).toNat)
      (min e1 e2)

/-- The quotient `x / d` of a number by a whole number `d ≥ 0` below `2 ^ 53`. -/
def JsNum.divNat (x : JsNum) (d : Nat) : JsNum :=
  match x with
  | JsNum.nan => JsNum.nan
  | JsNum.infinity a => JsNum.infinity a
  | JsNum.finite m e =>
    if d = 0 then (if m = 0 then JsNum.nan else JsNum.infinity (decide (m < 0)))
    else JsNum.ofRatio (decide (m < 0)) (m.natAbs * 2 ^ e.toNat) (d * 2 ^ (-e).toNat)

/-- The remainder `x % d` of a number by a whole number `d > 0` below `2 ^ 53`: it has the
sign of `x` and is exact. -/
def JsNum.modNat (x : JsNum) (d : Nat) : JsNum :=
  match x with
  | JsNum.nan => JsNum.nan
  | JsNum.infinity _ => JsNum.nan
  | JsNum.finite m e =>
    if d = 0 then JsNum.nan
    else if 0 ≤ e then
      JsNum.ofInt ((if m < 0 then -1 else 1) * (((m.natAbs * 2 ^ e.toNat) % d : Nat) : Int))
    else
      JsNum.ofScaled ((if m < 0 then -1 else 1) * ((m.natAbs % (d * 2 ^ (-e).toNat) : Nat) : Int))
        e

/-- The function `Math.floor`. -/
def JsNum.floor : JsNum → JsNum
  | JsNum.nan => JsNum.nan
  | JsNum.infinity a => JsNum.infinity a
  | JsNum.finite m e => if 0 ≤ e then JsNum.finite m e else JsNum.ofInt (m / 2 ^ (-e).toNat)

/-- The comparison `x < y`, which is false when one of the two is `NaN`. -/
def JsNum.lt : JsNum → JsNum → Bool
  | JsNum.nan, _ => false
  | _, JsNum.nan => false
  | JsNum.infinity a, JsNum.infinity b => a && !b
  | JsNum.infinity a, JsNum.finite _ _ => a
  | JsNum.finite _ _, JsNum.infinity b => !b
  | JsNum.finite m1 e1, JsNum.finite m2 e2 =>
    decide (m1 * 2 ^ (e1 - min e1 e2).toNat < m2 * 2 ^ (e2 - min e1 e2).toNat)

/-- The value of a finite number. -/
def JsNum.toRat : JsNum → Option ℚ
  | JsNum.finite m e => some ((m : ℚ) * (2 : ℚ) ^ e)
  | _ => none

/-- The whole number `n` with `10 ^ (n - 1) ≤ p / q < 10 ^ n`, for `p` and `q` positive. -/
def decimalPosition (p q : Nat) : Int :=
  if q ≤ p then ((Nat.toDigits 10 (p / q)).length : Int)
  else 1 - ((Nat.toDigits 10 ((q - 1) / p)).length : Int)

/-- The search for the shortest decimal digits that read back as the positive double `v`,
which is `p / q`, starting with `k` digits and trying up to `fuel` lengths: the digits as a
whole number `s` with `k` digits, and the position `n` of the decimal point, so that
`s * 10 ^ (n - k)` reads back as `v`; of two candidates the one nearer to `v`, and the even
one when they are equally near. -/
def shortestDigitsFrom (v : JsNum) (p q : Nat) (n : Int) : Nat → Nat → Nat × Nat × Int
  | 0, k => (p / q, k, n)
  | fuel + 1, k =>
    let num := p * 10 ^ ((k : Int) - n).toNat
    let den := q * 10 ^ (n - (k : Int)).toNat
    let lo := num / den
    let hi := lo + 1
    let back (s : Nat) : Bool :=
      decide (JsNum.ofRatio false (s * 10 ^ (n - (k : Int)).toNat) (10 ^ ((k : Int) - n).toNat)
        = v)
    let pick (s : Nat) : Nat × Nat × Int := if s = 10 ^ k then (1, 1, n + 1) else (s, k, n)
    if back lo && back hi then
      if 2 * (num % den) < den then pick lo
      else if den < 2 * (num % den) then pick hi
      else if lo % 2 = 0 then pick lo else pick hi
    else if back lo then pick lo
    else if back hi then pick hi
    else shortestDigitsFrom v p q n fuel (k + 1)

/-- The shortest decimal digits that read back as a positive double: 17 digits always do. -/
def shortestDigits (m : Nat) (e : Int) : Nat × Nat × Int :=
  shortestDigitsFrom (JsNum.finite (m : Int) e) (m * 2 ^ e.toNat) (2 ^ (-e).toNat)
    (decimalPosition (m * 2 ^ e.toNat) (2 ^ (-e).toNat)) 17 1

/-- The text of a positive number from its shortest digits `s` (there are `k` of them) and
the position `n` of the decimal point, as `Number.prototype.toString` lays it out. -/
def layoutDigits (s k : Nat) (n : Int) : String :=
  let ds := Nat.toDigits 10 s
  if (k : Int) ≤ n ∧ n ≤ 21 then String.mk (ds ++ List.replicate (n - (k : Int)).toNat '0')
  else if 0 < n ∧ n ≤ 21 then String.mk (ds.take n.toNat ++ '.' :: ds.drop n.toNat)
  else if -6 < n ∧ n ≤ 0 then String.mk ('0' :: '.' :: List.replicate (-n).toNat '0' ++ ds)
  else
    let ex := n - 1
    let exText := (if ex < 0 then "-" else "+") ++ toString ex.natAbs
    if k = 1 then String.mk ds ++ "e" ++ exText
    else String.mk (ds.take 1 ++ '.' :: ds.drop 1) ++ "e" ++ exText

/-- The method `toString()` of a number. A whole number up to `2 ^ 53` is written with its
own digits, which are the shortest that read back as the number. -/
def JsNum.toString : JsNum → String
  | JsNum.nan => "NaN"
  | JsNum.infinity negative => if negative then "-Infinity" else "Infinity"
  | JsNum.finite m e =>
    if m = 0 then "0"
    else if 0 ≤ e ∧ m.natAbs * 2 ^ e.toNat ≤ 2 ^ 53 then
      (if m < 0 then "-" else "") ++ String.mk (Nat.toDigits 10 (m.natAbs * 2 ^ e.toNat))
    else if e < 0 ∧ m.natAbs % 2 ^ (-e).toNat = 0 then
      (if m < 0 then "-" else "") ++ String.mk (Nat.toDigits 10 (m.natAbs / 2 ^ (-e).toNat))
    else
      (if m < 0 then "-" else "")
        ++ layoutDigits (shortestDigits m.natAbs e).1 (shortestDigits m.natAbs e).2.1
            (shortestDigits m.natAbs e).2.2

/-! ## Reading numbers from text -/

/-- White space skipped by `parseInt`, `parseFloat` and `Number`: tab, line feed, vertical tab,
form feed, carriage return, space, no-break space, byte order mark, the line and paragraph
separators and the other space separators of Unicode. -/
def isWhiteSpace (c : Char) : Bool :=
  c.toNat ∈ [9, 10, 11, 12, 13, 32, 160, 65279, 8232, 8233, 5760, 8239, 8287, 12288]
    || (8192 ≤ c.toNat && c.toNat ≤ 8202)

/-- Value of `c` as a digit in the given radix, if it is one. -/
def digitValue (radix : Nat) (c : Char) : Option Nat :=
  let n := c.toNat
  let v : Option Nat :=
    if 48 ≤ n ∧ n ≤ 57 then some (n - 48)
    else if 97 ≤ n ∧ n ≤ 122 then some (n - 87)
    else if 65 ≤ n ∧ n ≤ 90 then some (n - 55)
    else none
  v.filter (fun d => d < radix)

/-- Value of a run of digits in the given radix. -/
def digitsValue (radix : Nat) (ds : List Char) : Nat :=
  ds.foldl (fun acc c => acc * radix + (digitValue radix c).getD 0) 0

/-- The whole number `parseInt(s)` reads, before it is rounded to a double: leading white
space is skipped, a sign is read, a `0x` prefix selects radix 16, and the longest run of
digits is the value; `none` when there is no digit to read. -/
def parseIntExact (s : String) : Option Int :=
  let cs := s.toList.dropWhile isWhiteSpace
  let neg := cs.head? == some '-'
  let cs := if cs.head? == some '-' || cs.head? == some '+' then cs.tail else cs
  let hex := match cs with
    | '0' :: x :: _ => x == 'x' || x == 'X'
    | _ => false
  let radix := if hex then 16 else 10
  let cs := if hex then cs.drop 2 else cs
  let ds := cs.takeWhile (fun c => (digitValue radix c).isSome)
  if ds.isEmpty then none
  else if neg then some (-(digitsValue radix ds : Int)) else some (digitsValue radix ds : Int)

/-- JavaScript `parseInt(s)` with no radix argument: the double nearest to the whole number
read, `NaN` when there is no digit to read. -/
def parseInt (s : String) : JsNum :=
  match parseIntExact s with
  | some n => JsNum.ofInt n
  | none => JsNum.nan

/-- A decimal numeral read from text, standing for `mantissa * 10 ^ exponent`. -/
structure Decimal where
  mantissa : Int
  exponent : Int
  deriving DecidableEq, Repr

/-- The rational number a decimal numeral stands for. -/
def Decimal.toRat (d : Decimal) : ℚ := (d.mantissa : ℚ) * (10 : ℚ) ^ d.exponent

/-- The double nearest to the number a decimal numeral stands for: the number JavaScript
takes the numeral for. -/
def Decimal.toDouble (d : Decimal) : JsNum :=
  JsNum.ofRatio (decide (d.mantissa < 0)) (d.mantissa.natAbs * 10 ^ d.exponent.toNat)
    (10 ^ (-d.exponent).toNat)

/-- The optional exponent part `e[+-]digits` of a decimal literal: its value and the text left.
An `e` that is not followed by digits is not part of the literal. -/
def scanExponent (cs : List Char) : Int × List Char :=
  match cs with
  | [] => (0, [])
  | e :: rest =>
    if e == 'e' || e == 'E' then
      let neg := rest.head? == some '-'
      let rest1 := if rest.head? == some '-' || rest.head? == some '+' then rest.tail else rest
      let ds := rest1.takeWhile Char.isDigit
      if ds.isEmpty then (0, cs)
      else (if neg then -(digitsValue 10 ds : Int) else (digitsValue 10 ds : Int),
            rest1.dropWhile Char.isDigit)
    else (0, cs)

/-- The longest decimal literal (sign, digits, optional fraction, optional exponent) at the
head of the text, with the text left after it; `none` when the text does not start with one.
The literal `Infinity` is read by `parseFloat` below. -/
def scanDecimal (cs : List Char) : Option (Decimal × List Char) :=
  let neg := cs.head? == some '-'
  let cs := if cs.head? == some '-' || cs.head? == some '+' then cs.tail else cs
  let ip := cs.takeWhile Char.isDigit
  let afterInt := cs.dropWhile Char.isDigit
  let fp := match afterInt with
    | '.' :: rest => rest.takeWhile Char.isDigit
    | _ => []
  let afterFrac := match afterInt with
    | '.' :: rest => rest.dropWhile Char.isDigit
    | _ => afterInt
  if ip.isEmpty && fp.isEmpty then none
  else
    let m : Int := (digitsValue 10 (ip ++ fp) : Int)
    let ex := scanExponent afterFrac
    some ({ mantissa := if neg then -m else m, exponent := ex.1 - (fp.length : Int) }, ex.2)

/-- The decimal literal `parseFloat(s)` reads at the head of the text, before it is rounded
to a double; `none` when the text does not start with one. -/
def parseFloatExact (s : String) : Option Decimal :=
  (scanDecimal (s.toList.dropWhile isWhiteSpace)).map (fun p => p.1)

/-- The literal `Infinity` at the head of the text, after white space and an optional sign:
the infinity it stands for. -/
def scanInfinity (cs : List Char) : Option JsNum :=
  let neg := cs.head? == some '-'
  let cs := if cs.head? == some '-' || cs.head? == some '+' then cs.tail else cs
  if cs.take 8 = "Infinity".toList then some (JsNum.infinity neg) else none

/-- JavaScript `parseFloat(s)`: the double nearest to the decimal literal at the head of the
text, an infinity for the literal `Infinity`, and `NaN` when the text starts with
neither. -/
def parseFloat (s : String) : JsNum :=
  match parseFloatExact s with
  | some d => d.toDouble
  | none => (scanInfinity (s.toList.dropWhile isWhiteSpace)).getD JsNum.nan

/-- The decimal literal JavaScript `Number(s)` reads, before it is rounded to a double: the
whole text, white space trimmed, must be one decimal literal; empty text reads as `0`;
`none` is `NaN`. Hexadecimal, octal and binary literals and `Infinity` are not modelled (a
number input never holds them). -/
def toNumber (s : String) : Option Decimal :=
  let cs := ((s.toList.dropWhile isWhiteSpace).reverse.dropWhile isWhiteSpace).reverse
  if cs.isEmpty then some { mantissa := 0, exponent := 0 }
  else match scanDecimal cs with
    | some (d, []) => some d
    | _ => none

/-! ## Data: routines, the component state, statistics records -/

/-- The four routine types offered by the routine form (`routine.type`). -/
inductive RoutineType
  | stretch
  | workout
  | running
  | sports
  deriving DecidableEq, Repr

/-- One exercise of a routine, as the routine form stores it. -/
structure Exercise where
  name : String
  repetitions : String
  imageUrl : String
  deriving DecidableEq, Repr

/-- A field of a stored document that holds either a number or text. -/
inductive JsValue
  | number (n : Int)
  | string (s : String)
  deriving DecidableEq, Repr

/-- Numeric reading of a field, as arithmetic applies it (`routine.series * ...`). -/
def JsValue.toNumber : JsValue → Option Decimal
  | .number n => some { mantissa := n, exponent := 0 }
  | .string s => Evolve.toNumber s

/-- Strict equality `n === v` of a number with a field: text never equals a number. -/
def strictEquals (n : Int) : JsValue → Bool
  | .number m => decide (n = m)
  | .string _ => false

/-- The routine document loaded by `loadRoutine`. `series` is kept as the routine form
delivered it: the number of the form's default value, or the text of its number input. -/
structure Routine where
  name : String
  type : RoutineType
  series : JsValue
  exercises : List Exercise
  deriving DecidableEq, Repr

/-- React state of the `RoutineExecution` component (the `useState` cells). -/
structure Session where
  currentSeries : Int
  currentExerciseIndex : Int
  elapsedTime : Int
  isPaused : Bool
  showStatsModal : Bool
  showExitConfirm : Bool
  deriving DecidableEq, Repr

/-- The initial values of the `useState` cells. -/
def Session.fresh : Session :=
  { currentSeries := 1, currentExerciseIndex := 0, elapsedTime := 0,
    isPaused := false, showStatsModal := false, showExitConfirm := false }

/-- The document `users/{uid}/statistics/move/{year}/{month}`. The four counters are only
ever increased by 1 and are whole numbers; the effort samples, `calories` and `km` hold the
numbers read from the outcome form and their sums, which are doubles. -/
structure MoveStats where
  stretch : Int
  workout : Int
  running : Int
  sports : Int
  effort : List JsNum
  calories : JsNum
  km : JsNum
  deriving DecidableEq

/-- The argument of `saveStatistics`: each property is `undefined` (`none`) or the text of a
form field. -/
structure StatsData where
  effort : Option String
  calories : Option String
  km : Option String
  deriving DecidableEq, Repr

/-- The default argument `statsData = {}`. -/
def StatsData.empty : StatsData := { effort := none, calories := none, km := none }

/-- Truthiness of a property that is `undefined` or text: only non-empty text is truthy. -/
def truthy : Option String → Bool
  | none => false
  | some s => s != ""

/-- The statistics documents of the signed-in user, by year and month. -/
abbrev Store := Int → Int → Option MoveStats

/-- The store after `setDoc`: the document at the key is replaced. -/
def Store.setDoc (st : Store) (year month : Int) (d : MoveStats) : Store :=
  fun y m => if y = year ∧ m = month then some d else st y m

/-- The wall clock read by `new Date()`. -/
structure Date where
  fullYear : Int
  monthIndex : Fin 12
  deriving DecidableEq, Repr

/-- The month key `saveStatistics` uses at a date: `getMonth() + 1`. -/
def Date.monthKey (d : Date) : Int := (d.monthIndex.val : Int) + 1

/-- Inputs from outside the component at the time an event is handled: the clock, and whether
the calls to the document store resolve (`false`: one of them rejects). -/
structure Env where
  now : Date
  storeAvailable : Bool
  deriving DecidableEq, Repr

/-- A toast notification. -/
inductive Toast
  | success (msg : String)
  | error (msg : String)
  deriving DecidableEq, Repr

/-- Which page is shown: the routine being executed, or `/move` after `navigate`. -/
inductive Route
  | routine
  | move
  deriving DecidableEq, Repr

/-- Everything an event handler can read or change: the component state, the message of
`errors.effort`, the document store, the route and the toasts shown so far. -/
structure Page where
  session : Session
  effortError : Option String
  store : Store
  route : Route
  toasts : List Toast

/-- The page right after the routine has loaded. -/
def Page.fresh (st : Store) : Page :=
  { session := Session.fresh, effortError := none, store := st, route := .routine, toasts := [] }

/-! ## `saveStatistics` -/

/-- The field of a statistics document named by a routine type, increased by `n`
(`increment(n)` on `[routine.type]`). -/
def MoveStats.incrementType (d : MoveStats) (t : RoutineType) (n : Int) : MoveStats :=
  match t with
  | .stretch => { d with stretch := d.stretch + n }
  | .workout => { d with workout := d.workout + n }
  | .running => { d with running := d.running + n }
  | .sports => { d with sports := d.sports + n }

/-- The field of a statistics document named by a routine type. -/
def MoveStats.typeCount (d : MoveStats) : RoutineType → Int
  | .stretch => d.stretch
  | .workout => d.workout
  | .running => d.running
  | .sports => d.sports

/-- The object `updates` passed to `updateDoc`: `[routine.type]: increment(1)` always, a plain
new value for `effort`, and `increment` operands for `calories` and `km`, each only when set. -/
structure Updates where
  type : RoutineType
  effort : Option (List JsNum)
  calories : Option JsNum
  km : Option JsNum
  deriving DecidableEq

/-- The `updates` object built in the branch `statsDoc.exists()`, from the snapshot `data`
that `getDoc` returned. -/
def buildUpdates (type : RoutineType) (statsData : StatsData) (data : MoveStats) : Updates :=
  { type := type
    effort :=
      if truthy statsData.effort then
        some (data.effort ++ [parseInt (statsData.effort.getD "")])
      else none
    calories :=
      if truthy statsData.calories then some (parseInt (statsData.calories.getD "")) else none
    km :=
      if truthy statsData.km then some (parseFloat (statsData.km.getD "")) else none }

/-- What `updateDoc` does to the stored document: the increments are added to the stored
values, a plain value replaces the stored one, fields not named are kept. The sum that
`increment` makes of `calories` and of `km` is the sum of doubles (for whole numbers the
store adds them as 64-bit integers, which is the same sum below `2 ^ 53`). -/
def applyUpdates (doc : MoveStats) (u : Updates) : MoveStats :=
  let d := doc.incrementType u.type 1
  { d with
    effort := match u.effort with
      | some e => e
      | none => d.effort
    calories := match u.calories with
      | some n => d.calories.add n
      | none => d.calories
    km := match u.km with
      | some x => d.km.add x
      | none => d.km }

/-- The store after `updateDoc`, which fails (`none`) when there is no document at the key. -/
def Store.updateDoc (st : Store) (year month : Int) (u : Updates) : Option Store :=
  match st year month with
  | some doc => some (st.setDoc year month (applyUpdates doc u))
  | none => none

/-- The object `newStats` of the branch where the month has no document yet. -/
def buildNewStats (type : RoutineType) (statsData : StatsData) : MoveStats :=
  let zero : MoveStats :=
    { stretch := 0, workout := 0, running := 0, sports := 0,
      effort := [], calories := 0, km := 0 }
  let withType : MoveStats :=
    match type with
    | .stretch => { zero with stretch := 1 }
    | .workout => { zero with workout := 1 }
    | .running => { zero with running := 1 }
    | .sports => { zero with sports := 1 }
  { withType with
    effort :=
      if truthy statsData.effort then [parseInt (statsData.effort.getD "")] else withType.effort
    calories :=
      if truthy statsData.calories then parseInt (statsData.calories.getD "")
      else withType.calories
    km :=
      if truthy statsData.km then parseFloat (statsData.km.getD "")
      else withType.km }

/-- The page after the `success` toast and `navigate` that end the `try` block. -/
def Page.completed (p : Page) (st : Store) : Page :=
  { p with store := st,
           toasts := p.toasts ++ [Toast.success "Routine completed successfully!"],
           route := .move }

/-- The page after the `catch` block. -/
def Page.saveFailed (p : Page) : Page :=
  { p with toasts := p.toasts ++ [Toast.error "Failed to save statistics"] }

/-- The function `saveStatistics(statsData)`: the month document of the current date is read; when it
exists it is updated, otherwise it is created; then the success toast is shown and the app
navigates to `/move`. A rejected store call ends in the `catch` block instead. -/
def saveStatistics (env : Env) (r : Routine) (statsData : StatsData) (p : Page) : Page :=
  let year := env.now.fullYear
  let month := env.now.monthKey
  if env.storeAvailable then
    match p.store year month with
    | some data =>
      match p.store.updateDoc year month (buildUpdates r.type statsData data) with
      | some st => p.completed st
      | none => p.saveFailed
    | none => p.completed (p.store.setDoc year month (buildNewStats r.type statsData))
  else p.saveFailed

/-! ## Event handlers -/

/-- The flag `isLastExercise` of `handleComplete`. -/
def isLastExercise (r : Routine) (s : Session) : Bool :=
  decide (s.currentExerciseIndex = (r.exercises.length : Int) - 1)

/-- The flag `isLastSeries` of `handleComplete`. -/
def isLastSeries (r : Routine) (s : Session) : Bool :=
  strictEquals s.currentSeries r.series

/-- The function `handleComplete`, the handler of the "Complete Exercise" button. -/
def handleComplete (env : Env) (r : Routine) (p : Page) : Page :=
  if isLastExercise r p.session && isLastSeries r p.session then
    if r.type ≠ RoutineType.stretch then
      { p with session := { p.session with showStatsModal := true } }
    else
      saveStatistics env r StatsData.empty p
  else if isLastExercise r p.session then
    { p with session :=
        { p.session with currentSeries := p.session.currentSeries + 1,
                         currentExerciseIndex := 0 } }
  else
    { p with session :=
        { p.session with currentExerciseIndex := p.session.currentExerciseIndex + 1 } }

/-- The callback of the interval set up by the timer effect. The interval exists only while
`!isPaused && routine`, so a tick reaches the callback only when the session is not paused. -/
def timerTick (p : Page) : Page :=
  if !p.session.isPaused then
    { p with session := { p.session with elapsedTime := p.session.elapsedTime + 1 } }
  else p

/-- The pause/resume button: `setIsPaused(!isPaused)`. -/
def togglePause (p : Page) : Page :=
  { p with session := { p.session with isPaused := !p.session.isPaused } }

/-- The function `handleExit`, the handler of the close button in the header. -/
def handleExit (p : Page) : Page :=
  { p with session := { p.session with showExitConfirm := true } }

/-- The confirm button of the exit dialog: `confirmExit()` and then `onClose()`. -/
def confirmExit (p : Page) : Page :=
  { p with toasts := p.toasts ++ [Toast.success "Routine exited"],
           route := .move,
           session := { p.session with showExitConfirm := false } }

/-- The cancel and close buttons of the exit dialog: `onClose()`. -/
def closeExitConfirm (p : Page) : Page :=
  { p with session := { p.session with showExitConfirm := false } }

/-- The values of the outcome form as `handleSubmit` passes them on: the text of each of the
three registered number inputs (empty text for an empty input). -/
structure FormData where
  effort : String
  calories : String
  km : String
  deriving DecidableEq, Repr

/-- The form values as the `statsData` argument. -/
def FormData.toStatsData (d : FormData) : StatsData :=
  { effort := some d.effort, calories := some d.calories, km := some d.km }

/-- The rules registered for `effort`: `required`, `min` 1 and `max` 5, checked on the
number the text is taken for, which is a double. The result is the message of the violated
rule, if any. Text that has no numeric reading is not what a number input holds; no rule
reports it. -/
def validateEffort (effort : String) : Option String :=
  if effort = "" then some "Effort is required"
  else match toNumber effort with
    | none => none
    | some v =>
      if JsNum.lt 5 v.toDouble then some "Maximum 5"
      else if JsNum.lt v.toDouble 1 then some "Minimum 1"
      else none

/-- The function `onSubmitStats`. -/
def onSubmitStats (env : Env) (r : Routine) (data : FormData) (p : Page) : Page :=
  saveStatistics env r data.toStatsData p

/-- The handler `handleSubmit(onSubmitStats)`: the registered rules are checked; `onSubmitStats` is called
only when none is violated, otherwise the message is put in `errors.effort`. The check the
browser makes of the `min`, `max` and `step` attributes before it raises the submit event is
not part of this function. -/
def handleSubmit (env : Env) (r : Routine) (data : FormData) (p : Page) : Page :=
  match validateEffort data.effort with
  | some msg => { p with effortError := some msg }
  | none => onSubmitStats env r data { p with effortError := none }

/-- The events the mounted component can receive. -/
inductive Event
  | tick
  | togglePause
  | completeExercise
  | submitOutcome (data : FormData)
  | exit
  | confirmExit
  | cancelExit
  deriving DecidableEq, Repr

/-- One event handled by the component. After `navigate('/move')` the component is unmounted
and handles nothing; a tick is delivered only while the interval exists; the outcome form and
the exit dialog take events only while they are rendered. -/
def step (r : Routine) (env : Env) (p : Page) (e : Event) : Page :=
  match p.route with
  | .move => p
  | .routine =>
    match e with
    | .tick => timerTick p
    | .togglePause => togglePause p
    | .completeExercise => handleComplete env r p
    | .submitOutcome data => if p.session.showStatsModal then handleSubmit env r data p else p
    | .exit => handleExit p
    | .confirmExit => if p.session.showExitConfirm then confirmExit p else p
    | .cancelExit => if p.session.showExitConfirm then closeExitConfirm p else p

/-- The page after a sequence of events, each with the outside inputs of its moment. -/
def run (r : Routine) (p : Page) (evs : List (Env × Event)) : Page :=
  evs.foldl (fun q ev => step r ev.1 q ev.2) p

/-! ## What is displayed -/

/-- The states of the session as the specification names them. -/
inductive SessionState
  | Running
  | Paused
  | AwaitingOutcome
  | Completed
  | Exited
  deriving DecidableEq, Repr

/-- The specification's state of a page: after `navigate` the last toast tells completion
from exit; before it, the outcome form, then the pause flag. -/
def sessionState (p : Page) : SessionState :=
  match p.route with
  | .move =>
    if p.toasts.getLast? = some (Toast.success "Routine completed successfully!") then
      .Completed
    else .Exited
  | .routine =>
    if p.session.showStatsModal then .AwaitingOutcome
    else if p.session.isPaused then .Paused
    else .Running

/-- The fraction shown by the progress bar (its width is this times 100 percent):
`((currentSeries - 1) * exercises.length + currentExerciseIndex + 1) /
(series * exercises.length)`. `none` when the quotient is not a finite number. -/
def progress (r : Routine) (s : Session) : Option ℚ :=
  match r.series.toNumber with
  | none => none
  | some d =>
    let den : ℚ := d.toRat * (r.exercises.length : ℚ)
    if den = 0 then none
    else
      some ((((s.currentSeries - 1) * (r.exercises.length : Int)
              + s.currentExerciseIndex + 1 : Int) : ℚ) / den)

/-- The lookup `routine.exercises[currentExerciseIndex]`; `none` is `undefined`. -/
def currentExercise (r : Routine) (s : Session) : Option Exercise :=
  if 0 ≤ s.currentExerciseIndex then r.exercises[s.currentExerciseIndex.toNat]? else none

/-! ## The asynchronous body of `saveStatistics`

The function `saveStatistics` is `async`, and `handleComplete` and `onSubmitStats` call it
without waiting for it. It runs up to `await getDoc`, later from the result of `getDoc` up to
`await updateDoc` or `await setDoc`, and later still from the result of the write to
`navigate`. Between these three parts the component handles other events. The definitions
below are the three parts; `saveStatistics` above is the three of them run with nothing in
between. -/

/-- The write that `saveStatistics` issues after its read: `updateDoc(statsRef, updates)` or
`setDoc(statsRef, newStats)`. -/
inductive Write
  | updateDoc (updates : Updates)
  | setDoc (newStats : MoveStats)
  deriving DecidableEq

/-- A call of `saveStatistics` suspended at one of its two `await`s: at `getDoc`, with the
year and month it computed and the arguments it goes on with, or at the write, with what it
writes. -/
inductive PendingSave
  | awaitingGetDoc (year month : Int) (type : RoutineType) (statsData : StatsData)
  | awaitingWrite (year month : Int) (write : Write)
  deriving DecidableEq

/-- The page together with the calls of `saveStatistics` that have not finished, oldest
first. -/
structure AsyncPage where
  page : Page
  pending : List PendingSave

/-- The part of `saveStatistics` up to `await getDoc`: the date is read and the read is
issued. -/
def saveStatisticsCall (env : Env) (r : Routine) (statsData : StatsData) (a : AsyncPage) :
    AsyncPage :=
  { a with pending := a.pending ++
      [PendingSave.awaitingGetDoc env.now.fullYear env.now.monthKey r.type statsData] }

/-- The part of `saveStatistics` from the result `statsDoc` of `getDoc` to the write it
issues. -/
def chooseWrite (type : RoutineType) (statsData : StatsData) (statsDoc : Option MoveStats) :
    Write :=
  match statsDoc with
  | some data => Write.updateDoc (buildUpdates type statsData data)
  | none => Write.setDoc (buildNewStats type statsData)

/-- The store after a write has reached it; `none` when `updateDoc` finds no document. -/
def Store.applyWrite (st : Store) (year month : Int) : Write → Option Store
  | Write.updateDoc u => st.updateDoc year month u
  | Write.setDoc d => some (st.setDoc year month d)

/-- The function `handleComplete`, with `saveStatistics` called and not waited for. -/
def handleCompleteAsync (env : Env) (r : Routine) (a : AsyncPage) : AsyncPage :=
  if isLastExercise r a.page.session && isLastSeries r a.page.session then
    if r.type ≠ RoutineType.stretch then
      { a with page := { a.page with session := { a.page.session with showStatsModal := true } } }
    else
      saveStatisticsCall env r StatsData.empty a
  else if isLastExercise r a.page.session then
    { a with page := { a.page with session :=
        { a.page.session with currentSeries := a.page.session.currentSeries + 1,
                              currentExerciseIndex := 0 } } }
  else
    { a with page := { a.page with session :=
        { a.page.session with
            currentExerciseIndex := a.page.session.currentExerciseIndex + 1 } } }

/-- The handler `handleSubmit(onSubmitStats)`, with `saveStatistics` called and not waited
for. -/
def handleSubmitAsync (env : Env) (r : Routine) (data : FormData) (a : AsyncPage) : AsyncPage :=
  match validateEffort data.effort with
  | some msg => { a with page := { a.page with effortError := some msg } }
  | none =>
    saveStatisticsCall env r data.toStatsData
      { a with page := { a.page with effortError := none } }

/-- What can happen next: the component handles an event, or the `getDoc` or the write of the
`i`-th unfinished call of `saveStatistics` comes back, resolved (`ok`) or rejected. -/
inductive AsyncEvent
  | ui (env : Env) (e : Event)
  | getDocSettled (i : Nat) (ok : Bool)
  | writeSettled (i : Nat) (ok : Bool)
  deriving DecidableEq

/-- One thing happening. The component handles events only while it is mounted; a suspended
call of `saveStatistics` goes on when its store call comes back, mounted or not: after the
read it issues its write, after the write it shows the toast and navigates; a rejected call
ends in the `catch` block. A write takes effect in the store when it comes back resolved. -/
def stepAsync (r : Routine) (a : AsyncPage) : AsyncEvent → AsyncPage
  | AsyncEvent.ui env e =>
    match a.page.route with
    | Route.move => a
    | Route.routine =>
      match e with
      | Event.completeExercise => handleCompleteAsync env r a
      | Event.submitOutcome data =>
        if a.page.session.showStatsModal then handleSubmitAsync env r data a else a
      | other => { a with page := step r env a.page other }
  | AsyncEvent.getDocSettled i ok =>
    match a.pending[i]? with
    | some (PendingSave.awaitingGetDoc year month type statsData) =>
      if ok then
        { page := a.page,
          pending := List.set a.pending i
            (PendingSave.awaitingWrite year month
              (chooseWrite type statsData (a.page.store year month))) }
      else { page := a.page.saveFailed, pending := a.pending.eraseIdx i }
    | _ => a
  | AsyncEvent.writeSettled i ok =>
    match a.pending[i]? with
    | some (PendingSave.awaitingWrite year month write) =>
      if ok then
        match a.page.store.applyWrite year month write with
        | some st => { page := a.page.completed st, pending := a.pending.eraseIdx i }
        | none => { page := a.page.saveFailed, pending := a.pending.eraseIdx i }
      else { page := a.page.saveFailed, pending := a.pending.eraseIdx i }
    | _ => a

/-- The page and the unfinished calls after a sequence of happenings. -/
def runAsync (r : Routine) (a : AsyncPage) (evs : List AsyncEvent) : AsyncPage :=
  evs.foldl (stepAsync r) a

/-- An event handled by the component with the store calls of a save it starts coming back
before anything else happens, both resolved or both rejected as `env.storeAvailable` says. -/
def stepSettled (r : Routine) (env : Env) (p : Page) (e : Event) : AsyncPage :=
  runAsync r { page := p, pending := [] }
    [AsyncEvent.ui env e, AsyncEvent.getDocSettled 0 env.storeAvailable,
     AsyncEvent.writeSettled 0 env.storeAvailable]

/-! ## Notions used in the statements -/

/-- The first `k` presses of the "Complete Exercise" button, the `i`-th one handled with the
outside inputs `envs i`. -/
def completeEvents (envs : Nat → Env) (k : Nat) : List (Env × Event) :=
  (List.range k).map (fun i => (envs i, Event.completeExercise))

/-- The page of a fresh session moved to series `a + 1`, exercise index `b`. -/
def Page.atPosition (st : Store) (a b : Nat) : Page :=
  { Page.fresh st with
    session := { Session.fresh with currentSeries := (a : Int) + 1,
                                    currentExerciseIndex := (b : Int) } }

/-- The document `saveStatistics` leaves at its key when the store calls resolve: the read
document with the update applied, or the new document when there was none. -/
def savedDoc (type : RoutineType) (statsData : StatsData) : Option MoveStats → MoveStats
  | some data => applyUpdates data (buildUpdates type statsData data)
  | none => buildNewStats type statsData

/-- The bounds the specification gives for the position and the elapsed time of a session on
a routine of `S` series. -/
def Session.inBounds (r : Routine) (S : Int) (s : Session) : Prop :=
  1 ≤ s.currentSeries ∧ s.currentSeries ≤ S
  ∧ 0 ≤ s.currentExerciseIndex ∧ s.currentExerciseIndex ≤ (r.exercises.length : Int) - 1
  ∧ 0 ≤ s.elapsedTime

instance (r : Routine) (S : Int) (s : Session) : Decidable (s.inBounds r S) := by
  unfold Session.inBounds
  infer_instance

/-- The numeric value of the `series` field, when it has one. -/
def seriesCount (r : Routine) : Option ℚ := r.series.toNumber.map Decimal.toRat

/-- The tick events of a list of moments. -/
def tickEvents (envs : List Env) : List (Env × Event) :=
  envs.map (fun env => (env, Event.tick))

/-- Text that is a whole number written in plain digits, such as `0` or `250`. -/
def wholeNumberText (s : String) : Bool :=
  !s.toList.isEmpty && s.toList.all Char.isDigit

/-! ## Sample inputs -/

/-- Two exercises as the routine form stores them. -/
def sampleExercises : List Exercise :=
  [{ name := "Squats", repetitions := "3 x 10", imageUrl := "" },
   { name := "Plank", repetitions := "60 s", imageUrl := "" }]

/-- A workout routine of two series of two exercises. -/
def workoutRoutine : Routine :=
  { name := "Strength", type := RoutineType.workout, series := JsValue.number 2,
    exercises := sampleExercises }

/-- A stretch routine of two series of two exercises. -/
def stretchRoutine : Routine :=
  { name := "Cool down", type := RoutineType.stretch, series := JsValue.number 2,
    exercises := sampleExercises }

/-- A store with no statistics document. -/
def emptyStore : Store := fun _ _ => none

/-- A moment in March 2025 at which the store calls resolve. -/
def marchEnv : Env :=
  { now := { fullYear := 2025, monthIndex := 2 }, storeAvailable := true }

/-- The workout routine after all four of its exercises were completed: the outcome form is
shown and the session was never paused. -/
def awaitingPage : Page :=
  run workoutRoutine (Page.fresh emptyStore) (completeEvents (fun _ => marchEnv) 4)

/-- A page the pause button was pressed on: the sample workout routine, paused at its first
exercise. -/
def pausedPage : Page := step workoutRoutine marchEnv (Page.fresh emptyStore) Event.togglePause

/-- A statistics document of March 2025 with earlier completions in it. -/
def marchDoc : MoveStats :=
  { stretch := 2, workout := 1, running := 0, sports := 0,
    effort := [3], calories := 100, km := 0 }

/-- A store whose only document is the one of March 2025. -/
def marchStore : Store := emptyStore.setDoc 2025 3 marchDoc

/-- The sample workout routine with the outcome form shown, over the store with the March
document. -/
def marchPage : Page := { awaitingPage with store := marchStore }

/-- An outcome with effort 4, 250 calories and 5.2 km. -/
def sampleOutcome : StatsData :=
  { effort := some "4", calories := some "250", km := some "5.2" }

/-- An outcome with effort 3 and 12.5 calories. -/
def fractionalCalories : StatsData :=
  { effort := some "3", calories := some "12.5", km := none }

/-- The sample stretch routine pressed five times, the fifth press handled before the store
calls of the fourth have come back; then the calls come back, those of the fourth press
first. -/
def doublePress : List AsyncEvent :=
  [AsyncEvent.ui marchEnv Event.completeExercise,
   AsyncEvent.ui marchEnv Event.completeExercise,
   AsyncEvent.ui marchEnv Event.completeExercise,
   AsyncEvent.ui marchEnv Event.completeExercise,
   AsyncEvent.ui marchEnv Event.completeExercise,
   AsyncEvent.getDocSettled 0 true,
   AsyncEvent.writeSettled 0 true,
   AsyncEvent.getDocSettled 0 true,
   AsyncEvent.writeSettled 0 true]

/-! ## `loadStats` (Move.jsx) -/

/-- What `doc.data()` gives for a document of the statistics collection: its fields, `none`
where the document has no such field. -/
structure DocData where
  stretch : Option Int
  workout : Option Int
  running : Option Int
  sports : Option Int
  effort : Option (List JsNum)
  calories : Option JsNum
  km : Option JsNum
  deriving DecidableEq

/-- The object `{ stretch: 0, workout: 0, running: 0, sports: 0, effort: [], calories: 0,
km: 0 }` that `monthStats` starts from. -/
def DocData.zero : DocData :=
  { stretch := some 0, workout := some 0, running := some 0, sports := some 0,
    effort := some [], calories := some 0, km := some 0 }

/-- The field of the data of a document named by a routine type. -/
def DocData.typeCount (d : DocData) : RoutineType → Option Int
  | .stretch => d.stretch
  | .workout => d.workout
  | .running => d.running
  | .sports => d.sports

/-- The object `yearStats`, whose fields are numbers throughout. -/
structure YearStats where
  stretch : Int
  workout : Int
  running : Int
  sports : Int
  effort : List JsNum
  calories : JsNum
  km : JsNum
  deriving DecidableEq

/-- The object `yearStats` starts from. -/
def YearStats.zero : YearStats :=
  { stretch := 0, workout := 0, running := 0, sports := 0, effort := [], calories := 0, km := 0 }

/-- The field of the yearly statistics named by a routine type. -/
def YearStats.typeCount (y : YearStats) : RoutineType → Int
  | .stretch => y.stretch
  | .workout => y.workout
  | .running => y.running
  | .sports => y.sports

/-- The state `stats` of the page. -/
structure Stats where
  month : DocData
  year : YearStats
  deriving DecidableEq

/-- The state `stats` before anything is loaded. -/
def Stats.initial : Stats := { month := DocData.zero, year := YearStats.zero }

/-- The expression `x || 0` on a counter, which is a whole number or missing. -/
def orZero : Option Int → Int
  | some n => n
  | none => 0

/-- The expression `x || 0` on a field that holds a double or is missing: a missing field,
`NaN` and 0 give 0, any other number is kept, an infinity too. -/
def orZeroNum : Option JsNum → JsNum
  | none => 0
  | some JsNum.nan => 0
  | some (JsNum.infinity a) => JsNum.infinity a
  | some (JsNum.finite m e) => if m = 0 then 0 else JsNum.finite m e

/-- The callback of `monthDoc.forEach` in `loadStats`, on a document given by its id and its
data. The sums `+=` of `calories` and `km` are sums of doubles. -/
def loadStatsStep (currentMonth : Int) (acc : Stats) (doc : String × DocData) : Stats :=
  { month := if parseInt doc.1 = JsNum.ofInt currentMonth then doc.2 else acc.month
    year :=
      { stretch := acc.year.stretch + orZero doc.2.stretch
        workout := acc.year.workout + orZero doc.2.workout
        running := acc.year.running + orZero doc.2.running
        sports := acc.year.sports + orZero doc.2.sports
        effort := acc.year.effort ++ doc.2.effort.getD []
        calories := acc.year.calories.add (orZeroNum doc.2.calories)
        km := acc.year.km.add (orZeroNum doc.2.km) } }

/-- The function `loadStats`, from the result of `getDocs` on the collection of the current
year (`none`: the call rejects, and the state is left as it is) to the state `stats`. -/
def loadStats (now : Date) (snapshot : Option (List (String × DocData))) (stats : Stats) :
    Stats :=
  match snapshot with
  | none => stats
  | some docs => docs.foldl (loadStatsStep now.monthKey) Stats.initial

/-- The data of a document that `saveStatistics` wrote: every field is there. -/
def MoveStats.toDocData (d : MoveStats) : DocData :=
  { stretch := some d.stretch, workout := some d.workout, running := some d.running,
    sports := some d.sports, effort := some d.effort, calories := some d.calories,
    km := some d.km }

/-- The id of the document of a month: the month number as the template literal of the path
writes it. -/
def docId (month : Int) : String := toString month

/-- The months 1 to 12 in the order of their document ids, which is the order in which
`getDocs` returns the documents of a collection. -/
def firestoreMonthOrder : List Int := [1, 10, 11, 12, 2, 3, 4, 5, 6, 7, 8, 9]

/-- The months of a year. -/
def monthsOfYear : List Int := [1, 2, 3, 4, 5, 6, 7, 8, 9, 10, 11, 12]

/-- The result of `getDocs` on the collection of a year: the documents of the months that
have one, with the keys `saveStatistics` uses (1 to 12). -/
def Store.getDocs (st : Store) (year : Int) : List (String × DocData) :=
  firestoreMonthOrder.filterMap (fun m => (st year m).map (fun d => (docId m, d.toDocData)))

/-- The sum of a quantity over the twelve months of a year, a month without document counting
for 0. -/
def sumOverMonths {α : Type} [Add α] [Zero α] (st : Store) (year : Int) (f : MoveStats → α) :
    α :=
  (monthsOfYear.map (fun m => ((st year m).map f).getD 0)).sum

/-- The sum of doubles that `loadStats` makes of a field over the documents `getDocs`
returned: from 0, one document after the other, each sum rounded to a double. -/
def sumInOrder (docs : List (String × DocData)) (f : DocData → Option JsNum) : JsNum :=
  docs.foldl (fun acc doc => acc.add (orZeroNum (f doc.2))) 0

/-- Documents of March and July that hold the field `running` only. -/
def marchJulyDocs : List (String × DocData) :=
  [("3", { stretch := none, workout := none, running := some 2, sports := none,
           effort := none, calories := none, km := none }),
   ("7", { stretch := none, workout := none, running := some 3, sports := none,
           effort := none, calories := none, km := none })]

/-- A store with documents for March and July 2025 only. -/
def marchJulyStore : Store :=
  (emptyStore.setDoc 2025 3
      { stretch := 0, workout := 0, running := 2, sports := 0, effort := [], calories := 0,
        km := 0 }).setDoc 2025 7
    { stretch := 0, workout := 0, running := 3, sports := 0, effort := [4],
      calories := 120, km := 0 }

/-- Documents of March and July with 100 and 120 calories and nothing else. -/
def caloriesDocs : List (String × DocData) :=
  [("3", { stretch := none, workout := none, running := none, sports := none,
           effort := none, calories := some 100, km := none }),
   ("7", { stretch := none, workout := none, running := none, sports := none,
           effort := none, calories := some 120, km := none })]

/-- An empty document but for the field `km`. -/
def kmOnly (km : JsNum) : DocData :=
  { stretch := none, workout := none, running := none, sports := none, effort := none,
    calories := none, km := some km }

/-- Documents of January, February and March with the distances 0.1, 0.2 and 0.3. -/
def tenthsDocs : List (String × DocData) :=
  [("1", kmOnly (parseFloat "0.1")), ("2", kmOnly (parseFloat "0.2")),
   ("3", kmOnly (parseFloat "0.3"))]

/-! ## `calculateAvgEffort` (Move.jsx) -/

/-- The sum `effortArray.reduce((acc, val) => acc + val, 0)` of the samples, which is a sum
of doubles. -/
def sumEffort (effortArray : List JsNum) : JsNum :=
  effortArray.foldl JsNum.add 0

/-- The quotient `sum / effortArray.length`, rounded to a double; a division by 0 gives `NaN`
or an infinity. -/
def divideByLength (sum : JsNum) (length : Nat) : JsNum := sum.divNat length

/-- The whole number `n` for which `n / 10 - x` is as close to zero as possible, the larger
one when there are two, for the number `x = m * 2 ^ e` that is not negative. -/
def nearestTenths (m : Nat) (e : Int) : Nat :=
  if 0 ≤ e then 10 * m * 2 ^ e.toNat
  else (20 * m + 2 ^ (-e).toNat) / 2 ^ ((-e).toNat + 1)

/-- The text `toFixed(1)` makes: `NaN`; or a sign and a number of tenths, written with one
digit after the point; or, for an infinity and for a magnitude from `10 ^ 21`, the text
`toString()` makes of the number. -/
inductive FixedText
  | nan
  | decimal (negative : Bool) (tenths : Nat)
  | large (x : JsNum)
  deriving DecidableEq

/-- The method `toFixed(1)` of a number: the tenths are those nearest to the exact value of
the double. -/
def toFixed1 : JsNum → FixedText
  | JsNum.nan => FixedText.nan
  | JsNum.infinity a => FixedText.large (JsNum.infinity a)
  | JsNum.finite m e =>
    if 10 ^ 21 * 2 ^ (-e).toNat ≤ m.natAbs * 2 ^ e.toNat then FixedText.large (JsNum.finite m e)
    else FixedText.decimal (decide (m < 0)) (nearestTenths m.natAbs e)

/-- The characters of the text `toFixed(1)` makes. -/
def FixedText.text : FixedText → String
  | FixedText.nan => "NaN"
  | FixedText.decimal negative tenths =>
    (if negative then "-" else "") ++ toString (tenths / 10) ++ "." ++ toString (tenths % 10)
  | FixedText.large x => x.toString

/-- What `calculateAvgEffort` returns: the number 0, or the text `toFixed(1)` made. -/
inductive AvgEffort
  | zero
  | fixed (t : FixedText)
  deriving DecidableEq

/-- The function `calculateAvgEffort`; `none` is an argument that is `undefined`. -/
def calculateAvgEffort (effortArray : Option (List JsNum)) : AvgEffort :=
  match effortArray with
  | none => AvgEffort.zero
  | some arr =>
    if arr.length = 0 then AvgEffort.zero
    else AvgEffort.fixed (toFixed1 (divideByLength (sumEffort arr) arr.length))

/-! ## `formatTime` (RoutineExecution.jsx) -/

/-- The method `padStart(targetLength, fill)` with a fill of one character. -/
def padStart (s : String) (targetLength : Nat) (fill : Char) : String :=
  String.mk (List.replicate (targetLength - s.length) fill ++ s.toList)

/-- The function `formatTime`, on the double `seconds`: the quotients are rounded to doubles
before `Math.floor`, the remainders are exact, and each field is the text `toString()` makes
of its number. -/
def formatTime (seconds : JsNum) : String :=
  let hours := (seconds.divNat 3600).floor
  let minutes := ((seconds.modNat 3600).divNat 60).floor
  let secs := seconds.modNat 60
  padStart hours.toString 2 '0' ++ ":" ++ padStart minutes.toString 2 '0' ++ ":"
    ++ padStart secs.toString 2 '0'

/-! ## Further notions used in the statements -/

/-- Text that is a decimal number written in plain digits, such as `5`, `5.2` or `0.75`:
digits, optionally followed by a point and more digits. -/
def decimalText (s : String) : Bool :=
  !(s.toList.takeWhile Char.isDigit).isEmpty
    && ((s.toList.dropWhile Char.isDigit).isEmpty
        || ((s.toList.dropWhile Char.isDigit).head? == some '.'
            && !(s.toList.dropWhile Char.isDigit).tail.isEmpty
            && (s.toList.dropWhile Char.isDigit).tail.all Char.isDigit))

/-- The store after one call of `saveStatistics` whose store calls resolve with nothing in
between: the month document of the date is the saved one. -/
def recordCompletion (env : Env) (type : RoutineType) (statsData : StatsData) (st : Store) :
    Store :=
  st.setDoc env.now.fullYear env.now.monthKey
    (savedDoc type statsData (st env.now.fullYear env.now.monthKey))

/-- The workout counter and the effort samples of a month, 0 and none where the month has no
document. -/
def workoutAndEffort (st : Store) (year month : Int) : Int × List JsNum :=
  (((st year month).map (fun d => d.workout)).getD 0,
   ((st year month).map (fun d => d.effort)).getD [])

/-- An outcome with effort 3 only. -/
def effortThree : StatsData := { effort := some "3", calories := none, km := none }

/-- An outcome with effort 5 only. -/
def effortFive : StatsData := { effort := some "5", calories := none, km := none }

/-- An outcome with effort 4 and 100 calories. -/
def effortFourOutcome : StatsData := { effort := some "4", calories := some "100", km := none }

/-- An outcome with effort 5 and 200 calories. -/
def effortFiveOutcome : StatsData := { effort := some "5", calories := some "200", km := none }

/-- The store after the writes of a list have reached it one after the other at one key;
`none` when an `updateDoc` among them finds no document. -/
def applyWrites (st : Store) (year month : Int) : List Write → Option Store
  | [] => some st
  | w :: ws => (st.applyWrite year month w).bind (fun st1 => applyWrites st1 year month ws)

/-- The workout counter, the effort samples and the calories of the month document that a
list of writes leaves. -/
def afterWrites (st : Store) (year month : Int) (ws : List Write) :
    Option (Int × List JsNum × JsNum) :=
  ((applyWrites st year month ws).bind (fun st1 => st1 year month)).map
    (fun d => (d.workout, d.effort, d.calories))

/-- A number that is not negative: not `NaN`, and not below 0. -/
def JsNum.nonNegative : JsNum → Bool
  | JsNum.nan => false
  | JsNum.infinity a => !a
  | JsNum.finite m _ => decide (0 ≤ m)

/-- The invariant of a month document: the four counters are not negative, every effort
sample is a whole number from 1 to 5, and `calories` and `km` are numbers that are not
negative. -/
def MoveStats.valid (d : MoveStats) : Bool :=
  decide (0 ≤ d.stretch) && decide (0 ≤ d.workout) && decide (0 ≤ d.running)
    && decide (0 ≤ d.sports)
    && d.effort.all (fun x => decide (x ∈ ([1, 2, 3, 4, 5] : List JsNum)))
    && d.calories.nonNegative
    && d.km.nonNegative

/-- A statistics document of March 2025 with one running completion of 0.1 km in it. -/
def tenthKmDoc : MoveStats :=
  { stretch := 0, workout := 0, running := 1, sports := 0,
    effort := [3], calories := 0, km := parseFloat "0.1" }

/-- The sample workout routine with the outcome form shown, over a store whose only document
is `tenthKmDoc`. -/
def tenthKmPage : Page := { awaitingPage with store := emptyStore.setDoc 2025 3 tenthKmDoc }

/-- A routine of two series of two exercises whose `series` field is text, as the routine
form stores it once the field has been edited. -/
def textSeriesRoutine (type : RoutineType) : Routine :=
  { name := "Edited", type := type, series := JsValue.string "2", exercises := sampleExercises }

/-! ## Auxiliary facts on the rounding to a double -/

theorem bitLengthAux_spec (fuel n : Nat) (hn : 0 < n) (hfuel : n ≤ fuel) :
    2 ^ (bitLengthAux fuel n - 1) ≤ n ∧ n < 2 ^ bitLengthAux fuel n := by
  induction fuel generalizing n with
  | zero => omega
  | succ fuel ih =>
    have hne : n ≠ 0 := by omega
    simp only [bitLengthAux, hne, if_false, Nat.add_sub_cancel]
    by_cases h2 : n / 2 = 0
    · have hn1 : n = 1 := by omega
      subst hn1
      cases fuel <;> simp [bitLengthAux]
    · have hpos : 0 < n / 2 := Nat.pos_of_ne_zero h2
      obtain ⟨hlo, hhi⟩ := ih (n / 2) hpos (by omega)
      have hbl : 0 < bitLengthAux fuel (n / 2) := by
        by_contra hzero
        have : bitLengthAux fuel (n / 2) = 0 := by omega
        rw [this] at hhi
        simp at hhi
        omega
      constructor
      · have : 2 ^ bitLengthAux fuel (n / 2) = 2 ^ (bitLengthAux fuel (n / 2) - 1) * 2 := by
          rw [← Nat.pow_succ]
          congr 1
          omega
        rw [this]
        omega
      · rw [Nat.pow_succ]
        omega

/-- A positive number has `bitLength` binary digits. -/
theorem bitLength_spec (n : Nat) (hn : 0 < n) :
    2 ^ (bitLength n - 1) ≤ n ∧ n < 2 ^ bitLength n ∧ 0 < bitLength n := by
  obtain ⟨h1, h2⟩ := bitLengthAux_spec n n hn (le_refl _)
  refine ⟨h1, h2, ?_⟩
  by_contra hzero
  have h0 : bitLength n = 0 := by omega
  unfold bitLength at h0
  rw [h0] at h2
  simp at h2
  omega

/-- The exponent `log2Ratio` finds is not above the quotient: `d * 2 ^ e ≤ n`. -/
theorem log2Ratio_le (n d : Nat) (hn : 0 < n) (hd : 0 < d) (h : 0 ≤ log2Ratio n d) :
    d * 2 ^ (log2Ratio n d).toNat ≤ n := by
  obtain ⟨hn1, hn2, hn3⟩ := bitLength_spec n hn
  obtain ⟨hd1, hd2, hd3⟩ := bitLength_spec d hd
  unfold log2Ratio at h ⊢
  simp only at h ⊢
  by_cases hc : d * 2 ^ ((bitLength n : Int) - (bitLength d : Int)).toNat
      ≤ n * 2 ^ (-((bitLength n : Int) - (bitLength d : Int))).toNat
  · rw [if_pos hc] at h ⊢
    have hz : (-((bitLength n : Int) - (bitLength d : Int))).toNat = 0 := by omega
    rw [hz] at hc
    simpa using hc
  · rw [if_neg hc] at h ⊢
    have hge : bitLength d + 1 ≤ bitLength n := by omega
    have hexp : ((bitLength n : Int) - (bitLength d : Int) - 1).toNat
        = bitLength n - bitLength d - 1 := by omega
    rw [hexp]
    have hlt : d * 2 ^ (bitLength n - bitLength d - 1)
        < 2 ^ bitLength d * 2 ^ (bitLength n - bitLength d - 1) :=
      Nat.mul_lt_mul_of_pos_right hd2 (by positivity)
    rw [← Nat.pow_add] at hlt
    have heq : bitLength d + (bitLength n - bitLength d - 1) = bitLength n - 1 := by omega
    rw [heq] at hlt
    omega

/-- The quotient below `2 ^ b` has an exponent below `b`. -/
theorem log2Ratio_lt (n d b : Nat) (hn : 0 < n) (hd : 0 < d) (h : n < d * 2 ^ b) :
    log2Ratio n d < (b : Int) := by
  by_contra hge
  have h0 : 0 ≤ log2Ratio n d := by omega
  have hle := log2Ratio_le n d hn hd h0
  have hb : b ≤ (log2Ratio n d).toNat := by omega
  have hpow : 2 ^ b ≤ 2 ^ (log2Ratio n d).toNat := Nat.pow_le_pow_right (by decide) hb
  have : d * 2 ^ b ≤ d * 2 ^ (log2Ratio n d).toNat := Nat.mul_le_mul_left d hpow
  omega

/-- The rounded quotient is within a half of the quotient. -/
theorem divRoundEven_bounds (n d : Nat) (hd : 0 < d) :
    2 * d * divRoundEven n d ≤ 2 * n + d ∧ 2 * n ≤ 2 * d * divRoundEven n d + d := by
  have hdiv := Nat.div_add_mod n d
  have hmod := Nat.mod_lt n hd
  have hmul : 2 * d * (n / d) = 2 * (d * (n / d)) := by ring
  have hmul1 : 2 * d * (n / d + 1) = 2 * (d * (n / d)) + 2 * d := by ring
  unfold divRoundEven
  split_ifs <;> constructor <;> (first | rw [hmul] | rw [hmul1]) <;> omega

/-- An exact quotient is not changed by the rounding. -/
theorem divRoundEven_exact (c d : Nat) (hd : 0 < d) : divRoundEven (c * d) d = c := by
  unfold divRoundEven
  have h1 : c * d % d = 0 := Nat.mul_mod_left c d
  have h2 : c * d / d = c := Nat.mul_div_cancel c hd
  simp [h1, h2, hd]

/-- The rounded quotient is not below a whole number that the quotient is not below. -/
theorem le_divRoundEven (n d c : Nat) (hd : 0 < d) (h : c * d ≤ n) : c ≤ divRoundEven n d := by
  have hq : c ≤ n / d := (Nat.le_div_iff_mul_le hd).mpr h
  unfold divRoundEven
  split_ifs <;> omega

/-- The rounded quotient is not above a whole number that the quotient is not above. -/
theorem divRoundEven_le (n d c : Nat) (hd : 0 < d) (h : n ≤ c * d) : divRoundEven n d ≤ c := by
  have hdiv := Nat.div_add_mod n d
  have hmod := Nat.mod_lt n hd
  have hq : n / d ≤ c := by
    have := Nat.div_le_div_right (c := d) h
    rwa [Nat.mul_div_cancel c hd] at this
  by_cases hqc : n / d = c
  · have hzero : n % d = 0 := by
      have h1 : d * c + n % d ≤ c * d := by rw [← hqc] at h ⊢; rw [hqc]; rw [← hqc]; omega
      have h2 : d * c = c * d := Nat.mul_comm d c
      omega
    unfold divRoundEven
    simp [hzero, hd, hqc]
  · unfold divRoundEven
    split_ifs <;> omega

/-- The value of the double nearest to a quotient below `2 ^ 53`: the quotient of
`n * 2 ^ K` by `d`, rounded to a whole number, over `2 ^ K`, where `K` is at least `53 - b`
when the quotient is below `2 ^ b`. -/
theorem ofRatio_value (negative : Bool) (n d : Nat) (hn : 0 < n) (hd : 0 < d)
    (h : n < d * 2 ^ 53) :
    ∃ K : Nat,
      (∀ b : Nat, n < d * 2 ^ b → 53 ≤ K + b)
      ∧ (JsNum.ofRatio negative n d).toRat
          = some ((if negative then -1 else 1) * ((divRoundEven (n * 2 ^ K) d : Nat) : ℚ)
              / (2 : ℚ) ^ K) := by
  have hE : log2Ratio n d < 53 := by exact_mod_cast log2Ratio_lt n d 53 hn hd h
  refine ⟨(52 - max (log2Ratio n d) (-1022)).toNat, ?_, ?_⟩
  · intro b hb
    have := log2Ratio_lt n d b hn hd hb
    omega
  · have hk : max (log2Ratio n d) (-1022) - 52 ≤ 0 := by omega
    have hK1 : (-(max (log2Ratio n d) (-1022) - 52)).toNat
        = (52 - max (log2Ratio n d) (-1022)).toNat := by
      congr 1
      omega
    have hK2 : (max (log2Ratio n d) (-1022) - 52).toNat = 0 := by omega
    have hkK : max (log2Ratio n d) (-1022) - 52
        = -(((52 - max (log2Ratio n d) (-1022)).toNat : Nat) : Int) := by omega
    have hpow : (2 : ℚ) ^ (max (log2Ratio n d) (-1022) - 52)
        = 1 / (2 : ℚ) ^ (52 - max (log2Ratio n d) (-1022)).toNat := by
      rw [hkK, zpow_neg, zpow_natCast, one_div]
    have hne : n ≠ 0 := by omega
    unfold JsNum.ofRatio
    simp only [hne, if_false, hK1, hK2, pow_zero, mul_one]
    generalize (52 - max (log2Ratio n d) (-1022)).toNat = K at hpow hkK ⊢
    generalize hm : divRoundEven (n * 2 ^ K) d = m
    by_cases hcarry : m = 2 ^ 53
    · have h1 : ¬ (2 : Nat) ^ 52 = 0 := by decide
      have h2 : ¬ (971 : Int) < max (log2Ratio n d) (-1022) - 52 + 1 := by omega
      simp only [hcarry, if_true, h1, if_false, h2, JsNum.toRat]
      have hpow1 : (2 : ℚ) ^ (max (log2Ratio n d) (-1022) - 52 + 1)
          = 2 / (2 : ℚ) ^ K := by
        rw [zpow_add_one₀ (by norm_num), hpow]
        ring
      rw [hpow1]
      cases negative <;> simp <;> ring
    · by_cases hzero : m = 0
      · simp [hcarry, hzero, JsNum.toRat]
      · have h2 : ¬ (971 : Int) < max (log2Ratio n d) (-1022) - 52 := by omega
        simp only [hcarry, if_false, hzero, h2, JsNum.toRat, hpow]
        cases negative <;> simp <;> ring

/-- The double nearest to a whole number below `2 ^ 53`, given as an exact quotient, is that
number. -/
theorem ofRatio_exact (negative : Bool) (c d : Nat) (hc : 0 < c) (hd : 0 < d)
    (h : c < 2 ^ 53) :
    (JsNum.ofRatio negative (c * d) d).toRat
      = some ((if negative then -1 else 1) * (c : ℚ)) := by
  have hlt : c * d < d * 2 ^ 53 := by
    rw [Nat.mul_comm c d]
    exact Nat.mul_lt_mul_of_pos_left h hd
  obtain ⟨K, _, hv⟩ := ofRatio_value negative (c * d) d (Nat.mul_pos hc hd) hd hlt
  rw [hv]
  have hexact : divRoundEven (c * d * 2 ^ K) d = c * 2 ^ K := by
    have : c * d * 2 ^ K = c * 2 ^ K * d := by ring
    rw [this]
    exact divRoundEven_exact _ d hd
  rw [hexact]
  have hpos : (2 : ℚ) ^ K ≠ 0 := by positivity
  congr 1
  push_cast
  field_simp

/-- The double nearest to a quotient is not below a whole number that the quotient is not
below, nor above one that the quotient is not above, and it is within `1 / 2 ^ (K + 1)` of
the quotient. -/
theorem ofRatio_bounds (n d : Nat) (hn : 0 < n) (hd : 0 < d) (h : n < d * 2 ^ 53) :
    ∃ (K : Nat) (x : ℚ),
      (∀ b : Nat, n < d * 2 ^ b → 53 ≤ K + b)
      ∧ (JsNum.ofRatio false n d).toRat = some x
      ∧ (∀ c : Nat, c * d ≤ n → (c : ℚ) ≤ x)
      ∧ (∀ c : Nat, n ≤ c * d → x ≤ (c : ℚ))
      ∧ |x - (n : ℚ) / (d : ℚ)| ≤ 1 / (2 : ℚ) ^ (K + 1) := by
  obtain ⟨K, hK, hv⟩ := ofRatio_value false n d hn hd h
  refine ⟨K, ((divRoundEven (n * 2 ^ K) d : Nat) : ℚ) / (2 : ℚ) ^ K, hK, ?_, ?_, ?_, ?_⟩
  · rw [hv]
    simp
  · intro c hc
    have hle : c * 2 ^ K ≤ divRoundEven (n * 2 ^ K) d := by
      apply le_divRoundEven _ _ _ hd
      calc c * 2 ^ K * d = c * d * 2 ^ K := by ring
        _ ≤ n * 2 ^ K := Nat.mul_le_mul_right _ hc
    have hq : ((c * 2 ^ K : Nat) : ℚ) ≤ ((divRoundEven (n * 2 ^ K) d : Nat) : ℚ) := by
      exact_mod_cast hle
    have hpos : (0 : ℚ) < (2 : ℚ) ^ K := by positivity
    rw [le_div_iff₀ hpos]
    push_cast at hq
    exact hq
  · intro c hc
    have hle : divRoundEven (n * 2 ^ K) d ≤ c * 2 ^ K := by
      apply divRoundEven_le _ _ _ hd
      calc n * 2 ^ K ≤ c * d * 2 ^ K := Nat.mul_le_mul_right _ hc
        _ = c * 2 ^ K * d := by ring
    have hq : ((divRoundEven (n * 2 ^ K) d : Nat) : ℚ) ≤ ((c * 2 ^ K : Nat) : ℚ) := by
      exact_mod_cast hle
    have hpos : (0 : ℚ) < (2 : ℚ) ^ K := by positivity
    rw [div_le_iff₀ hpos]
    push_cast at hq
    exact hq
  · obtain ⟨hb1, hb2⟩ := divRoundEven_bounds (n * 2 ^ K) d hd
    have hq1 : ((2 * d * divRoundEven (n * 2 ^ K) d : Nat) : ℚ)
        ≤ ((2 * (n * 2 ^ K) + d : Nat) : ℚ) := by exact_mod_cast hb1
    have hq2 : ((2 * (n * 2 ^ K) : Nat) : ℚ)
        ≤ ((2 * d * divRoundEven (n * 2 ^ K) d + d : Nat) : ℚ) := by exact_mod_cast hb2
    push_cast at hq1 hq2
    have hpos : (0 : ℚ) < (2 : ℚ) ^ K := by positivity
    have hdpos : (0 : ℚ) < (d : ℚ) := by exact_mod_cast hd
    have hkey : ((divRoundEven (n * 2 ^ K) d : Nat) : ℚ) / (2 : ℚ) ^ K - (n : ℚ) / (d : ℚ)
        = (2 * (d : ℚ) * ((divRoundEven (n * 2 ^ K) d : Nat) : ℚ) - 2 * ((n : ℚ) * 2 ^ K))
            / (2 * (d : ℚ) * 2 ^ K) := by
      field_simp
      ring
    rw [hkey, abs_le]
    have hden : (0 : ℚ) < 2 * (d : ℚ) * 2 ^ K := by positivity
    have hhalf : (1 : ℚ) / 2 ^ (K + 1) = (d : ℚ) / (2 * (d : ℚ) * 2 ^ K) := by
      rw [pow_succ]
      field_simp
      ring
    rw [hhalf]
    constructor
    · rw [neg_le, ← neg_div, div_le_div_iff_of_pos_right hden]
      linarith
    · rw [div_le_div_iff_of_pos_right hden]
      linarith

theorem toRat_eq_some (x : JsNum) (v : ℚ) (h : x.toRat = some v) :
    ∃ m e : Int, x = JsNum.finite m e ∧ (m : ℚ) * (2 : ℚ) ^ e = v := by
  cases x with
  | nan => simp [JsNum.toRat] at h
  | infinity a => simp [JsNum.toRat] at h
  | finite m e =>
    refine ⟨m, e, rfl, ?_⟩
    simpa [JsNum.toRat] using h

/-- A whole number given with a binary exponent, as a quotient of natural numbers. -/
theorem scaled_as_quotient (s : Int) (e : Int) (c : Int) (h : (s : ℚ) * (2 : ℚ) ^ e = (c : ℚ)) :
    s.natAbs * 2 ^ e.toNat = c.natAbs * 2 ^ (-e).toNat ∧ (s < 0 ↔ c < 0) := by
  have hpos : (0 : ℚ) < (2 : ℚ) ^ e := by positivity
  have hsign : s < 0 ↔ c < 0 := by
    constructor
    · intro hs
      have : (s : ℚ) < 0 := by exact_mod_cast hs
      have : (c : ℚ) < 0 := by rw [← h]; exact mul_neg_of_neg_of_pos this hpos
      exact_mod_cast this
    · intro hc
      have hc1 : (c : ℚ) < 0 := by exact_mod_cast hc
      rw [← h] at hc1
      have : (s : ℚ) < 0 := by
        by_contra hge
        have := mul_nonneg (not_lt.mp hge) hpos.le
        linarith
      exact_mod_cast this
  refine ⟨?_, hsign⟩
  have habs : |(s : ℚ)| * (2 : ℚ) ^ e = |(c : ℚ)| := by
    rw [← h, abs_mul, abs_of_pos hpos]
  by_cases he : 0 ≤ e
  · obtain ⟨k, hk⟩ := Int.eq_ofNat_of_zero_le he
    subst hk
    have h1 : (-(k : Int)).toNat = 0 := by omega
    rw [h1, pow_zero, mul_one, Int.toNat_ofNat]
    rw [zpow_natCast] at habs
    have : ((s.natAbs * 2 ^ k : Nat) : ℚ) = ((c.natAbs : Nat) : ℚ) := by
      push_cast
      rw [Nat.cast_natAbs, Nat.cast_natAbs]
      push_cast
      exact habs
    exact_mod_cast this
  · have hneg : e = -(((-e).toNat : Nat) : Int) := by omega
    have h1 : e.toNat = 0 := by omega
    rw [h1, pow_zero, mul_one]
    rw [hneg, zpow_neg, zpow_natCast] at habs
    have hp : (0 : ℚ) < (2 : ℚ) ^ (-e).toNat := by positivity
    have : ((s.natAbs : Nat) : ℚ) = ((c.natAbs * 2 ^ (-e).toNat : Nat) : ℚ) := by
      push_cast
      rw [Nat.cast_natAbs, Nat.cast_natAbs]
      push_cast
      field_simp at habs
      linarith
    exact_mod_cast this

/-- The double nearest to a whole number below `2 ^ 53` in magnitude, given with a binary
exponent, is that number. -/
theorem ofScaled_exact (s : Int) (e : Int) (c : Int) (h : (s : ℚ) * (2 : ℚ) ^ e = (c : ℚ))
    (hc : c.natAbs < 2 ^ 53) : (JsNum.ofScaled s e).toRat = some (c : ℚ) := by
  obtain ⟨hq, hsign⟩ := scaled_as_quotient s e c h
  unfold JsNum.ofScaled
  rw [hq]
  by_cases hzero : c = 0
  · subst hzero
    simp [JsNum.ofRatio, JsNum.toRat]
  · have hpos : 0 < c.natAbs := Int.natAbs_pos.mpr hzero
    rw [ofRatio_exact _ c.natAbs _ hpos (by positivity) hc]
    congr 1
    by_cases hneg : c < 0
    · have hs : s < 0 := hsign.mpr hneg
      simp only [hs, decide_True, if_true]
      rw [Nat.cast_natAbs]
      push_cast
      rw [abs_of_neg (by exact_mod_cast hneg)]
      ring
    · have hs : ¬ s < 0 := fun hs => hneg (hsign.mp hs)
      simp only [hs, decide_False, Bool.false_eq_true, if_false]
      rw [Nat.cast_natAbs]
      push_cast
      rw [abs_of_nonneg (by exact_mod_cast (not_lt.mp hneg))]
      ring

/-- A whole number below `2 ^ 53` in magnitude is a double. -/
theorem ofInt_toRat (n : Int) (h : n.natAbs < 2 ^ 53) : (JsNum.ofInt n).toRat = some (n : ℚ) := by
  have := ofScaled_exact n 0 n (by simp) h
  simpa [JsNum.ofScaled, JsNum.ofInt] using this

/-- The sum of two doubles is exact when it is a whole number below `2 ^ 53` in magnitude. -/
theorem add_exact (x y : JsNum) (a b : ℚ) (c : Int) (hx : x.toRat = some a)
    (hy : y.toRat = some b) (hsum : a + b = (c : ℚ)) (hc : c.natAbs < 2 ^ 53) :
    (x.add y).toRat = some (c : ℚ) := by
  obtain ⟨m1, e1, rfl, h1⟩ := toRat_eq_some x a hx
  obtain ⟨m2, e2, rfl, h2⟩ := toRat_eq_some y b hy
  simp only [JsNum.add]
  apply ofScaled_exact _ _ c _ hc
  have hd1 : (2 : ℚ) ^ e1 = (2 : ℚ) ^ (e1 - min e1 e2).toNat * (2 : ℚ) ^ (min e1 e2) := by
    rw [← zpow_natCast, ← zpow_add₀ (by norm_num)]
    congr 1
    omega
  have hd2 : (2 : ℚ) ^ e2 = (2 : ℚ) ^ (e2 - min e1 e2).toNat * (2 : ℚ) ^ (min e1 e2) := by
    rw [← zpow_natCast, ← zpow_add₀ (by norm_num)]
    congr 1
    omega
  rw [← hsum, ← h1, ← h2]
  push_cast
  rw [hd1, hd2]
  ring

/-- The function `Math.floor` gives the floor of the value, when that is below `2 ^ 53` in
magnitude. -/
theorem floor_toRat (x : JsNum) (v : ℚ) (hx : x.toRat = some v) (h : ⌊v⌋.natAbs < 2 ^ 53) :
    x.floor.toRat = some ((⌊v⌋ : Int) : ℚ) := by
  obtain ⟨m, e, rfl, hv⟩ := toRat_eq_some x v hx
  simp only [JsNum.floor]
  by_cases he : 0 ≤ e
  · rw [if_pos he]
    obtain ⟨k, hk⟩ := Int.eq_ofNat_of_zero_le he
    subst hk
    have hint : v = ((m * 2 ^ k : Int) : ℚ) := by
      rw [← hv, zpow_natCast]
      push_cast
      ring
    rw [hx, hint, Int.floor_intCast]
  · rw [if_neg he]
    have hneg : e = -(((-e).toNat : Nat) : Int) := by omega
    have hfloor : ⌊v⌋ = m / 2 ^ (-e).toNat := by
      have hp : (2 : ℚ) ^ e = 1 / (((2 ^ (-e).toNat : Nat)) : ℚ) := by
        rw [one_div, Nat.cast_pow, Nat.cast_ofNat, ← zpow_natCast, ← zpow_neg]
        congr 1
      rw [← hv, hp, mul_one_div, Rat.floor_intCast_div_natCast]
      push_cast
      rfl
    rw [hfloor] at h ⊢
    exact ofInt_toRat _ h

/-- The remainder of a whole number that is not negative by a positive one below `2 ^ 53` is
the remainder of the whole numbers. -/
theorem modNat_toRat (x : JsNum) (s d : Nat) (hx : x.toRat = some (s : ℚ)) (hd : 0 < d)
    (hd53 : d < 2 ^ 53) : (x.modNat d).toRat = some (((s % d : Nat) : Int) : ℚ) := by
  obtain ⟨m, e, rfl, hv⟩ := toRat_eq_some x _ hx
  have hv1 : (m : ℚ) * (2 : ℚ) ^ e = ((s : Int) : ℚ) := by simpa using hv
  obtain ⟨hq, hsign⟩ := scaled_as_quotient m e (s : Int) hv1
  have hm : ¬ m < 0 := fun h => by
    have := hsign.mp h
    omega
  have hdne : d ≠ 0 := by omega
  have hmodlt : (s % d) < 2 ^ 53 := lt_trans (Nat.mod_lt s hd) hd53
  simp only [Int.natAbs_ofNat] at hq
  unfold JsNum.modNat
  simp only [hdne, if_false, hm, one_mul]
  by_cases he : 0 ≤ e
  · rw [if_pos he]
    have h1 : (-e).toNat = 0 := by omega
    rw [h1, pow_zero, mul_one] at hq
    rw [hq]
    apply ofInt_toRat
    simpa using hmodlt
  · rw [if_neg he]
    have h1 : e.toNat = 0 := by omega
    rw [h1, pow_zero, mul_one] at hq
    rw [hq, Nat.mul_mod_mul_right]
    apply ofScaled_exact
    · have hneg : e = -(((-e).toNat : Nat) : Int) := by omega
      have hp : (2 : ℚ) ^ e = 1 / (2 : ℚ) ^ (-e).toNat := by
        rw [one_div, ← zpow_natCast, ← zpow_neg]
        congr 1
      rw [hp]
      push_cast
      field_simp
    · simpa using hmodlt

/-- The floor of the quotient of a whole number `s` below `2 ^ 53` by a whole number `d` is
the quotient of the whole numbers, when the rounding of the quotient is finer than
`1 / d`. -/
theorem floor_divNat_toRat (x : JsNum) (s d b : Nat) (hx : x.toRat = some (s : ℚ))
    (hd : 0 < d) (hs : s < 2 ^ 53) (hb : s < d * 2 ^ b) (hfine : d * 2 ^ b < 2 ^ 54) :
    (x.divNat d).floor.toRat = some (((s / d : Nat) : Int) : ℚ) := by
  obtain ⟨m, e, rfl, hv⟩ := toRat_eq_some x _ hx
  have hv1 : (m : ℚ) * (2 : ℚ) ^ e = ((s : Int) : ℚ) := by simpa using hv
  obtain ⟨hq, hsign⟩ := scaled_as_quotient m e (s : Int) hv1
  have hm : ¬ m < 0 := fun h => by
    have := hsign.mp h
    omega
  have hdne : d ≠ 0 := by omega
  simp only [Int.natAbs_ofNat] at hq
  unfold JsNum.divNat
  simp only [hdne, if_false, hm, decide_False, hq]
  have ht : 0 < 2 ^ (-e).toNat := by positivity
  generalize 2 ^ (-e).toNat = t at ht
  by_cases hs0 : s = 0
  · subst hs0
    simp [JsNum.ofRatio, JsNum.floor, JsNum.toRat]
  · have hspos : 0 < s := Nat.pos_of_ne_zero hs0
    have hlt : s * t < d * t * 2 ^ 53 := by
      have : s * t < 2 ^ 53 * t := Nat.mul_lt_mul_of_pos_right hs ht
      have hd1 : 2 ^ 53 * t ≤ d * t * 2 ^ 53 := by
        calc 2 ^ 53 * t = 1 * t * 2 ^ 53 := by ring
          _ ≤ d * t * 2 ^ 53 := by
            apply Nat.mul_le_mul_right
            apply Nat.mul_le_mul_right
            exact hd
      omega
    obtain ⟨K, y, hK, hy, hlo, hhi, herr⟩ :=
      ofRatio_bounds (s * t) (d * t) (Nat.mul_pos hspos ht) (Nat.mul_pos hd ht) hlt
    have hKb : 53 ≤ K + b := by
      apply hK
      calc s * t < d * 2 ^ b * t := Nat.mul_lt_mul_of_pos_right hb ht
        _ = d * t * 2 ^ b := by ring
    have hdiv := Nat.div_add_mod s d
    have hmod := Nat.mod_lt s hd
    have hylo : ((s / d : Nat) : ℚ) ≤ y := by
      apply hlo
      calc s / d * (d * t) = d * (s / d) * t := by ring
        _ ≤ s * t := by
          apply Nat.mul_le_mul_right
          omega
    have hratio : ((s * t : Nat) : ℚ) / ((d * t : Nat) : ℚ) = (s : ℚ) / (d : ℚ) := by
      push_cast
      have htq : (t : ℚ) ≠ 0 := by exact_mod_cast (Nat.pos_iff_ne_zero.mp ht)
      have hdq : (d : ℚ) ≠ 0 := by exact_mod_cast hdne
      field_simp
      ring
    rw [hratio] at herr
    have hdq : (0 : ℚ) < (d : ℚ) := by exact_mod_cast hd
    have hsd : (s : ℚ) / (d : ℚ) ≤ ((s / d : Nat) : ℚ) + 1 - 1 / (d : ℚ) := by
      rw [div_le_iff₀ hdq]
      have h1 : (s : ℚ) = ((d * (s / d) + s % d : Nat) : ℚ) := by rw [hdiv]
      have h2 : ((s % d : Nat) : ℚ) ≤ (d : ℚ) - 1 := by
        have : s % d + 1 ≤ d := hmod
        have : ((s % d + 1 : Nat) : ℚ) ≤ (d : ℚ) := by exact_mod_cast this
        push_cast at this
        linarith
      rw [h1]
      push_cast
      have : (((s / d : Nat) : ℚ) + 1 - 1 / (d : ℚ)) * (d : ℚ)
          = (d : ℚ) * ((s / d : Nat) : ℚ) + ((d : ℚ) - 1) := by
        field_simp
        ring
      rw [this]
      linarith
    have hsmall : (1 : ℚ) / (2 : ℚ) ^ (K + 1) < 1 / (d : ℚ) := by
      apply one_div_lt_one_div_of_lt hdq
      have h54 : 2 ^ 54 ≤ 2 ^ (K + 1) * 2 ^ b := by
        rw [← Nat.pow_add]
        apply Nat.pow_le_pow_right (by decide)
        omega
      have hnat : d < 2 ^ (K + 1) := by
        by_contra hge
        have hge1 : 2 ^ (K + 1) ≤ d := by omega
        have : 2 ^ (K + 1) * 2 ^ b ≤ d * 2 ^ b := Nat.mul_le_mul_right _ hge1
        omega
      exact_mod_cast hnat
    have hyhi : y < ((s / d : Nat) : ℚ) + 1 := by
      have := (abs_le.mp herr).2
      linarith
    have hfloor : ⌊y⌋ = ((s / d : Nat) : Int) := by
      rw [Int.floor_eq_iff]
      push_cast
      exact ⟨hylo, hyhi⟩
    have hres := floor_toRat _ y hy (by
      rw [hfloor]
      have : s / d ≤ s := Nat.div_le_self s d
      simp only [Int.natAbs_ofNat]
      omega)
    rw [hfloor] at hres
    exact hres

/-- The quotient of a whole number by a whole number, rounded to a double: it lies between
the whole numbers that bound the exact quotient, and within half a unit in the last place of
it. -/
theorem divNat_bounds (x : JsNum) (s d : Nat) (hx : x.toRat = some (s : ℚ)) (hs : 0 < s)
    (hd : 0 < d) (hs53 : s < 2 ^ 53) :
    ∃ (K : Nat) (y : ℚ),
      (∀ b : Nat, s < d * 2 ^ b → 53 ≤ K + b)
      ∧ (x.divNat d).toRat = some y
      ∧ (∀ c : Nat, c * d ≤ s → (c : ℚ) ≤ y)
      ∧ (∀ c : Nat, s ≤ c * d → y ≤ (c : ℚ))
      ∧ |y - (s : ℚ) / (d : ℚ)| ≤ 1 / (2 : ℚ) ^ (K + 1) := by
  obtain ⟨m, e, rfl, hv⟩ := toRat_eq_some x _ hx
  have hv1 : (m : ℚ) * (2 : ℚ) ^ e = ((s : Int) : ℚ) := by simpa using hv
  obtain ⟨hq, hsign⟩ := scaled_as_quotient m e (s : Int) hv1
  have hm : ¬ m < 0 := fun h => by
    have := hsign.mp h
    omega
  have hdne : d ≠ 0 := by omega
  simp only [Int.natAbs_ofNat] at hq
  unfold JsNum.divNat
  simp only [hdne, if_false, hm, decide_False, hq]
  have ht : 0 < 2 ^ (-e).toNat := by positivity
  generalize 2 ^ (-e).toNat = t at ht
  have hlt : s * t < d * t * 2 ^ 53 := by
    have : s * t < 2 ^ 53 * t := Nat.mul_lt_mul_of_pos_right hs53 ht
    have hd1 : 2 ^ 53 * t ≤ d * t * 2 ^ 53 := by
      calc 2 ^ 53 * t = 1 * t * 2 ^ 53 := by ring
        _ ≤ d * t * 2 ^ 53 := by
          apply Nat.mul_le_mul_right
          apply Nat.mul_le_mul_right
          exact hd
    omega
  obtain ⟨K, y, hK, hy, hlo, hhi, herr⟩ :=
    ofRatio_bounds (s * t) (d * t) (Nat.mul_pos hs ht) (Nat.mul_pos hd ht) hlt
  have hratio : ((s * t : Nat) : ℚ) / ((d * t : Nat) : ℚ) = (s : ℚ) / (d : ℚ) := by
    push_cast
    have htq : (t : ℚ) ≠ 0 := by exact_mod_cast (Nat.pos_iff_ne_zero.mp ht)
    have hdq : (d : ℚ) ≠ 0 := by exact_mod_cast hdne
    field_simp
    ring
  rw [hratio] at herr
  refine ⟨K, y, ?_, hy, ?_, ?_, herr⟩
  · intro b hb
    apply hK
    calc s * t < d * 2 ^ b * t := Nat.mul_lt_mul_of_pos_right hb ht
      _ = d * t * 2 ^ b := by ring
  · intro c hc
    apply hlo
    calc c * (d * t) = c * d * t := by ring
      _ ≤ s * t := Nat.mul_le_mul_right _ hc
  · intro c hc
    apply hhi
    calc s * t ≤ c * d * t := Nat.mul_le_mul_right _ hc
      _ = c * (d * t) := by ring

/-- The number of tenths `toFixed(1)` picks for `m * 2 ^ e` is the whole part of ten times
the number plus a half. -/
theorem nearestTenths_spec (m : Nat) (e : Int) :
    ((nearestTenths m e : Nat) : ℚ) ≤ 10 * ((m : ℚ) * (2 : ℚ) ^ e) + 1 / 2
    ∧ 10 * ((m : ℚ) * (2 : ℚ) ^ e) + 1 / 2 < ((nearestTenths m e : Nat) : ℚ) + 1 := by
  unfold nearestTenths
  by_cases he : 0 ≤ e
  · rw [if_pos he]
    have hp : (2 : ℚ) ^ e = ((2 ^ e.toNat : Nat) : ℚ) := by
      rw [Nat.cast_pow, ← zpow_natCast, Int.toNat_of_nonneg he]
      rfl
    rw [hp]
    push_cast
    constructor <;> nlinarith
  · rw [if_neg he]
    have hneg : e = -((-e).toNat : Int) := by
      rw [Int.toNat_of_nonneg (by omega)]
      omega
    have hp : (2 : ℚ) ^ e = 1 / ((2 ^ (-e).toNat : Nat) : ℚ) := by
      rw [Nat.cast_pow]
      nth_rewrite 1 [hneg]
      rw [zpow_neg, zpow_natCast]
      simp
    rw [hp, pow_succ]
    have ht : 0 < 2 ^ (-e).toNat := by positivity
    generalize 2 ^ (-e).toNat = t at ht
    have htq : (0 : ℚ) < (t : ℚ) := by exact_mod_cast ht
    have hkey : 10 * ((m : ℚ) * (1 / (t : ℚ))) + 1 / 2
        = ((20 * m + t : Nat) : ℚ) / ((t * 2 : Nat) : ℚ) := by
      push_cast
      field_simp
      ring
    have h2t : (0 : ℚ) < ((t * 2 : Nat) : ℚ) := by
      push_cast
      linarith
    rw [hkey]
    constructor
    · rw [le_div_iff₀ h2t]
      exact_mod_cast Nat.div_mul_le_self (20 * m + t) (t * 2)
    · rw [div_lt_iff₀ h2t]
      have := Nat.lt_div_mul_add (a := 20 * m + t) (b := t * 2) (by omega)
      have h2 : 20 * m + t < ((20 * m + t) / (t * 2) + 1) * (t * 2) := by
        rw [Nat.add_mul, Nat.one_mul]
        exact this
      exact_mod_cast h2

/-- A power of two with a whole exponent of either sign, as a quotient. -/
theorem zpow_two_split (e : Int) :
    (2 : ℚ) ^ e = ((2 ^ e.toNat : Nat) : ℚ) / ((2 ^ (-e).toNat : Nat) : ℚ) := by
  by_cases he : 0 ≤ e
  · have h0 : (-e).toNat = 0 := by
      rw [Int.toNat_eq_zero]
      omega
    rw [h0, Nat.cast_pow, ← zpow_natCast, Int.toNat_of_nonneg he]
    simp
  · have h0 : e.toNat = 0 := by
      rw [Int.toNat_eq_zero]
      omega
    have hneg : e = -((-e).toNat : Int) := by
      rw [Int.toNat_of_nonneg (by omega)]
      omega
    rw [h0, Nat.cast_pow]
    nth_rewrite 1 [hneg]
    rw [zpow_neg, zpow_natCast]
    simp

/-- The method `toFixed(1)` on a number below `10 ^ 21` in magnitude: the sign of the number
and the whole part of ten times its magnitude plus a half, as a number of tenths. -/
theorem toFixed1_of_value (x : JsNum) (v : ℚ) (hx : x.toRat = some v)
    (hsmall : |v| < 10 ^ 21) :
    ∃ n : Nat, toFixed1 x = FixedText.decimal (decide (v < 0)) n
      ∧ (n : ℚ) ≤ 10 * |v| + 1 / 2 ∧ 10 * |v| + 1 / 2 < (n : ℚ) + 1 := by
  obtain ⟨m, e, rfl, hv⟩ := toRat_eq_some x v hx
  have hpow : (0 : ℚ) < (2 : ℚ) ^ e := by positivity
  have habs : |v| = ((m.natAbs : Nat) : ℚ) * (2 : ℚ) ^ e := by
    rw [← hv, abs_mul, abs_of_pos hpow, Nat.cast_natAbs, Int.cast_abs]
  have hsign : decide (m < 0) = decide (v < 0) := by
    by_cases hm : m < 0
    · have : v < 0 := by
        rw [← hv]
        exact mul_neg_of_neg_of_pos (by exact_mod_cast hm) hpow
      simp [hm, this]
    · have : ¬ v < 0 := by
        rw [← hv, not_lt]
        exact mul_nonneg (by exact_mod_cast (not_lt.mp hm)) hpow.le
      simp [hm, this]
  have hnot : ¬ 10 ^ 21 * 2 ^ (-e).toNat ≤ m.natAbs * 2 ^ e.toNat := by
    intro hlarge
    have hB : (0 : ℚ) < ((2 ^ (-e).toNat : Nat) : ℚ) := by positivity
    have hq : ((10 ^ 21 * 2 ^ (-e).toNat : Nat) : ℚ) ≤ ((m.natAbs * 2 ^ e.toNat : Nat) : ℚ) := by
      exact_mod_cast hlarge
    have : (10 : ℚ) ^ 21 ≤ |v| := by
      rw [habs, zpow_two_split, ← mul_div_assoc, le_div_iff₀ hB]
      push_cast at hq ⊢
      exact hq
    linarith
  refine ⟨nearestTenths m.natAbs e, ?_, ?_⟩
  · simp only [toFixed1, hnot, if_false, hsign]
  · rw [habs]
    exact nearestTenths_spec m.natAbs e

/-! ## Auxiliary facts -/

theorem seriesCount_number (r : Routine) (n : Int) (h : r.series = JsValue.number n) :
    seriesCount r = some (n : ℚ) := by
  simp [seriesCount, h, JsValue.toNumber, Decimal.toRat]

theorem isLastSeries_false_of_lt (r : Routine) (s : Session) (c : ℚ)
    (hc : seriesCount r = some c) (hlt : (s.currentSeries : ℚ) < c) :
    isLastSeries r s = false := by
  unfold isLastSeries
  cases hs : r.series with
  | number n =>
    rw [seriesCount_number r n hs] at hc
    have hcn : (n : ℚ) = c := by simpa using hc
    have hne : s.currentSeries ≠ n := by
      intro h
      rw [h, hcn] at hlt
      exact lt_irrefl _ hlt
    simp [strictEquals, hne]
  | string t => simp [strictEquals]

/-- A `series` field that holds text is never strictly equal to `currentSeries`. -/
theorem isLastSeries_string (r : Routine) (s : Session) (t : String)
    (h : r.series = JsValue.string t) : isLastSeries r s = false := by
  simp [isLastSeries, h, strictEquals]

/-- A page is AwaitingOutcome exactly when the component is mounted and shows the outcome
form. -/
theorem awaitingOutcome_shown (p : Page) (h : sessionState p = SessionState.AwaitingOutcome) :
    p.route = Route.routine ∧ p.session.showStatsModal = true := by
  have hroute : p.route = Route.routine := by
    cases hr : p.route with
    | routine => rfl
    | move =>
      simp only [sessionState, hr] at h
      split at h <;> cases h
  refine ⟨hroute, ?_⟩
  cases hm : p.session.showStatsModal with
  | true => rfl
  | false =>
    cases hp : p.session.isPaused <;> simp [sessionState, hroute, hm, hp] at h

theorem run_nil (r : Routine) (p : Page) : run r p [] = p := rfl

theorem run_append (r : Routine) (p : Page) (xs ys : List (Env × Event)) :
    run r p (xs ++ ys) = run r (run r p xs) ys := by
  simp [run, List.foldl_append]

theorem run_snoc (r : Routine) (p : Page) (xs : List (Env × Event)) (x : Env × Event) :
    run r p (xs ++ [x]) = step r x.1 (run r p xs) x.2 := by
  simp [run, List.foldl_append]

theorem completeEvents_succ (envs : Nat → Env) (k : Nat) :
    completeEvents envs (k + 1) = completeEvents envs k ++ [(envs k, Event.completeExercise)] := by
  simp [completeEvents, List.range_succ]

theorem isLastExercise_atPosition (r : Routine) (st : Store) (a b : Nat) :
    isLastExercise r (Page.atPosition st a b).session = decide (b + 1 = r.exercises.length) := by
  simp only [isLastExercise, Page.atPosition, Page.fresh, Session.fresh]
  congr 1
  apply propext
  constructor <;> intro h <;> omega

theorem isLastSeries_atPosition (r : Routine) (st : Store) (a b S : Nat)
    (hS : r.series = JsValue.number (S : Int)) :
    isLastSeries r (Page.atPosition st a b).session = decide (a + 1 = S) := by
  simp only [isLastSeries, Page.atPosition, Page.fresh, Session.fresh, hS, strictEquals]
  congr 1
  apply propext
  constructor <;> intro h <;> omega

/-- While fewer than `S * E` completions have been handled, the page of a fresh session is
the fresh page moved to series `k / E + 1` and exercise `k % E`, written as `k = a * E + b`. -/
theorem completeEvents_position (r : Routine) (S : Nat) (st : Store) (envs : Nat → Env)
    (hS : r.series = JsValue.number (S : Int)) (hE : 1 ≤ r.exercises.length) :
    ∀ k, k < S * r.exercises.length →
      ∃ a b, k = a * r.exercises.length + b ∧ b < r.exercises.length ∧ a < S ∧
        run r (Page.fresh st) (completeEvents envs k) = Page.atPosition st a b := by
  intro k
  induction k with
  | zero =>
    intro _
    refine ⟨0, 0, by simp, hE, ?_, ?_⟩
    · rcases Nat.eq_zero_or_pos S with h | h
      · subst h; simp at *
      · exact h
    · simp [completeEvents, run, Page.atPosition, Page.fresh, Session.fresh]
  | succ k ih =>
    intro hk
    obtain ⟨a, b, hkab, hb, ha, hrun⟩ := ih (by omega)
    rw [completeEvents_succ, run_snoc, hrun]
    have hle : (a + 1) * r.exercises.length ≤ S * r.exercises.length :=
      Nat.mul_le_mul_right _ ha
    rw [Nat.add_mul, Nat.one_mul] at hle
    by_cases hlast : b + 1 = r.exercises.length
    · -- last exercise of series `a + 1`, which is not the last series
      have ha1 : a + 1 ≠ S := by
        intro h
        rw [← h, Nat.add_mul, Nat.one_mul] at hk
        omega
      have ha2 : a + 1 < S := by omega
      refine ⟨a + 1, 0, ?_, hE, ha2, ?_⟩
      · rw [Nat.add_mul, Nat.one_mul]; omega
      · simp only [step, handleComplete, isLastExercise_atPosition r st a b,
          isLastSeries_atPosition r st a b S hS, hlast, ha1]
        simp [Page.atPosition, Page.fresh, Session.fresh]
    · refine ⟨a, b + 1, by omega, by omega, ha, ?_⟩
      simp only [step, handleComplete, isLastExercise_atPosition r st a b, hlast]
      simp [Page.atPosition, Page.fresh, Session.fresh]

theorem saveStatistics_available (env : Env) (r : Routine) (sd : StatsData) (p : Page)
    (h : env.storeAvailable = true) :
    saveStatistics env r sd p =
      p.completed (p.store.setDoc env.now.fullYear env.now.monthKey
        (savedDoc r.type sd (p.store env.now.fullYear env.now.monthKey))) := by
  unfold saveStatistics
  simp only [h, if_true]
  cases hdoc : p.store env.now.fullYear env.now.monthKey with
  | none => simp [savedDoc]
  | some d => simp [Store.updateDoc, hdoc, savedDoc]

theorem saveStatistics_unavailable (env : Env) (r : Routine) (sd : StatsData) (p : Page)
    (h : env.storeAvailable = false) :
    saveStatistics env r sd p = p.saveFailed := by
  simp [saveStatistics, h]

theorem sessionState_completed (p : Page) (st : Store) :
    sessionState (p.completed st) = SessionState.Completed := by
  simp [sessionState, Page.completed]

theorem setDoc_same (st : Store) (y m : Int) (d : MoveStats) :
    st.setDoc y m d y m = some d := by
  simp [Store.setDoc]

theorem setDoc_other (st : Store) (y m y1 m1 : Int) (d : MoveStats)
    (h : ¬ (y1 = y ∧ m1 = m)) : st.setDoc y m d y1 m1 = st y1 m1 := by
  simp [Store.setDoc, h]

/-- Arithmetic of positions: with `k = a * E + b`, `b < E` and `a < S`, the position is the
last exercise of the last series exactly when `k + 1 = S * E`. -/
theorem last_position_iff (S E a b k : Nat) (hk : k = a * E + b) (hb : b < E) (ha : a < S) :
    (b + 1 = E ∧ a + 1 = S) ↔ k + 1 = S * E := by
  have hle : (a + 1) * E ≤ S * E := Nat.mul_le_mul_right _ ha
  rw [Nat.add_mul, Nat.one_mul] at hle
  constructor
  · rintro ⟨h1, h2⟩
    rw [← h2, Nat.add_mul, Nat.one_mul]
    omega
  · intro h
    have hb1 : b + 1 = E := by omega
    refine ⟨hb1, ?_⟩
    have h3 : (a + 1) * E = S * E := by rw [Nat.add_mul, Nat.one_mul]; omega
    exact Nat.eq_of_mul_eq_mul_right (by omega) h3

theorem saveStatistics_session (env : Env) (r : Routine) (sd : StatsData) (p : Page) :
    (saveStatistics env r sd p).session = p.session := by
  cases h : env.storeAvailable with
  | true => rw [saveStatistics_available env r sd p h]; rfl
  | false => rw [saveStatistics_unavailable env r sd p h]; rfl

theorem handleSubmit_session (env : Env) (r : Routine) (d : FormData) (p : Page) :
    (handleSubmit env r d p).session = p.session := by
  unfold handleSubmit
  split
  · rfl
  · simp [onSubmitStats, saveStatistics_session]

/-- Every handler keeps the session within the bounds. -/
theorem step_inBounds (r : Routine) (S : Int) (env : Env) (p : Page) (e : Event)
    (hS : r.series = JsValue.number S) (hE : 1 ≤ r.exercises.length)
    (h : p.session.inBounds r S) : (step r env p e).session.inBounds r S := by
  obtain ⟨h1, h2, h3, h4, h5⟩ := h
  unfold step
  split
  · exact ⟨h1, h2, h3, h4, h5⟩
  · cases e with
    | tick =>
      simp only [timerTick]
      split
      · exact ⟨h1, h2, h3, h4, by simp only; omega⟩
      · exact ⟨h1, h2, h3, h4, h5⟩
    | togglePause => exact ⟨h1, h2, h3, h4, h5⟩
    | completeExercise =>
      simp only [handleComplete]
      split
      · split
        · exact ⟨h1, h2, h3, h4, h5⟩
        · rw [saveStatistics_session]; exact ⟨h1, h2, h3, h4, h5⟩
      · rename_i hnot
        split
        · rename_i hlastEx
          have hne : p.session.currentSeries ≠ S := by
            intro heq
            apply hnot
            simp [hlastEx, isLastSeries, hS, strictEquals, heq]
          refine ⟨by simp only; omega, by simp only; omega, le_refl _, by simp only; omega, h5⟩
        · rename_i hnotEx
          have hne : p.session.currentExerciseIndex ≠ (r.exercises.length : Int) - 1 := by
            intro heq
            apply hnotEx
            simp [isLastExercise, heq]
          refine ⟨h1, h2, by simp only; omega, by simp only; omega, h5⟩
    | submitOutcome d =>
      simp only
      split
      · rw [handleSubmit_session]; exact ⟨h1, h2, h3, h4, h5⟩
      · exact ⟨h1, h2, h3, h4, h5⟩
    | exit => exact ⟨h1, h2, h3, h4, h5⟩
    | confirmExit =>
      simp only
      split
      · exact ⟨h1, h2, h3, h4, h5⟩
      · exact ⟨h1, h2, h3, h4, h5⟩
    | cancelExit =>
      simp only
      split
      · exact ⟨h1, h2, h3, h4, h5⟩
      · exact ⟨h1, h2, h3, h4, h5⟩

theorem run_inBounds (r : Routine) (S : Int) (hS : r.series = JsValue.number S)
    (hE : 1 ≤ r.exercises.length) (evs : List (Env × Event)) :
    ∀ p : Page, p.session.inBounds r S → (run r p evs).session.inBounds r S := by
  induction evs with
  | nil => intro p h; exact h
  | cons ev rest ih =>
    intro p h
    have hstep := step_inBounds r S ev.1 p ev.2 hS hE h
    simpa [run] using ih _ hstep

theorem fresh_inBounds (r : Routine) (S : Int) (st : Store) (hS1 : 1 ≤ S)
    (hE : 1 ≤ r.exercises.length) : (Page.fresh st).session.inBounds r S := by
  refine ⟨?_, ?_, ?_, ?_, ?_⟩ <;> simp [Page.fresh, Session.fresh] <;> omega

/-- The progress fraction on a routine whose `series` is a positive number. -/
theorem progress_number (r : Routine) (S : Int) (s : Session)
    (hS : r.series = JsValue.number S) (hS1 : 1 ≤ S) (hE : 1 ≤ r.exercises.length) :
    progress r s =
      some ((((s.currentSeries - 1) * (r.exercises.length : Int)
              + s.currentExerciseIndex + 1 : Int) : ℚ)
            / ((S : ℚ) * (r.exercises.length : ℚ))) := by
  have hSq : (0 : ℚ) < (S : ℚ) := by exact_mod_cast (by omega : (0 : Int) < S)
  have hEq : (0 : ℚ) < (r.exercises.length : ℚ) := by exact_mod_cast (by omega : 0 < r.exercises.length)
  have hden : (S : ℚ) * (r.exercises.length : ℚ) ≠ 0 := ne_of_gt (mul_pos hSq hEq)
  simp only [progress, hS, JsValue.toNumber, Decimal.toRat, zpow_zero, mul_one]
  rw [if_neg hden]

theorem progress_congr (r : Routine) (s t : Session)
    (h1 : s.currentSeries = t.currentSeries)
    (h2 : s.currentExerciseIndex = t.currentExerciseIndex) : progress r s = progress r t := by
  simp [progress, h1, h2]

/-- The terminal branch of `handleComplete` leaves the position where it is. -/
theorem handleComplete_terminal_position (env : Env) (r : Routine) (p : Page)
    (h : (isLastExercise r p.session && isLastSeries r p.session) = true) :
    (handleComplete env r p).session.currentSeries = p.session.currentSeries
    ∧ (handleComplete env r p).session.currentExerciseIndex
        = p.session.currentExerciseIndex := by
  simp only [handleComplete, h, if_true]
  split
  · exact ⟨rfl, rfl⟩
  · rw [saveStatistics_session]; exact ⟨rfl, rfl⟩

/-- The progress fraction shown after `k` completions of a fresh session, `k < S * E`. -/
theorem progress_completeEvents (r : Routine) (S : Nat) (st : Store) (envs : Nat → Env)
    (hS : r.series = JsValue.number (S : Int)) (hS1 : 1 ≤ S) (hE : 1 ≤ r.exercises.length)
    (k : Nat) (hk : k < S * r.exercises.length) :
    progress r (run r (Page.fresh st) (completeEvents envs k)).session
      = some (((k : ℚ) + 1) / ((S : ℚ) * (r.exercises.length : ℚ))) := by
  obtain ⟨a, b, hkab, _, _, hrun⟩ := completeEvents_position r S st envs hS hE k hk
  rw [hrun, progress_number r (S : Int) _ hS (by omega) hE]
  simp only [Page.atPosition, Page.fresh, Session.fresh]
  congr 2
  rw [hkab]
  push_cast
  ring

/-- The progress fraction shown after the last completion is the one shown before it. -/
theorem progress_completeEvents_final (r : Routine) (S : Nat) (st : Store) (envs : Nat → Env)
    (hS : r.series = JsValue.number (S : Int)) (hS1 : 1 ≤ S) (hE : 1 ≤ r.exercises.length) :
    progress r (run r (Page.fresh st) (completeEvents envs (S * r.exercises.length))).session
      = progress r
          (run r (Page.fresh st) (completeEvents envs (S * r.exercises.length - 1))).session := by
  have hpos : 0 < S * r.exercises.length := Nat.mul_pos hS1 hE
  obtain ⟨a, b, hkab, hb, ha, hrun⟩ :=
    completeEvents_position r S st envs hS hE (S * r.exercises.length - 1) (by omega)
  have hlast : b + 1 = r.exercises.length ∧ a + 1 = S :=
    (last_position_iff S _ a b _ hkab hb ha).mpr (by omega)
  have hsplit : completeEvents envs (S * r.exercises.length)
      = completeEvents envs (S * r.exercises.length - 1)
          ++ [(envs (S * r.exercises.length - 1), Event.completeExercise)] := by
    have h := completeEvents_succ envs (S * r.exercises.length - 1)
    rwa [Nat.sub_add_cancel hpos] at h
  rw [hsplit, run_snoc, hrun]
  have hterm : (isLastExercise r (Page.atPosition st a b).session
      && isLastSeries r (Page.atPosition st a b).session) = true := by
    rw [isLastExercise_atPosition, isLastSeries_atPosition r st a b S hS]
    simp [hlast.1, hlast.2]
  have hposn := handleComplete_terminal_position
    (envs (S * r.exercises.length - 1)) r (Page.atPosition st a b) hterm
  apply progress_congr
  · simpa [step, Page.atPosition, Page.fresh] using hposn.1
  · simpa [step, Page.atPosition, Page.fresh] using hposn.2

/-- The handlers other than the outcome form's submit write no statistics on a routine that
is not of type stretch. -/
theorem step_store_non_stretch (r : Routine) (env : Env) (p : Page) (e : Event)
    (hty : r.type ≠ RoutineType.stretch) (hev : ∀ d, e ≠ Event.submitOutcome d) :
    (step r env p e).store = p.store := by
  unfold step
  split
  · rfl
  · cases e with
    | tick => simp only [timerTick]; split <;> rfl
    | togglePause => rfl
    | completeExercise =>
      simp only [handleComplete, hty, ne_eq, not_false_eq_true, if_true]
      split
      · rfl
      · split <;> rfl
    | submitOutcome d => exact absurd rfl (hev d)
    | exit => rfl
    | confirmExit => simp only; split <;> rfl
    | cancelExit => simp only; split <;> rfl

theorem Decimal.toRat_of_nonneg (d : Decimal) (h : 0 ≤ d.exponent) :
    d.toRat = ((d.mantissa * 10 ^ d.exponent.toNat : Int) : ℚ) := by
  unfold Decimal.toRat
  have he : d.exponent = (d.exponent.toNat : Int) := (Int.toNat_of_nonneg h).symm
  conv_lhs => rw [he]
  rw [zpow_natCast]
  push_cast
  ring

theorem Decimal.toRat_of_neg (d : Decimal) (h : ¬ 0 ≤ d.exponent) :
    d.toRat = (d.mantissa : ℚ) / ((10 ^ (-d.exponent).toNat : Int) : ℚ) := by
  unfold Decimal.toRat
  have he : d.exponent = -((-d.exponent).toNat : Int) := by
    rw [Int.toNat_of_nonneg (by omega)]; ring
  conv_lhs => rw [he]
  rw [zpow_neg, zpow_natCast]
  push_cast
  rw [div_eq_mul_inv]

/-- The rules on `effort` report a message exactly for empty text and for text taken for a
double below 1 or above 5. -/
theorem validateEffort_isSome_iff (effort : String) (v : Decimal)
    (hv : toNumber effort = some v) :
    (validateEffort effort).isSome = true ↔
      (effort = "" ∨ JsNum.lt v.toDouble 1 = true ∨ JsNum.lt 5 v.toDouble = true) := by
  unfold validateEffort
  by_cases he : effort = ""
  · simp [he]
  · simp only [he, if_false, hv, false_or]
    by_cases h5 : JsNum.lt 5 v.toDouble = true
    · simp [h5]
    · by_cases h1 : JsNum.lt v.toDouble 1 = true
      · simp [h5, h1]
      · simp [h5, h1]

theorem savedDoc_typeCount (t : RoutineType) (sd : StatsData) (old : Option MoveStats) :
    (savedDoc t sd old).typeCount t = (old.map (fun d => d.typeCount t)).getD 0 + 1 := by
  cases old with
  | none =>
    cases t <;> simp [savedDoc, buildNewStats, MoveStats.typeCount]
  | some d =>
    cases t <;>
      simp [savedDoc, applyUpdates, buildUpdates, MoveStats.incrementType, MoveStats.typeCount]

theorem savedDoc_effort_of_truthy (t : RoutineType) (sd : StatsData) (old : Option MoveStats)
    (h : truthy sd.effort = true) :
    (savedDoc t sd old).effort
      = (old.map (fun d => d.effort)).getD [] ++ [parseInt (sd.effort.getD "")] := by
  cases old with
  | none =>
    cases t <;> simp [savedDoc, buildNewStats, h]
  | some d =>
    cases t <;> simp [savedDoc, applyUpdates, buildUpdates, MoveStats.incrementType, h]

/-! ## C1: the terminal branch is reached at the last completion, not before -/

/-- On a routine whose `series` is the number `S >= 1` and that has `E >= 1` exercises,
a fresh session stays Running through the first `S * E - 1` presses of "Complete Exercise"
and writes nothing; for `k <= S * E` the `k`-th press takes the terminal branch of
`handleComplete` exactly when `k = S * E`; after that press the session is AwaitingOutcome
for a type other than stretch, and for stretch (the store calls resolving) it is Completed
with the stretch count of the month document one higher. -/
theorem fresh_session_terminal_at_last_completion (r : Routine) (S : Nat) (st : Store)
    (envs : Nat → Env) (hS : r.series = JsValue.number (S : Int)) (hS1 : 1 ≤ S)
    (hE : 1 ≤ r.exercises.length) :
    (∀ k, k < S * r.exercises.length →
        sessionState (run r (Page.fresh st) (completeEvents envs k)) = SessionState.Running
        ∧ (run r (Page.fresh st) (completeEvents envs k)).store = st
        ∧ (isLastExercise r (run r (Page.fresh st) (completeEvents envs k)).session
            && isLastSeries r (run r (Page.fresh st) (completeEvents envs k)).session)
          = decide (k + 1 = S * r.exercises.length))
    ∧ (r.type ≠ RoutineType.stretch →
        sessionState (run r (Page.fresh st) (completeEvents envs (S * r.exercises.length)))
          = SessionState.AwaitingOutcome)
    ∧ (r.type = RoutineType.stretch →
        (envs (S * r.exercises.length - 1)).storeAvailable = true →
        sessionState (run r (Page.fresh st) (completeEvents envs (S * r.exercises.length)))
          = SessionState.Completed
        ∧ ((run r (Page.fresh st) (completeEvents envs (S * r.exercises.length))).store
              (envs (S * r.exercises.length - 1)).now.fullYear
              (envs (S * r.exercises.length - 1)).now.monthKey).map (fun d => d.stretch)
          = some (((st (envs (S * r.exercises.length - 1)).now.fullYear
                      (envs (S * r.exercises.length - 1)).now.monthKey).map
                    (fun d => d.stretch)).getD 0 + 1)) := by
  have hpos : 0 < S * r.exercises.length := Nat.mul_pos hS1 hE
  have hfirst : ∀ k, k < S * r.exercises.length →
      sessionState (run r (Page.fresh st) (completeEvents envs k)) = SessionState.Running
      ∧ (run r (Page.fresh st) (completeEvents envs k)).store = st
      ∧ (isLastExercise r (run r (Page.fresh st) (completeEvents envs k)).session
          && isLastSeries r (run r (Page.fresh st) (completeEvents envs k)).session)
        = decide (k + 1 = S * r.exercises.length) := by
    intro k hk
    obtain ⟨a, b, hkab, hb, ha, hrun⟩ := completeEvents_position r S st envs hS hE k hk
    rw [hrun]
    refine ⟨by simp [sessionState, Page.atPosition, Page.fresh, Session.fresh],
      by simp [Page.atPosition, Page.fresh], ?_⟩
    rw [isLastExercise_atPosition, isLastSeries_atPosition r st a b S hS,
      ← Bool.decide_and]
    congr 1
    exact propext (last_position_iff S _ a b k hkab hb ha)
  -- the page at which the last press is handled
  obtain ⟨a, b, hkab, hb, ha, hrun⟩ :=
    completeEvents_position r S st envs hS hE (S * r.exercises.length - 1) (by omega)
  have hlast : b + 1 = r.exercises.length ∧ a + 1 = S :=
    (last_position_iff S _ a b _ hkab hb ha).mpr (by omega)
  have hsplit : completeEvents envs (S * r.exercises.length)
      = completeEvents envs (S * r.exercises.length - 1)
          ++ [(envs (S * r.exercises.length - 1), Event.completeExercise)] := by
    have h := completeEvents_succ envs (S * r.exercises.length - 1)
    rwa [Nat.sub_add_cancel hpos] at h
  refine ⟨hfirst, ?_, ?_⟩
  · intro hty
    rw [hsplit, run_snoc, hrun]
    simp only [step, handleComplete, isLastExercise_atPosition,
      isLastSeries_atPosition r st a b S hS, hlast.1, hlast.2]
    simp [Page.atPosition, Page.fresh, hty, sessionState]
  · intro hty havail
    rw [hsplit, run_snoc, hrun]
    simp only [step, handleComplete, isLastExercise_atPosition,
      isLastSeries_atPosition r st a b S hS, hlast.1, hlast.2]
    simp only [Page.atPosition, Page.fresh, hty]
    simp only [decide_True, Bool.and_self, if_true, ne_eq, not_true_eq_false, if_false]
    rw [saveStatistics_available _ _ _ _ havail]
    refine ⟨sessionState_completed _ _, ?_⟩
    simp only [Page.completed, setDoc_same, Option.map_some']
    cases hdoc : st (envs (S * r.exercises.length - 1)).now.fullYear
        (envs (S * r.exercises.length - 1)).now.monthKey with
    | none =>
      simp [savedDoc, buildNewStats, hty, truthy, StatsData.empty]
    | some d =>
      simp [savedDoc, applyUpdates, buildUpdates, MoveStats.incrementType, hty, truthy,
        StatsData.empty]

/-- The sample routines, two series of two exercises each: after four presses the workout
session is AwaitingOutcome and the stretch session is Completed. -/
theorem fresh_session_terminal_at_last_completion_witness :
    workoutRoutine.series = JsValue.number ((2 : Nat) : Int)
    ∧ 1 ≤ workoutRoutine.exercises.length
    ∧ workoutRoutine.type ≠ RoutineType.stretch
    ∧ sessionState (run workoutRoutine (Page.fresh emptyStore)
          (completeEvents (fun _ => marchEnv) (2 * workoutRoutine.exercises.length)))
        = SessionState.AwaitingOutcome
    ∧ stretchRoutine.type = RoutineType.stretch
    ∧ sessionState (run stretchRoutine (Page.fresh emptyStore)
          (completeEvents (fun _ => marchEnv) (2 * stretchRoutine.exercises.length)))
        = SessionState.Completed :=
  ⟨rfl, by decide, by decide,
   (fresh_session_terminal_at_last_completion workoutRoutine 2 emptyStore (fun _ => marchEnv)
      rfl (by decide) (by decide)).2.1 (by decide),
   rfl,
   ((fresh_session_terminal_at_last_completion stretchRoutine 2 emptyStore (fun _ => marchEnv)
      rfl (by decide) (by decide)).2.2 rfl rfl).1⟩

/-- On a routine whose `series` is text the comparison `currentSeries === routine.series` is
false at every press: whatever the number of presses of "Complete Exercise", the fresh
session is Running and the store is as it was. -/
theorem text_series_run_stays_running (r : Routine) (t : String) (st : Store)
    (envs : Nat → Env) (h : r.series = JsValue.string t) (k : Nat) :
    sessionState (run r (Page.fresh st) (completeEvents envs k)) = SessionState.Running
    ∧ (run r (Page.fresh st) (completeEvents envs k)).store = st := by
  have hlast : ∀ s : Session, isLastSeries r s = false := by
    intro s
    simp [isLastSeries, h, strictEquals]
  have hinv : (run r (Page.fresh st) (completeEvents envs k)).route = Route.routine
      ∧ (run r (Page.fresh st) (completeEvents envs k)).session.showStatsModal = false
      ∧ (run r (Page.fresh st) (completeEvents envs k)).session.isPaused = false
      ∧ (run r (Page.fresh st) (completeEvents envs k)).store = st := by
    induction k with
    | zero => exact ⟨rfl, rfl, rfl, rfl⟩
    | succ k ih =>
      obtain ⟨h1, h2, h3, h4⟩ := ih
      rw [completeEvents_succ, run_snoc]
      simp only [step, h1, handleComplete, hlast, Bool.and_false, Bool.false_eq_true, if_false]
      split_ifs <;> exact ⟨rfl, h2, h3, h4⟩
  obtain ⟨h1, h2, h3, h4⟩ := hinv
  exact ⟨by simp [sessionState, h1, h2, h3], h4⟩

/-- C1, evaluated where it fails. The routine has 2 series, stored as the text `2`, and 2
exercises. The fourth press of "Complete Exercise" of a fresh session is handled at series 2
of 2 on the last exercise, and it moves the session to series 3: the comparison
`currentSeries === routine.series` of a number with a text is false. The session is Running
after each of the first 8 presses, at series 5 after the eighth, and nothing is saved, for
the type workout and for the type stretch. -/
theorem text_series_session_is_never_terminal :
    (textSeriesRoutine RoutineType.workout).series.toNumber = some { mantissa := 2, exponent := 0 }
    ∧ (textSeriesRoutine RoutineType.workout).exercises.length = 2
    ∧ (run (textSeriesRoutine RoutineType.workout) (Page.fresh emptyStore)
        (completeEvents (fun _ => marchEnv) 3)).session.currentSeries = 2
    ∧ (run (textSeriesRoutine RoutineType.workout) (Page.fresh emptyStore)
        (completeEvents (fun _ => marchEnv) 3)).session.currentExerciseIndex = 1
    ∧ sessionState (run (textSeriesRoutine RoutineType.workout) (Page.fresh emptyStore)
        (completeEvents (fun _ => marchEnv) 4)) = SessionState.Running
    ∧ (run (textSeriesRoutine RoutineType.workout) (Page.fresh emptyStore)
        (completeEvents (fun _ => marchEnv) 4)).session.currentSeries = 3
    ∧ (∀ k, k < 9 →
        sessionState (run (textSeriesRoutine RoutineType.workout) (Page.fresh emptyStore)
          (completeEvents (fun _ => marchEnv) k)) = SessionState.Running
        ∧ sessionState (run (textSeriesRoutine RoutineType.stretch) (Page.fresh emptyStore)
          (completeEvents (fun _ => marchEnv) k)) = SessionState.Running
        ∧ (run (textSeriesRoutine RoutineType.stretch) (Page.fresh emptyStore)
          (completeEvents (fun _ => marchEnv) k)).store 2025 3 = none)
    ∧ (run (textSeriesRoutine RoutineType.workout) (Page.fresh emptyStore)
        (completeEvents (fun _ => marchEnv) 8)).session.currentSeries = 5
    ∧ sessionState (run workoutRoutine (Page.fresh emptyStore)
        (completeEvents (fun _ => marchEnv) 4)) = SessionState.AwaitingOutcome := by
  decide

/-! ## C2: the progress fraction along the completions -/

/-- On a routine whose `series` is the number `S >= 1` and that has `E >= 1` exercises,
along the `S * E` presses of "Complete Exercise" of a fresh session the progress fraction is
defined before and after each press and does not go down at any press; it is exactly 1 when
the last press is handled and stays 1 after it. -/
theorem progress_monotone_and_one_at_end (r : Routine) (S : Nat) (st : Store)
    (envs : Nat → Env) (hS : r.series = JsValue.number (S : Int)) (hS1 : 1 ≤ S)
    (hE : 1 ≤ r.exercises.length) :
    (∀ k, k < S * r.exercises.length →
      ∃ x y : ℚ,
        progress r (run r (Page.fresh st) (completeEvents envs k)).session = some x
        ∧ progress r (run r (Page.fresh st) (completeEvents envs (k + 1))).session = some y
        ∧ x ≤ y)
    ∧ progress r
        (run r (Page.fresh st) (completeEvents envs (S * r.exercises.length - 1))).session
      = some 1
    ∧ progress r
        (run r (Page.fresh st) (completeEvents envs (S * r.exercises.length))).session
      = some 1 := by
  have hpos : 0 < S * r.exercises.length := Nat.mul_pos hS1 hE
  have hSq : (0 : ℚ) < (S : ℚ) := by exact_mod_cast hS1
  have hEq : (0 : ℚ) < (r.exercises.length : ℚ) := by exact_mod_cast hE
  have hden : (0 : ℚ) < (S : ℚ) * (r.exercises.length : ℚ) := mul_pos hSq hEq
  have hone : progress r
      (run r (Page.fresh st) (completeEvents envs (S * r.exercises.length - 1))).session
      = some 1 := by
    rw [progress_completeEvents r S st envs hS hS1 hE _ (by omega)]
    congr 1
    rw [div_eq_one_iff_eq (ne_of_gt hden)]
    have h : (S * r.exercises.length - 1) + 1 = S * r.exercises.length := by omega
    exact_mod_cast h
  refine ⟨?_, hone, ?_⟩
  · intro k hk
    by_cases hk1 : k + 1 < S * r.exercises.length
    · refine ⟨_, _, progress_completeEvents r S st envs hS hS1 hE k hk,
        progress_completeEvents r S st envs hS hS1 hE (k + 1) hk1, ?_⟩
      apply div_le_div_of_nonneg_right _ (le_of_lt hden)
      push_cast
      linarith
    · have hkeq : k + 1 = S * r.exercises.length := by omega
      have hk' : k = S * r.exercises.length - 1 := by omega
      refine ⟨1, 1, ?_, ?_, le_refl _⟩
      · rw [hk']; exact hone
      · rw [hkeq, progress_completeEvents_final r S st envs hS hS1 hE]; exact hone
  · rw [progress_completeEvents_final r S st envs hS hS1 hE]; exact hone

/-- The sample workout routine: after its four presses the progress fraction is 1. -/
theorem progress_monotone_and_one_at_end_witness :
    workoutRoutine.series = JsValue.number ((2 : Nat) : Int)
    ∧ 1 ≤ workoutRoutine.exercises.length
    ∧ progress workoutRoutine (run workoutRoutine (Page.fresh emptyStore)
          (completeEvents (fun _ => marchEnv) (2 * workoutRoutine.exercises.length))).session
        = some 1 :=
  ⟨rfl, by decide,
   (progress_monotone_and_one_at_end workoutRoutine 2 emptyStore (fun _ => marchEnv)
      rfl (by decide) (by decide)).2.2⟩

/-- C2, evaluated where it fails. The routine has 2 series, stored as the text `2`, and 2
exercises. The progress fraction of a fresh session is 1 when the fourth press of "Complete
Exercise" is handled, 5/4 after it and 3/2 after one more press. -/
theorem text_series_progress_passes_one :
    progress (textSeriesRoutine RoutineType.workout)
        (run (textSeriesRoutine RoutineType.workout) (Page.fresh emptyStore)
          (completeEvents (fun _ => marchEnv) 3)).session = some 1
    ∧ progress (textSeriesRoutine RoutineType.workout)
        (run (textSeriesRoutine RoutineType.workout) (Page.fresh emptyStore)
          (completeEvents (fun _ => marchEnv) 4)).session = some (5 / 4)
    ∧ progress (textSeriesRoutine RoutineType.workout)
        (run (textSeriesRoutine RoutineType.workout) (Page.fresh emptyStore)
          (completeEvents (fun _ => marchEnv) 5)).session = some (3 / 2) := by
  have hnum : (textSeriesRoutine RoutineType.workout).series.toNumber
      = some { mantissa := 2, exponent := 0 } := by decide
  have hlen : (textSeriesRoutine RoutineType.workout).exercises.length = 2 := rfl
  have h3 : (run (textSeriesRoutine RoutineType.workout) (Page.fresh emptyStore)
      (completeEvents (fun _ => marchEnv) 3)).session.currentSeries = 2
      ∧ (run (textSeriesRoutine RoutineType.workout) (Page.fresh emptyStore)
      (completeEvents (fun _ => marchEnv) 3)).session.currentExerciseIndex = 1 := by decide
  have h4 : (run (textSeriesRoutine RoutineType.workout) (Page.fresh emptyStore)
      (completeEvents (fun _ => marchEnv) 4)).session.currentSeries = 3
      ∧ (run (textSeriesRoutine RoutineType.workout) (Page.fresh emptyStore)
      (completeEvents (fun _ => marchEnv) 4)).session.currentExerciseIndex = 0 := by decide
  have h6 : (run (textSeriesRoutine RoutineType.workout) (Page.fresh emptyStore)
      (completeEvents (fun _ => marchEnv) 5)).session.currentSeries = 3
      ∧ (run (textSeriesRoutine RoutineType.workout) (Page.fresh emptyStore)
      (completeEvents (fun _ => marchEnv) 5)).session.currentExerciseIndex = 1 := by decide
  simp only [progress, hnum, hlen, h3.1, h3.2, h4.1, h4.2, h6.1, h6.2]
  norm_num [Decimal.toRat]

/-! ## C3: the progress fraction of every reachable page -/

/-- In every page reached from a fresh session by any sequence of events (in particular
by completeExercise, tick, pause and resume), on a routine whose `series` is a number
`S >= 1` and that has at least one exercise, the progress fraction is defined, greater than
0 and at most 1. -/
theorem reachable_progress_in_unit_interval (r : Routine) (S : Int) (st : Store)
    (evs : List (Env × Event)) (hS : r.series = JsValue.number S) (hS1 : 1 ≤ S)
    (hE : 1 ≤ r.exercises.length) :
    ∃ x : ℚ, progress r (run r (Page.fresh st) evs).session = some x ∧ 0 < x ∧ x ≤ 1 := by
  obtain ⟨h1, h2, h3, h4, _⟩ :=
    run_inBounds r S hS hE evs (Page.fresh st) (fresh_inBounds r S st hS1 hE)
  refine ⟨_, progress_number r S _ hS hS1 hE, ?_, ?_⟩
  · have hSq : (0 : ℚ) < (S : ℚ) := by exact_mod_cast (by omega : (0 : Int) < S)
    have hEq : (0 : ℚ) < (r.exercises.length : ℚ) := by
      exact_mod_cast (by omega : 0 < r.exercises.length)
    apply div_pos _ (mul_pos hSq hEq)
    have hmul : 0 ≤ ((run r (Page.fresh st) evs).session.currentSeries - 1)
        * (r.exercises.length : Int) :=
      mul_nonneg (by omega) (by omega)
    exact_mod_cast (by omega : (0 : Int) <
      ((run r (Page.fresh st) evs).session.currentSeries - 1) * (r.exercises.length : Int)
        + (run r (Page.fresh st) evs).session.currentExerciseIndex + 1)
  · have hSq : (0 : ℚ) < (S : ℚ) := by exact_mod_cast (by omega : (0 : Int) < S)
    have hEq : (0 : ℚ) < (r.exercises.length : ℚ) := by
      exact_mod_cast (by omega : 0 < r.exercises.length)
    rw [div_le_one (mul_pos hSq hEq)]
    have hmul : ((run r (Page.fresh st) evs).session.currentSeries - 1)
        * (r.exercises.length : Int) ≤ (S - 1) * (r.exercises.length : Int) :=
      mul_le_mul_of_nonneg_right (by omega) (by omega)
    have hsub : (S - 1) * (r.exercises.length : Int)
        = S * (r.exercises.length : Int) - (r.exercises.length : Int) := by ring
    have hle : ((run r (Page.fresh st) evs).session.currentSeries - 1)
        * (r.exercises.length : Int)
        + (run r (Page.fresh st) evs).session.currentExerciseIndex + 1
        ≤ S * (r.exercises.length : Int) := by omega
    exact_mod_cast hle

/-- The sample workout routine after a completion, a pause, a tick and a resume. -/
theorem reachable_progress_in_unit_interval_witness :
    workoutRoutine.series = JsValue.number 2
    ∧ 1 ≤ workoutRoutine.exercises.length
    ∧ ∃ x : ℚ,
        progress workoutRoutine (run workoutRoutine (Page.fresh emptyStore)
            [(marchEnv, Event.completeExercise), (marchEnv, Event.togglePause),
             (marchEnv, Event.tick), (marchEnv, Event.togglePause)]).session = some x
        ∧ 0 < x ∧ x ≤ 1 :=
  ⟨rfl, by decide,
   reachable_progress_in_unit_interval workoutRoutine 2 emptyStore
      [(marchEnv, Event.completeExercise), (marchEnv, Event.togglePause),
       (marchEnv, Event.tick), (marchEnv, Event.togglePause)]
      rfl (by decide) (by decide)⟩

/-- C3, evaluated where it fails. The routine has 2 series, stored as the text `2`, and 2
exercises. After five presses of "Complete Exercise", a pause, a tick and a resume, the
session is Running and its progress fraction is 3/2, which is more than 1. -/
theorem text_series_reachable_progress_above_one :
    sessionState (run (textSeriesRoutine RoutineType.running) (Page.fresh emptyStore)
        (completeEvents (fun _ => marchEnv) 5
          ++ [(marchEnv, Event.togglePause), (marchEnv, Event.tick),
              (marchEnv, Event.togglePause)])) = SessionState.Running
    ∧ ∃ x : ℚ, progress (textSeriesRoutine RoutineType.running)
        (run (textSeriesRoutine RoutineType.running) (Page.fresh emptyStore)
          (completeEvents (fun _ => marchEnv) 5
            ++ [(marchEnv, Event.togglePause), (marchEnv, Event.tick),
                (marchEnv, Event.togglePause)])).session = some x
        ∧ x = 3 / 2 ∧ 1 < x := by
  have hnum : (textSeriesRoutine RoutineType.running).series.toNumber
      = some { mantissa := 2, exponent := 0 } := by decide
  have hlen : (textSeriesRoutine RoutineType.running).exercises.length = 2 := rfl
  have h : (run (textSeriesRoutine RoutineType.running) (Page.fresh emptyStore)
      (completeEvents (fun _ => marchEnv) 5
        ++ [(marchEnv, Event.togglePause), (marchEnv, Event.tick),
            (marchEnv, Event.togglePause)])).session.currentSeries = 3
      ∧ (run (textSeriesRoutine RoutineType.running) (Page.fresh emptyStore)
      (completeEvents (fun _ => marchEnv) 5
        ++ [(marchEnv, Event.togglePause), (marchEnv, Event.tick),
            (marchEnv, Event.togglePause)])).session.currentExerciseIndex = 1 := by decide
  refine ⟨by decide, 3 / 2, ?_, rfl, by norm_num⟩
  simp only [progress, hnum, hlen, h.1, h.2]
  norm_num [Decimal.toRat]

/-! ## C4: bounds of every reachable session -/

/-- In every page reached from a fresh session by any sequence of events, on a routine
whose `series` is a number `S >= 1` and whose exercise list is not empty:
`1 <= currentSeries <= S`, `0 <= currentExerciseIndex <= exercises.length - 1`,
`elapsedTime >= 0`, and `routine.exercises[currentExerciseIndex]` is an exercise of
the list. -/
theorem reachable_session_in_bounds (r : Routine) (S : Int) (st : Store)
    (evs : List (Env × Event)) (hS : r.series = JsValue.number S) (hS1 : 1 ≤ S)
    (hE : 1 ≤ r.exercises.length) :
    1 ≤ (run r (Page.fresh st) evs).session.currentSeries
    ∧ (run r (Page.fresh st) evs).session.currentSeries ≤ S
    ∧ 0 ≤ (run r (Page.fresh st) evs).session.currentExerciseIndex
    ∧ (run r (Page.fresh st) evs).session.currentExerciseIndex ≤ (r.exercises.length : Int) - 1
    ∧ 0 ≤ (run r (Page.fresh st) evs).session.elapsedTime
    ∧ ∃ ex, currentExercise r (run r (Page.fresh st) evs).session = some ex
        ∧ ex ∈ r.exercises := by
  obtain ⟨h1, h2, h3, h4, h5⟩ :=
    run_inBounds r S hS hE evs (Page.fresh st) (fresh_inBounds r S st hS1 hE)
  refine ⟨h1, h2, h3, h4, h5, ?_⟩
  have hlt : (run r (Page.fresh st) evs).session.currentExerciseIndex.toNat
      < r.exercises.length := by omega
  refine ⟨r.exercises[(run r (Page.fresh st) evs).session.currentExerciseIndex.toNat], ?_, ?_⟩
  · simp [currentExercise, h3, List.getElem?_eq_getElem hlt]
  · exact List.getElem_mem _

/-- The sample workout routine after a tick and a completion. -/
theorem reachable_session_in_bounds_witness :
    workoutRoutine.series = JsValue.number 2
    ∧ 1 ≤ workoutRoutine.exercises.length
    ∧ 1 ≤ (run workoutRoutine (Page.fresh emptyStore)
            [(marchEnv, Event.tick), (marchEnv, Event.completeExercise)]).session.currentSeries
    ∧ (run workoutRoutine (Page.fresh emptyStore)
            [(marchEnv, Event.tick), (marchEnv, Event.completeExercise)]).session.currentSeries
        ≤ 2 :=
  ⟨rfl, by decide,
   (reachable_session_in_bounds workoutRoutine 2 emptyStore
      [(marchEnv, Event.tick), (marchEnv, Event.completeExercise)]
      rfl (by decide) (by decide)).1,
   (reachable_session_in_bounds workoutRoutine 2 emptyStore
      [(marchEnv, Event.tick), (marchEnv, Event.completeExercise)]
      rfl (by decide) (by decide)).2.1⟩

/-- C4, evaluated where it fails. The routine has 2 series, stored as the text `2`, and 2
exercises. After four presses of "Complete Exercise" the fresh session is at series 3, which
is more than the number of series, and the page shows "Series 3 of 2"; the exercise looked
up is the first of the list. -/
theorem text_series_session_leaves_bounds :
    (textSeriesRoutine RoutineType.sports).series.toNumber = some { mantissa := 2, exponent := 0 }
    ∧ (run (textSeriesRoutine RoutineType.sports) (Page.fresh emptyStore)
        (completeEvents (fun _ => marchEnv) 4)).session.currentSeries = 3
    ∧ ¬ (run (textSeriesRoutine RoutineType.sports) (Page.fresh emptyStore)
        (completeEvents (fun _ => marchEnv) 4)).session.inBounds
          (textSeriesRoutine RoutineType.sports) 2
    ∧ currentExercise (textSeriesRoutine RoutineType.sports)
        (run (textSeriesRoutine RoutineType.sports) (Page.fresh emptyStore)
          (completeEvents (fun _ => marchEnv) 4)).session = sampleExercises.head? := by
  decide

/-! ## C5: completing an exercise that is not the last of its series -/

/-- C5. When `handleComplete` runs and the current exercise is not the last one of the
series, `currentExerciseIndex` goes up by exactly 1, `currentSeries` and `elapsedTime` keep
their values, and the statistics store is not written. -/
theorem handleComplete_not_last_exercise (env : Env) (r : Routine) (p : Page)
    (h : p.session.currentExerciseIndex ≠ (r.exercises.length : Int) - 1) :
    (handleComplete env r p).session.currentExerciseIndex = p.session.currentExerciseIndex + 1
    ∧ (handleComplete env r p).session.currentSeries = p.session.currentSeries
    ∧ (handleComplete env r p).session.elapsedTime = p.session.elapsedTime
    ∧ (handleComplete env r p).store = p.store := by
  simp [handleComplete, isLastExercise, h]

/-- The fresh page of the sample workout routine: the first of its two exercises is completed. -/
theorem handleComplete_not_last_exercise_witness :
    (Page.fresh emptyStore).session.currentExerciseIndex
        ≠ (workoutRoutine.exercises.length : Int) - 1
    ∧ (handleComplete marchEnv workoutRoutine (Page.fresh emptyStore)).session.currentExerciseIndex
        = (Page.fresh emptyStore).session.currentExerciseIndex + 1
    ∧ (handleComplete marchEnv workoutRoutine (Page.fresh emptyStore)).session.currentSeries
        = (Page.fresh emptyStore).session.currentSeries
    ∧ (handleComplete marchEnv workoutRoutine (Page.fresh emptyStore)).session.elapsedTime
        = (Page.fresh emptyStore).session.elapsedTime
    ∧ (handleComplete marchEnv workoutRoutine (Page.fresh emptyStore)).store
        = (Page.fresh emptyStore).store :=
  ⟨by decide,
   handleComplete_not_last_exercise marchEnv workoutRoutine (Page.fresh emptyStore) (by decide)⟩

/-! ## C6: completing the last exercise of a series that is not the last -/

/-- C6. When `handleComplete` runs on the last exercise of a series and `currentSeries` is
below the number of series of the routine, `currentSeries` goes up by exactly 1,
`currentExerciseIndex` becomes 0, `elapsedTime` keeps its value and the statistics store is
not written. -/
theorem handleComplete_last_exercise_next_series (env : Env) (r : Routine) (p : Page) (c : ℚ)
    (hc : seriesCount r = some c) (hlt : (p.session.currentSeries : ℚ) < c)
    (hlast : p.session.currentExerciseIndex = (r.exercises.length : Int) - 1) :
    (handleComplete env r p).session.currentSeries = p.session.currentSeries + 1
    ∧ (handleComplete env r p).session.currentExerciseIndex = 0
    ∧ (handleComplete env r p).session.elapsedTime = p.session.elapsedTime
    ∧ (handleComplete env r p).store = p.store := by
  have hser := isLastSeries_false_of_lt r p.session c hc hlt
  simp [handleComplete, isLastExercise, hlast, hser]

/-- The sample workout routine at the last exercise of the first of its two series. -/
theorem handleComplete_last_exercise_next_series_witness :
    (handleComplete marchEnv workoutRoutine (Page.atPosition emptyStore 0 1)).session.currentSeries
        = (Page.atPosition emptyStore 0 1).session.currentSeries + 1
    ∧ (handleComplete marchEnv workoutRoutine
          (Page.atPosition emptyStore 0 1)).session.currentExerciseIndex = 0
    ∧ (handleComplete marchEnv workoutRoutine (Page.atPosition emptyStore 0 1)).session.elapsedTime
        = (Page.atPosition emptyStore 0 1).session.elapsedTime
    ∧ (handleComplete marchEnv workoutRoutine (Page.atPosition emptyStore 0 1)).store
        = (Page.atPosition emptyStore 0 1).store :=
  handleComplete_last_exercise_next_series marchEnv workoutRoutine
    (Page.atPosition emptyStore 0 1) 2 (seriesCount_number workoutRoutine 2 rfl)
    (by simp [Page.atPosition, Page.fresh, Session.fresh]) (by decide)

/-! ## C7: completing a stretch routine -/

/-- When `handleComplete` runs on the last exercise of the last series of a stretch
routine (the store calls resolving), the session is Completed at once and the month document
of the current date is written with the type count only: an existing document has `stretch`
one higher and every other field as before; a new document has `stretch` 1, the other
counters 0, no effort sample, calories 0 and km 0. No other month document changes. -/
theorem handleComplete_stretch_records_count_only (env : Env) (r : Routine) (p : Page)
    (hty : r.type = RoutineType.stretch)
    (hlastEx : p.session.currentExerciseIndex = (r.exercises.length : Int) - 1)
    (hlastSer : r.series = JsValue.number p.session.currentSeries)
    (havail : env.storeAvailable = true) :
    sessionState (handleComplete env r p) = SessionState.Completed
    ∧ (handleComplete env r p).store env.now.fullYear env.now.monthKey
        = some (match p.store env.now.fullYear env.now.monthKey with
            | some d => { d with stretch := d.stretch + 1 }
            | none => { stretch := 1, workout := 0, running := 0, sports := 0,
                        effort := [], calories := 0, km := 0 })
    ∧ ∀ y m, ¬ (y = env.now.fullYear ∧ m = env.now.monthKey) →
        (handleComplete env r p).store y m = p.store y m := by
  have hq : handleComplete env r p =
      p.completed (p.store.setDoc env.now.fullYear env.now.monthKey
        (savedDoc r.type StatsData.empty (p.store env.now.fullYear env.now.monthKey))) := by
    rw [← saveStatistics_available env r StatsData.empty p havail]
    simp [handleComplete, isLastExercise, isLastSeries, hlastEx, hlastSer, strictEquals, hty]
  rw [hq]
  refine ⟨sessionState_completed _ _, ?_, ?_⟩
  · simp only [Page.completed, setDoc_same]
    cases p.store env.now.fullYear env.now.monthKey with
    | none => simp [savedDoc, buildNewStats, hty, truthy, StatsData.empty]
    | some d =>
      simp [savedDoc, applyUpdates, buildUpdates, MoveStats.incrementType, hty, truthy,
        StatsData.empty]
  · intro y m hne
    simp only [Page.completed]
    exact setDoc_other _ _ _ _ _ _ hne

/-- The sample stretch routine at the last exercise of its last series, with no document for the
month yet. -/
theorem handleComplete_stretch_records_count_only_witness :
    stretchRoutine.type = RoutineType.stretch
    ∧ marchEnv.storeAvailable = true
    ∧ sessionState (handleComplete marchEnv stretchRoutine (Page.atPosition emptyStore 1 1))
        = SessionState.Completed
    ∧ (handleComplete marchEnv stretchRoutine (Page.atPosition emptyStore 1 1)).store
          marchEnv.now.fullYear marchEnv.now.monthKey
        = some (match (Page.atPosition emptyStore 1 1).store
                    marchEnv.now.fullYear marchEnv.now.monthKey with
            | some d => { d with stretch := d.stretch + 1 }
            | none => { stretch := 1, workout := 0, running := 0, sports := 0,
                        effort := [], calories := 0, km := 0 }) :=
  ⟨rfl, rfl,
   (handleComplete_stretch_records_count_only marchEnv stretchRoutine
      (Page.atPosition emptyStore 1 1) rfl (by decide) (by decide) rfl).1,
   (handleComplete_stretch_records_count_only marchEnv stretchRoutine
      (Page.atPosition emptyStore 1 1) rfl (by decide) (by decide) rfl).2.1⟩

/-- C7, evaluated where it fails. The stretch routine has 2 series, stored as the text `2`,
and 2 exercises. "Complete Exercise" pressed on the last exercise of series 2 saves nothing:
the month has no document afterwards, and the session is Running at series 3. With the
number 2 for the series the same press is recorded and the session is Completed. -/
theorem text_series_stretch_is_not_recorded :
    isLastExercise (textSeriesRoutine RoutineType.stretch) (Page.atPosition emptyStore 1 1).session
      = true
    ∧ (textSeriesRoutine RoutineType.stretch).series.toNumber = some { mantissa := 2, exponent := 0 }
    ∧ (Page.atPosition emptyStore 1 1).session.currentSeries = 2
    ∧ (step (textSeriesRoutine RoutineType.stretch) marchEnv (Page.atPosition emptyStore 1 1)
        Event.completeExercise).store 2025 3 = none
    ∧ sessionState (step (textSeriesRoutine RoutineType.stretch) marchEnv
        (Page.atPosition emptyStore 1 1) Event.completeExercise) = SessionState.Running
    ∧ (step (textSeriesRoutine RoutineType.stretch) marchEnv (Page.atPosition emptyStore 1 1)
        Event.completeExercise).session.currentSeries = 3
    ∧ sessionState (step stretchRoutine marchEnv (Page.atPosition emptyStore 1 1)
        Event.completeExercise) = SessionState.Completed
    ∧ ((step stretchRoutine marchEnv (Page.atPosition emptyStore 1 1)
        Event.completeExercise).store 2025 3).map (fun d => d.stretch) = some 1 := by
  decide

/-! ## C8: completing a routine that is not of type stretch -/

/-- When the "Complete Exercise" press is handled on the last exercise of the last
series of a routine that is not of type stretch, the outcome form is shown (the session is
AwaitingOutcome) and the statistics store is as before; and on such a routine no event other
than the submit of the outcome form changes the store. -/
theorem complete_non_stretch_awaits_outcome (env : Env) (r : Routine) (p : Page)
    (hty : r.type ≠ RoutineType.stretch) (hroute : p.route = Route.routine)
    (hlastEx : p.session.currentExerciseIndex = (r.exercises.length : Int) - 1)
    (hlastSer : r.series = JsValue.number p.session.currentSeries) :
    sessionState (step r env p Event.completeExercise) = SessionState.AwaitingOutcome
    ∧ (step r env p Event.completeExercise).session.showStatsModal = true
    ∧ (step r env p Event.completeExercise).store = p.store
    ∧ ∀ (env1 : Env) (q : Page) (e : Event), (∀ d, e ≠ Event.submitOutcome d) →
        (step r env1 q e).store = q.store := by
  refine ⟨?_, ?_, ?_, ?_⟩
  · simp [step, hroute, handleComplete, isLastExercise, isLastSeries, hlastEx, hlastSer,
      strictEquals, hty, sessionState]
  · simp [step, hroute, handleComplete, isLastExercise, isLastSeries, hlastEx, hlastSer,
      strictEquals, hty]
  · exact step_store_non_stretch r env p _ hty (fun d h => by cases h)
  · intro env1 q e hev
    exact step_store_non_stretch r env1 q e hty hev

/-- The sample workout routine at the last exercise of its last series. -/
theorem complete_non_stretch_awaits_outcome_witness :
    workoutRoutine.type ≠ RoutineType.stretch
    ∧ sessionState (step workoutRoutine marchEnv (Page.atPosition emptyStore 1 1)
          Event.completeExercise) = SessionState.AwaitingOutcome
    ∧ (step workoutRoutine marchEnv (Page.atPosition emptyStore 1 1)
          Event.completeExercise).store = (Page.atPosition emptyStore 1 1).store :=
  ⟨by decide,
   (complete_non_stretch_awaits_outcome marchEnv workoutRoutine
      (Page.atPosition emptyStore 1 1) (by decide) rfl (by decide) (by decide)).1,
   (complete_non_stretch_awaits_outcome marchEnv workoutRoutine
      (Page.atPosition emptyStore 1 1) (by decide) rfl (by decide) (by decide)).2.2.1⟩

/-- C8, evaluated where it fails. The workout routine has 2 series, stored as the text `2`,
and 2 exercises. "Complete Exercise" pressed on the last exercise of series 2 does not show
the outcome form: the session is Running at series 3, and no later press shows the form, so
that no statistics are written. With the number 2 for the series the same press shows the
form. -/
theorem text_series_outcome_form_is_not_shown :
    isLastExercise (textSeriesRoutine RoutineType.workout) (Page.atPosition emptyStore 1 1).session
      = true
    ∧ (textSeriesRoutine RoutineType.workout).series.toNumber = some { mantissa := 2, exponent := 0 }
    ∧ (Page.atPosition emptyStore 1 1).session.currentSeries = 2
    ∧ sessionState (step (textSeriesRoutine RoutineType.workout) marchEnv
        (Page.atPosition emptyStore 1 1) Event.completeExercise) = SessionState.Running
    ∧ (step (textSeriesRoutine RoutineType.workout) marchEnv (Page.atPosition emptyStore 1 1)
        Event.completeExercise).session.showStatsModal = false
    ∧ (step (textSeriesRoutine RoutineType.workout) marchEnv (Page.atPosition emptyStore 1 1)
        Event.completeExercise).session.currentSeries = 3
    ∧ (∀ k, k < 9 →
        sessionState (run (textSeriesRoutine RoutineType.workout)
          (Page.atPosition emptyStore 1 1) (completeEvents (fun _ => marchEnv) k))
          = SessionState.Running)
    ∧ sessionState (step workoutRoutine marchEnv (Page.atPosition emptyStore 1 1)
        Event.completeExercise) = SessionState.AwaitingOutcome := by
  decide

/-! ## C9: ticks while the outcome form is shown -/

/-- C9, as amended. In AwaitingOutcome the timer follows the pause flag alone: a tick leaves
`elapsedTime` as it is when the session is paused and adds exactly 1 when it is not; either
way the session stays AwaitingOutcome, at the same position, and the store is not written. -/
theorem tick_in_awaiting_outcome (r : Routine) (env : Env) (p : Page)
    (h : sessionState p = SessionState.AwaitingOutcome) :
    (step r env p Event.tick).session.elapsedTime
        = (if p.session.isPaused then p.session.elapsedTime else p.session.elapsedTime + 1)
    ∧ sessionState (step r env p Event.tick) = SessionState.AwaitingOutcome
    ∧ (step r env p Event.tick).session.currentSeries = p.session.currentSeries
    ∧ (step r env p Event.tick).session.currentExerciseIndex = p.session.currentExerciseIndex
    ∧ (step r env p Event.tick).store = p.store := by
  obtain ⟨hroute, hmodal⟩ := awaitingOutcome_shown p h
  cases hp : p.session.isPaused <;>
    simp [step, hroute, timerTick, hp, sessionState, hmodal]

/-- The sample workout routine with the outcome form shown and the session not paused. -/
theorem tick_in_awaiting_outcome_witness :
    sessionState awaitingPage = SessionState.AwaitingOutcome
    ∧ (step workoutRoutine marchEnv awaitingPage Event.tick).session.elapsedTime
        = (if awaitingPage.session.isPaused then awaitingPage.session.elapsedTime
           else awaitingPage.session.elapsedTime + 1) :=
  ⟨by decide, (tick_in_awaiting_outcome workoutRoutine marchEnv awaitingPage (by decide)).1⟩

/-- C9, as stated, fails: after the four completions of the sample workout routine the
session is AwaitingOutcome with `elapsedTime` 0, and the next tick makes it 1. -/
theorem tick_in_awaiting_outcome_still_counts :
    sessionState awaitingPage = SessionState.AwaitingOutcome
    ∧ awaitingPage.session.elapsedTime = 0
    ∧ (step workoutRoutine marchEnv awaitingPage Event.tick).session.elapsedTime = 1
    ∧ (step workoutRoutine marchEnv awaitingPage Event.tick).session.elapsedTime
        ≠ awaitingPage.session.elapsedTime := by
  decide

/-! ## C10: validation of the effort on submit -/

/-- C10. The outcome form is submitted while it is shown, with effort text that reads as the
decimal numeral `v`, which JavaScript takes for the double nearest to it. If the text is
empty or that double is below 1 or above 5 (as for 0 and 6), a message is put in
`errors.effort`, the session stays AwaitingOutcome with its state as before, and neither the
store nor the toasts change. If the text is not empty and the double is neither below 1 nor
above 5, then (the store calls resolving) the session is Completed and the month document of
the current date is the saved one: the counter of the routine type one higher and the effort
read by `parseInt` appended to the samples. -/
theorem submitOutcome_effort_validation (r : Routine) (env : Env) (p : Page) (data : FormData)
    (v : Decimal) (hstate : sessionState p = SessionState.AwaitingOutcome)
    (hv : toNumber data.effort = some v) :
    ((data.effort = "" ∨ JsNum.lt v.toDouble 1 = true ∨ JsNum.lt 5 v.toDouble = true) →
        (step r env p (Event.submitOutcome data)).effortError.isSome = true
        ∧ sessionState (step r env p (Event.submitOutcome data)) = SessionState.AwaitingOutcome
        ∧ (step r env p (Event.submitOutcome data)).session = p.session
        ∧ (step r env p (Event.submitOutcome data)).store = p.store
        ∧ (step r env p (Event.submitOutcome data)).toasts = p.toasts)
    ∧ ((data.effort ≠ "" ∧ JsNum.lt v.toDouble 1 = false ∧ JsNum.lt 5 v.toDouble = false) →
        env.storeAvailable = true →
        sessionState (step r env p (Event.submitOutcome data)) = SessionState.Completed
        ∧ (step r env p (Event.submitOutcome data)).store env.now.fullYear env.now.monthKey
            = some (savedDoc r.type data.toStatsData
                (p.store env.now.fullYear env.now.monthKey))
        ∧ (savedDoc r.type data.toStatsData
              (p.store env.now.fullYear env.now.monthKey)).typeCount r.type
            = ((p.store env.now.fullYear env.now.monthKey).map
                (fun d => d.typeCount r.type)).getD 0 + 1
        ∧ (savedDoc r.type data.toStatsData
              (p.store env.now.fullYear env.now.monthKey)).effort
            = ((p.store env.now.fullYear env.now.monthKey).map (fun d => d.effort)).getD []
                ++ [parseInt data.effort]) := by
  obtain ⟨hroute, hmodal⟩ := awaitingOutcome_shown p hstate
  have hstep : step r env p (Event.submitOutcome data) = handleSubmit env r data p := by
    simp [step, hroute, hmodal]
  rw [hstep]
  constructor
  · intro hbad
    have hsome := (validateEffort_isSome_iff data.effort v hv).mpr hbad
    obtain ⟨msg, hmsg⟩ := Option.isSome_iff_exists.mp hsome
    simp [handleSubmit, hmsg, sessionState, hroute, hmodal]
  · rintro ⟨hne, h1, h5⟩ havail
    have hnone : validateEffort data.effort = none := by
      cases hval : validateEffort data.effort with
      | none => rfl
      | some msg =>
        have hsome : (validateEffort data.effort).isSome = true := by simp [hval]
        rcases (validateEffort_isSome_iff data.effort v hv).mp hsome with h | h | h
        · exact absurd h hne
        · rw [h1] at h; cases h
        · rw [h5] at h; cases h
    have htruthy : truthy data.toStatsData.effort = true := by
      simp [truthy, FormData.toStatsData, hne]
    simp only [handleSubmit, hnone, onSubmitStats]
    rw [saveStatistics_available env r _ _ havail]
    refine ⟨sessionState_completed _ _, ?_, savedDoc_typeCount _ _ _, ?_⟩
    · simp only [Page.completed, setDoc_same]
    · have h := savedDoc_effort_of_truthy r.type data.toStatsData
        (p.store env.now.fullYear env.now.monthKey) htruthy
      simpa [FormData.toStatsData] using h

/-- The sample workout routine with the outcome form shown: effort 6 is refused and changes
nothing, effort 3 completes the session and is recorded in the document of March 2025. -/
theorem submitOutcome_effort_validation_witness :
    sessionState awaitingPage = SessionState.AwaitingOutcome
    ∧ toNumber "6" = some { mantissa := 6, exponent := 0 }
    ∧ toNumber "3" = some { mantissa := 3, exponent := 0 }
    ∧ ((step workoutRoutine marchEnv awaitingPage
          (Event.submitOutcome { effort := "6", calories := "", km := "" })).effortError.isSome
        = true
      ∧ sessionState (step workoutRoutine marchEnv awaitingPage
          (Event.submitOutcome { effort := "6", calories := "", km := "" }))
        = SessionState.AwaitingOutcome
      ∧ (step workoutRoutine marchEnv awaitingPage
          (Event.submitOutcome { effort := "6", calories := "", km := "" })).session
        = awaitingPage.session
      ∧ (step workoutRoutine marchEnv awaitingPage
          (Event.submitOutcome { effort := "6", calories := "", km := "" })).store
        = awaitingPage.store
      ∧ (step workoutRoutine marchEnv awaitingPage
          (Event.submitOutcome { effort := "6", calories := "", km := "" })).toasts
        = awaitingPage.toasts)
    ∧ sessionState (step workoutRoutine marchEnv awaitingPage
          (Event.submitOutcome { effort := "3", calories := "", km := "" }))
        = SessionState.Completed :=
  ⟨by decide, by decide, by decide,
   (submitOutcome_effort_validation workoutRoutine marchEnv awaitingPage
      { effort := "6", calories := "", km := "" } { mantissa := 6, exponent := 0 }
      (by decide) (by decide)).1
      (Or.inr (Or.inr (by decide))),
   ((submitOutcome_effort_validation workoutRoutine marchEnv awaitingPage
      { effort := "3", calories := "", km := "" } { mantissa := 3, exponent := 0 }
      (by decide) (by decide)).2
      ⟨by decide, by decide, by decide⟩
      rfl).1⟩

/-! ## Auxiliary facts on the states, the timer and the pause button -/

/-- A page is Running exactly when the component is mounted, shows no outcome form and is not
paused. -/
theorem running_shown (p : Page) (h : sessionState p = SessionState.Running) :
    p.route = Route.routine ∧ p.session.showStatsModal = false ∧ p.session.isPaused = false := by
  cases hr : p.route with
  | move =>
    simp only [sessionState, hr] at h
    split at h <;> cases h
  | routine =>
    cases hm : p.session.showStatsModal <;> cases hp : p.session.isPaused <;>
      simp [sessionState, hr, hm, hp] at h ⊢

/-- A page is Paused exactly when the component is mounted, shows no outcome form and is
paused. -/
theorem paused_shown (p : Page) (h : sessionState p = SessionState.Paused) :
    p.route = Route.routine ∧ p.session.showStatsModal = false ∧ p.session.isPaused = true := by
  cases hr : p.route with
  | move =>
    simp only [sessionState, hr] at h
    split at h <;> cases h
  | routine =>
    cases hm : p.session.showStatsModal <;> cases hp : p.session.isPaused <;>
      simp [sessionState, hr, hm, hp] at h ⊢

/-- Ticks delivered to a paused, mounted page leave the page as it is. -/
theorem run_ticks_paused (r : Routine) (envs : List Env) :
    ∀ p : Page, p.session.isPaused = true → run r p (tickEvents envs) = p := by
  induction envs with
  | nil => intro p _; rfl
  | cons env rest ih =>
    intro p hp
    have hstep : step r env p Event.tick = p := by
      cases hr : p.route <;> simp [step, hr, timerTick, hp]
    simp only [tickEvents, List.map_cons, run, List.foldl_cons, hstep]
    exact ih p hp

/-- The second branch of `handleComplete`, as an equation. -/
theorem handleComplete_next_series_eq (env : Env) (r : Routine) (p : Page)
    (h1 : isLastExercise r p.session = true) (h2 : isLastSeries r p.session = false) :
    handleComplete env r p =
      { p with session :=
          { p.session with currentSeries := p.session.currentSeries + 1,
                           currentExerciseIndex := 0 } } := by
  simp [handleComplete, h1, h2]

/-- The third branch of `handleComplete`, as an equation. -/
theorem handleComplete_next_exercise_eq (env : Env) (r : Routine) (p : Page)
    (h1 : isLastExercise r p.session = false) :
    handleComplete env r p =
      { p with session :=
          { p.session with currentExerciseIndex := p.session.currentExerciseIndex + 1 } } := by
  simp [handleComplete, h1]

/-- After `navigate` the component handles nothing. -/
theorem step_unmounted (r : Routine) (env : Env) (p : Page) (e : Event)
    (h : p.route = Route.move) : step r env p e = p := by
  simp [step, h]

/-! ## Auxiliary facts on the asynchronous body -/

/-- A save whose store calls come back at once: the three parts of `saveStatistics` run one
after the other are `saveStatistics`. -/
theorem saveStatisticsCall_settled (env : Env) (r : Routine) (sd : StatsData) (p : Page) :
    runAsync r (saveStatisticsCall env r sd { page := p, pending := [] })
        [AsyncEvent.getDocSettled 0 env.storeAvailable,
         AsyncEvent.writeSettled 0 env.storeAvailable]
      = { page := saveStatistics env r sd p, pending := [] } := by
  cases havail : env.storeAvailable with
  | false =>
    rw [saveStatistics_unavailable env r sd p havail]
    simp [runAsync, stepAsync, saveStatisticsCall]
  | true =>
    cases hdoc : p.store env.now.fullYear env.now.monthKey with
    | none =>
      simp [runAsync, stepAsync, saveStatisticsCall, chooseWrite, hdoc, Store.applyWrite,
        saveStatistics, havail]
    | some d =>
      simp [runAsync, stepAsync, saveStatisticsCall, chooseWrite, hdoc, Store.applyWrite,
        saveStatistics, havail, Store.updateDoc]

/-- The step of the component with `saveStatistics` taken as a whole is the asynchronous one
in which the store calls of a save come back before anything else happens. -/
theorem stepSettled_eq_step (r : Routine) (env : Env) (p : Page) (e : Event) :
    stepSettled r env p e = { page := step r env p e, pending := [] } := by
  unfold stepSettled
  have hnone : ∀ q : Page, runAsync r { page := q, pending := [] }
      [AsyncEvent.getDocSettled 0 env.storeAvailable,
       AsyncEvent.writeSettled 0 env.storeAvailable] = { page := q, pending := [] } := by
    intro q
    simp [runAsync, stepAsync]
  have hcons : ∀ (a : AsyncPage) (x : AsyncEvent) (xs : List AsyncEvent),
      runAsync r a (x :: xs) = runAsync r (stepAsync r a x) xs := fun _ _ _ => rfl
  rw [hcons]
  cases hroute : p.route with
  | move =>
    simp only [stepAsync, hroute, step]
    exact hnone p
  | routine =>
    cases e with
    | completeExercise =>
      simp only [stepAsync, hroute, step, handleCompleteAsync, handleComplete]
      split
      · split
        · exact hnone _
        · exact saveStatisticsCall_settled env r StatsData.empty p
      · split
        · exact hnone _
        · exact hnone _
    | submitOutcome data =>
      simp only [stepAsync, hroute, step]
      split
      · simp only [handleSubmitAsync, handleSubmit, onSubmitStats]
        split
        · exact hnone _
        · exact saveStatisticsCall_settled env r data.toStatsData _
      · exact hnone p
    | tick => simp only [stepAsync, hroute]; exact hnone _
    | togglePause => simp only [stepAsync, hroute]; exact hnone _
    | exit => simp only [stepAsync, hroute]; exact hnone _
    | confirmExit => simp only [stepAsync, hroute]; exact hnone _
    | cancelExit => simp only [stepAsync, hroute]; exact hnone _

/-! ## Auxiliary facts on text that is a whole number -/

theorem isDigit_toNat (c : Char) (h : c.isDigit = true) : 48 ≤ c.toNat ∧ c.toNat ≤ 57 := by
  simp only [Char.isDigit, Bool.and_eq_true, decide_eq_true_eq] at h
  have h1 : (48 : UInt32) ≤ c.val := h.1
  have h2 : c.val ≤ (57 : UInt32) := h.2
  rw [UInt32.le_def] at h1 h2
  simp only [Char.toNat]
  constructor
  · simpa using h1
  · simpa using h2

theorem isWhiteSpace_of_isDigit (c : Char) (h : c.isDigit = true) : isWhiteSpace c = false := by
  obtain ⟨h1, h2⟩ := isDigit_toNat c h
  have hmem : ¬ c.toNat ∈ [9, 10, 11, 12, 13, 32, 160, 65279, 8232, 8233, 5760, 8239, 8287,
      12288] := by
    intro hmem
    simp only [List.mem_cons, List.mem_singleton, List.not_mem_nil, or_false] at hmem
    omega
  have hrange : ¬ 8192 ≤ c.toNat := by omega
  simp [isWhiteSpace, hmem, hrange]

theorem digitValue_of_isDigit (c : Char) (h : c.isDigit = true) :
    (digitValue 10 c).isSome = true := by
  obtain ⟨h1, h2⟩ := isDigit_toNat c h
  have hlt : c.toNat - 48 < 10 := by omega
  simp [digitValue, h1, h2, Option.filter, hlt]

theorem ne_of_isDigit (c d : Char) (h : c.isDigit = true) (hd : d.isDigit = false) : c ≠ d := by
  intro hcd
  rw [hcd, hd] at h
  cases h

/-- A digit at the head: no white space is dropped, no sign is read. -/
theorem head_digit_facts (c : Char) (rest : List Char) (h : c.isDigit = true) :
    (c :: rest).dropWhile isWhiteSpace = c :: rest
    ∧ ((c :: rest).head? == some '-') = false
    ∧ ((c :: rest).head? == some '+') = false := by
  refine ⟨?_, ?_, ?_⟩
  · simp [List.dropWhile, isWhiteSpace_of_isDigit c h]
  · have hne : c ≠ '-' := ne_of_isDigit c '-' h (by decide)
    simp [hne]
  · have hne : c ≠ '+' := ne_of_isDigit c '+' h (by decide)
    simp [hne]

/-- On text that is a whole number in plain digits, `parseInt` reads the number written. -/
theorem parseIntExact_wholeNumberText (s : String) (h : wholeNumberText s = true) :
    parseIntExact s = some (digitsValue 10 s.toList : Int) := by
  simp only [wholeNumberText, Bool.and_eq_true, Bool.not_eq_true', List.all_eq_true] at h
  obtain ⟨hne, hall⟩ := h
  unfold parseIntExact
  cases hs : s.toList with
  | nil => rw [hs] at hne; cases hne
  | cons c rest =>
    rw [hs] at hall
    have hc : c.isDigit = true := hall c (List.mem_cons_self _ _)
    obtain ⟨hdrop, hminus, hplus⟩ := head_digit_facts c rest hc
    have hhex : (match (c :: rest) with
        | '0' :: x :: _ => x == 'x' || x == 'X'
        | _ => false) = false := by
      cases rest with
      | nil => split <;> simp_all
      | cons x more =>
        have hx : x.isDigit = true := hall x (by simp)
        have hx1 : x ≠ 'x' := ne_of_isDigit x 'x' hx (by decide)
        have hx2 : x ≠ 'X' := ne_of_isDigit x 'X' hx (by decide)
        split
        · rename_i heq
          simp only [List.cons.injEq] at heq
          obtain ⟨_, hxe, _⟩ := heq
          subst hxe
          simp [hx1, hx2]
        · rfl
    have htake : (c :: rest).takeWhile (fun ch => (digitValue 10 ch).isSome) = c :: rest := by
      rw [List.takeWhile_eq_self_iff]
      intro ch hch
      exact digitValue_of_isDigit ch (hall ch hch)
    simp only [hdrop, hminus, hplus, Bool.or_self, Bool.false_eq_true, if_false, hhex, htake]
    simp

theorem dropWhile_isWhiteSpace_digits (l : List Char) (hall : ∀ x ∈ l, x.isDigit = true) :
    l.dropWhile isWhiteSpace = l := by
  cases l with
  | nil => rfl
  | cons c rest =>
    simp [List.dropWhile, isWhiteSpace_of_isDigit c (hall c (List.mem_cons_self _ _))]

theorem scanDecimal_digits (c : Char) (rest : List Char)
    (hall : ∀ x ∈ c :: rest, x.isDigit = true) :
    scanDecimal (c :: rest)
      = some ({ mantissa := (digitsValue 10 (c :: rest) : Int), exponent := 0 }, []) := by
  have hc : c.isDigit = true := hall c (List.mem_cons_self _ _)
  obtain ⟨_, hminus, hplus⟩ := head_digit_facts c rest hc
  have htake : (c :: rest).takeWhile Char.isDigit = c :: rest := by
    rw [List.takeWhile_eq_self_iff]
    exact hall
  have hdrop : (c :: rest).dropWhile Char.isDigit = [] := by
    rw [List.dropWhile_eq_nil_iff]
    exact hall
  unfold scanDecimal
  simp only [hminus, hplus, Bool.or_self, Bool.false_eq_true, if_false, htake, hdrop]
  simp [scanExponent]

/-- On text that is a whole number in plain digits, `Number` reads the number written. -/
theorem toNumber_wholeNumberText (s : String) (h : wholeNumberText s = true) :
    toNumber s = some { mantissa := (digitsValue 10 s.toList : Int), exponent := 0 } := by
  simp only [wholeNumberText, Bool.and_eq_true, Bool.not_eq_true', List.all_eq_true] at h
  obtain ⟨hne, hall⟩ := h
  unfold toNumber
  have h1 : s.toList.dropWhile isWhiteSpace = s.toList :=
    dropWhile_isWhiteSpace_digits s.toList hall
  have h2 : s.toList.reverse.dropWhile isWhiteSpace = s.toList.reverse :=
    dropWhile_isWhiteSpace_digits s.toList.reverse (fun x hx => hall x (List.mem_reverse.mp hx))
  simp only [h1, h2, List.reverse_reverse, hne, Bool.false_eq_true, if_false]
  cases hs : s.toList with
  | nil => rw [hs] at hne; cases hne
  | cons c rest =>
    rw [hs] at hall
    rw [scanDecimal_digits c rest hall]

/-- On text that is a whole number in plain digits, `parseInt` returns the double nearest to
the number written. -/
theorem parseInt_wholeNumberText (s : String) (h : wholeNumberText s = true) :
    parseInt s = JsNum.ofInt (digitsValue 10 s.toList : Int) := by
  unfold parseInt
  rw [parseIntExact_wholeNumberText s h]

/-- On text that is a whole number in plain digits, `parseInt` and `Number` read the same
number. -/
theorem parseInt_eq_toNumber (s : String) (h : wholeNumberText s = true) :
    ∃ n : Nat, parseInt s = JsNum.ofInt (n : Int)
      ∧ toNumber s = some { mantissa := (n : Int), exponent := 0 } :=
  ⟨digitsValue 10 s.toList, parseInt_wholeNumberText s h, toNumber_wholeNumberText s h⟩

/-! ## Auxiliary facts on the saved document -/

theorem saveStatistics_store_at_key (env : Env) (r : Routine) (sd : StatsData) (p : Page)
    (h : env.storeAvailable = true) :
    (saveStatistics env r sd p).store env.now.fullYear env.now.monthKey
      = some (savedDoc r.type sd (p.store env.now.fullYear env.now.monthKey)) := by
  rw [saveStatistics_available env r sd p h]
  simp only [Page.completed, setDoc_same]

theorem savedDoc_typeCount_other (t t1 : RoutineType) (sd : StatsData) (old : Option MoveStats)
    (h : t1 ≠ t) :
    (savedDoc t sd old).typeCount t1 = (old.map (fun d => d.typeCount t1)).getD 0 := by
  cases old with
  | none =>
    cases t <;> cases t1 <;> simp_all [savedDoc, buildNewStats, MoveStats.typeCount]
  | some d =>
    cases t <;> cases t1 <;>
      simp_all [savedDoc, applyUpdates, buildUpdates, MoveStats.incrementType,
        MoveStats.typeCount]

theorem savedDoc_effort_of_not_truthy (t : RoutineType) (sd : StatsData)
    (old : Option MoveStats) (h : truthy sd.effort = false) :
    (savedDoc t sd old).effort = (old.map (fun d => d.effort)).getD [] := by
  cases old with
  | none => cases t <;> simp [savedDoc, buildNewStats, h]
  | some d =>
    cases t <;> simp [savedDoc, applyUpdates, buildUpdates, MoveStats.incrementType, h]

theorem savedDoc_calories (t : RoutineType) (sd : StatsData) (old : Option MoveStats) :
    (savedDoc t sd old).calories =
      match old with
      | some d =>
        if truthy sd.calories then d.calories.add (parseInt (sd.calories.getD ""))
        else d.calories
      | none => if truthy sd.calories then parseInt (sd.calories.getD "") else 0 := by
  cases old with
  | none =>
    cases t <;> cases h : truthy sd.calories <;> simp [savedDoc, buildNewStats, h]
  | some d =>
    cases t <;> cases h : truthy sd.calories <;>
      simp [savedDoc, applyUpdates, buildUpdates, MoveStats.incrementType, h]

theorem savedDoc_km (t : RoutineType) (sd : StatsData) (old : Option MoveStats) :
    (savedDoc t sd old).km =
      match old with
      | some d => if truthy sd.km then d.km.add (parseFloat (sd.km.getD "")) else d.km
      | none => if truthy sd.km then parseFloat (sd.km.getD "") else 0 := by
  cases old with
  | none =>
    cases t <;> cases h : truthy sd.km <;> simp [savedDoc, buildNewStats, h]
  | some d =>
    cases t <;> cases h : truthy sd.km <;>
      simp [savedDoc, applyUpdates, buildUpdates, MoveStats.incrementType, h]

/-! ## Auxiliary facts on text that is a decimal number -/

/-- The pieces of a decimal text: digits, then nothing or a point and digits. -/
theorem decimalText_shape (s : String) (h : decimalText s = true) :
    ∃ (c : Char) (ip : List Char),
      (∀ x ∈ c :: ip, x.isDigit = true)
      ∧ (s.toList = c :: ip
         ∨ ∃ (f : Char) (fp : List Char), (∀ x ∈ f :: fp, x.isDigit = true)
             ∧ s.toList = (c :: ip) ++ '.' :: f :: fp) := by
  simp only [decimalText, Bool.and_eq_true, Bool.not_eq_true', Bool.or_eq_true,
    List.all_eq_true] at h
  obtain ⟨hip, hrest⟩ := h
  have hsplit : s.toList.takeWhile Char.isDigit ++ s.toList.dropWhile Char.isDigit = s.toList :=
    List.takeWhile_append_dropWhile _ _
  have hdig : ∀ x ∈ s.toList.takeWhile Char.isDigit, x.isDigit = true :=
    fun x hx => List.mem_takeWhile_imp hx
  cases htk : s.toList.takeWhile Char.isDigit with
  | nil => rw [htk] at hip; cases hip
  | cons c ip =>
    rw [htk] at hdig hsplit
    refine ⟨c, ip, hdig, ?_⟩
    rcases hrest with hempty | ⟨⟨hhead, htail⟩, hall⟩
    · left
      have hnil : s.toList.dropWhile Char.isDigit = [] := List.isEmpty_iff.mp hempty
      rw [hnil, List.append_nil] at hsplit
      exact hsplit.symm
    · right
      cases hdr : s.toList.dropWhile Char.isDigit with
      | nil => rw [hdr] at hhead; simp at hhead
      | cons d tl =>
        rw [hdr] at hhead htail hall hsplit
        have hd : d = '.' := by simpa using hhead
        cases tl with
        | nil => simp at htail
        | cons f fp =>
          refine ⟨f, fp, ?_, ?_⟩
          · simpa using hall
          · rw [← hsplit, hd]

theorem scanDecimal_with_fraction (c : Char) (ip : List Char) (f : Char) (fp : List Char)
    (hip : ∀ x ∈ c :: ip, x.isDigit = true) (hfp : ∀ x ∈ f :: fp, x.isDigit = true) :
    scanDecimal ((c :: ip) ++ '.' :: f :: fp)
      = some ({ mantissa := (digitsValue 10 ((c :: ip) ++ f :: fp) : Int),
                exponent := -(((f :: fp).length : Nat) : Int) }, []) := by
  have hc : c.isDigit = true := hip c (List.mem_cons_self _ _)
  obtain ⟨_, hminus, hplus⟩ := head_digit_facts c (ip ++ '.' :: f :: fp) hc
  have hdot : ¬ ('.' : Char).isDigit = true := by decide
  have htake : ((c :: ip) ++ '.' :: f :: fp).takeWhile Char.isDigit = c :: ip := by
    rw [List.takeWhile_append_of_pos hip, List.takeWhile_cons_of_neg hdot, List.append_nil]
  have hdrop : ((c :: ip) ++ '.' :: f :: fp).dropWhile Char.isDigit = '.' :: f :: fp := by
    rw [List.dropWhile_append_of_pos hip, List.dropWhile_cons_of_neg hdot]
  have htake2 : (f :: fp).takeWhile Char.isDigit = f :: fp := by
    rw [List.takeWhile_eq_self_iff]; exact hfp
  have hdrop2 : (f :: fp).dropWhile Char.isDigit = [] := by
    rw [List.dropWhile_eq_nil_iff]; exact hfp
  have hcons : (c :: ip) ++ '.' :: f :: fp = c :: (ip ++ '.' :: f :: fp) := rfl
  unfold scanDecimal
  rw [hcons] at htake hdrop ⊢
  simp only [hminus, hplus, Bool.or_self, Bool.false_eq_true, if_false, htake, hdrop, htake2,
    hdrop2]
  simp [scanExponent]

/-- On a decimal text, `parseFloat` and `Number` read the same decimal numeral, which is not
negative. -/
theorem parseFloatExact_eq_toNumber (s : String) (h : decimalText s = true) :
    ∃ d : Decimal, parseFloatExact s = some d ∧ toNumber s = some d ∧ 0 ≤ d.toRat := by
  obtain ⟨c, ip, hip, hshape⟩ := decimalText_shape s h
  have hc : c.isDigit = true := hip c (List.mem_cons_self _ _)
  rcases hshape with hs | ⟨f, fp, hfp, hs⟩
  · have hwhole : wholeNumberText s = true := by
      simp only [wholeNumberText, hs, Bool.and_eq_true, Bool.not_eq_true', List.all_eq_true]
      exact ⟨rfl, hip⟩
    refine ⟨{ mantissa := (digitsValue 10 s.toList : Int), exponent := 0 }, ?_,
      toNumber_wholeNumberText s hwhole, ?_⟩
    · unfold parseFloatExact
      rw [hs, dropWhile_isWhiteSpace_digits (c :: ip) hip, scanDecimal_digits c ip hip]
      rfl
    · simp [Decimal.toRat]
  · refine ⟨{ mantissa := (digitsValue 10 ((c :: ip) ++ f :: fp) : Int),
              exponent := -(((f :: fp).length : Nat) : Int) }, ?_, ?_, ?_⟩
    · unfold parseFloatExact
      have hdrop : ((c :: ip) ++ '.' :: f :: fp).dropWhile isWhiteSpace
          = (c :: ip) ++ '.' :: f :: fp :=
        (head_digit_facts c (ip ++ '.' :: f :: fp) hc).1
      rw [hs, hdrop, scanDecimal_with_fraction c ip f fp hip hfp]
      rfl
    · unfold toNumber
      have hdrop : ((c :: ip) ++ '.' :: f :: fp).dropWhile isWhiteSpace
          = (c :: ip) ++ '.' :: f :: fp :=
        (head_digit_facts c (ip ++ '.' :: f :: fp) hc).1
      have hrev : ((c :: ip) ++ '.' :: f :: fp).reverse.dropWhile isWhiteSpace
          = ((c :: ip) ++ '.' :: f :: fp).reverse := by
        cases hr : (f :: fp).reverse with
        | nil => simp at hr
        | cons l ls =>
          have hl : l.isDigit = true :=
            hfp l (List.mem_reverse.mp (by rw [hr]; exact List.mem_cons_self _ _))
          have hrevEq : ((c :: ip) ++ '.' :: f :: fp).reverse
              = l :: (ls ++ '.' :: (c :: ip).reverse) := by
            rw [List.reverse_append, List.reverse_cons (a := '.'), hr]
            simp
          rw [hrevEq]
          exact (head_digit_facts l _ hl).1
      rw [hs, hdrop, hrev, List.reverse_reverse]
      simp only [List.isEmpty_cons, List.cons_append, Bool.false_eq_true, if_false]
      rw [← List.cons_append, scanDecimal_with_fraction c ip f fp hip hfp]
      rfl
    · simp only [Decimal.toRat]
      positivity

/-- On a decimal text, `parseFloat` returns the double nearest to the number written. -/
theorem parseFloat_decimalText (s : String) (h : decimalText s = true) :
    ∃ d : Decimal, toNumber s = some d ∧ 0 ≤ d.toRat ∧ parseFloat s = d.toDouble := by
  obtain ⟨d, hparse, hnum, hpos⟩ := parseFloatExact_eq_toNumber s h
  refine ⟨d, hnum, hpos, ?_⟩
  unfold parseFloat
  rw [hparse]

theorem truthy_of_wholeNumberText (o : Option String) (text : String) (ho : o = some text)
    (h : wholeNumberText text = true) : truthy o = true := by
  have hne : text ≠ "" := by
    intro h0
    rw [h0] at h
    revert h
    decide
  simp [ho, truthy, hne]

theorem truthy_of_decimalText (o : Option String) (text : String) (ho : o = some text)
    (h : decimalText text = true) : truthy o = true := by
  have hne : text ≠ "" := by
    intro h0
    rw [h0] at h
    revert h
    decide
  simp [ho, truthy, hne]

theorem JsNum.zero_toRat : (0 : JsNum).toRat = some 0 := by
  have h : (0 : JsNum) = JsNum.finite 0 0 := by decide
  rw [h]
  simp [JsNum.toRat]

/-- A whole number below `2 ^ 53` written in plain digits is read by `parseInt` as
itself. -/
theorem parseInt_plain_value (s : String) (h : wholeNumberText s = true)
    (hsmall : digitsValue 10 s.toList < 2 ^ 53) :
    (parseInt s).toRat = some ((digitsValue 10 s.toList : Nat) : ℚ) := by
  rw [parseInt_wholeNumberText s h]
  have := ofInt_toRat (digitsValue 10 s.toList : Int) (by simpa using hsmall)
  simpa using this

/-- On digits followed by a point, `parseInt` returns the number the digits write. -/
theorem parseIntExact_digits_point (s : String) (c : Char) (ip rest : List Char)
    (hip : ∀ x ∈ c :: ip, x.isDigit = true) (hs : s.toList = (c :: ip) ++ '.' :: rest) :
    parseIntExact s = some (digitsValue 10 (c :: ip) : Int) := by
  have hc : c.isDigit = true := hip c (List.mem_cons_self _ _)
  obtain ⟨hdrop, hminus, hplus⟩ := head_digit_facts c (ip ++ '.' :: rest) hc
  have hcons : (c :: ip) ++ '.' :: rest = c :: (ip ++ '.' :: rest) := rfl
  have hhex : (match c :: (ip ++ '.' :: rest) with
      | '0' :: x :: _ => x == 'x' || x == 'X'
      | _ => false) = false := by
    cases ip with
    | nil =>
      split
      · rename_i heq
        simp only [List.nil_append, List.cons.injEq] at heq
        obtain ⟨_, hxe, _⟩ := heq
        subst hxe
        decide
      · rfl
    | cons x more =>
      have hx : x.isDigit = true := hip x (by simp)
      have hx1 : x ≠ 'x' := ne_of_isDigit x 'x' hx (by decide)
      have hx2 : x ≠ 'X' := ne_of_isDigit x 'X' hx (by decide)
      split
      · rename_i heq
        simp only [List.cons_append, List.cons.injEq] at heq
        obtain ⟨_, hxe, _⟩ := heq
        subst hxe
        simp [hx1, hx2]
      · rfl
  have hpoint : (digitValue 10 '.').isSome = false := by decide
  have htake : (c :: (ip ++ '.' :: rest)).takeWhile (fun ch => (digitValue 10 ch).isSome)
      = c :: ip := by
    rw [← hcons, List.takeWhile_append_of_pos
      (fun ch hch => digitValue_of_isDigit ch (hip ch hch))]
    simp [List.takeWhile_cons, hpoint]
  unfold parseIntExact
  rw [hs, hcons]
  simp only [hdrop, hminus, hplus, Bool.or_self, Bool.false_eq_true, if_false, hhex, htake]
  simp

/-- On a decimal text `parseInt` reads the whole number that the digits before the point
write. -/
theorem parseInt_decimalText (s : String) (h : decimalText s = true) :
    parseInt s = JsNum.ofInt (digitsValue 10 (s.toList.takeWhile Char.isDigit) : Int) := by
  obtain ⟨c, ip, hip, hshape⟩ := decimalText_shape s h
  rcases hshape with hs | ⟨f, fp, _, hs⟩
  · have hwhole : wholeNumberText s = true := by
      simp only [wholeNumberText, hs, Bool.and_eq_true, Bool.not_eq_true', List.all_eq_true]
      exact ⟨rfl, hip⟩
    have htake : s.toList.takeWhile Char.isDigit = s.toList := by
      rw [List.takeWhile_eq_self_iff, hs]
      exact hip
    rw [htake]
    exact parseInt_wholeNumberText s hwhole
  · have htake : s.toList.takeWhile Char.isDigit = c :: ip := by
      rw [hs, List.takeWhile_append_of_pos hip]
      have hpoint : Char.isDigit '.' = false := by decide
      simp [List.takeWhile_cons, hpoint]
    rw [htake]
    unfold parseInt
    rw [parseIntExact_digits_point s c ip (f :: fp) hip hs]

/-- A whole number below `2 ^ 53` written in plain digits is read by `parseFloat` as
itself. -/
theorem parseFloat_plain_value (s : String) (h : wholeNumberText s = true)
    (hsmall : digitsValue 10 s.toList < 2 ^ 53) :
    (parseFloat s).toRat = some ((digitsValue 10 s.toList : Nat) : ℚ) := by
  have hdec : decimalText s = true := by
    simp only [wholeNumberText, Bool.and_eq_true, Bool.not_eq_true', List.all_eq_true] at h
    obtain ⟨hne, hall⟩ := h
    have htake : s.toList.takeWhile Char.isDigit = s.toList := by
      rw [List.takeWhile_eq_self_iff]
      exact hall
    have hdrop : s.toList.dropWhile Char.isDigit = [] := by
      rw [List.dropWhile_eq_nil_iff]
      exact hall
    unfold decimalText
    rw [htake, hdrop, hne]
    rfl
  obtain ⟨d, hnum, _, hparse⟩ := parseFloat_decimalText s hdec
  rw [toNumber_wholeNumberText s h] at hnum
  rw [hparse, ← Option.some.inj hnum]
  unfold Decimal.toDouble
  simp only [Int.toNat_zero, pow_zero, mul_one, neg_zero, Int.natAbs_ofNat]
  have hneg : ¬ ((digitsValue 10 s.toList : Nat) : Int) < 0 := by omega
  simp only [hneg, decide_False]
  have := ofInt_toRat (digitsValue 10 s.toList : Int) (by simpa using hsmall)
  simpa [JsNum.ofInt, hneg] using this

/-! ## C11: the exit path writes no statistics -/

/-- C11. The exit path never writes a statistics document: `handleExit`, the confirm button
(`confirmExit`) and the cancel button of the exit dialog leave the store of every page as it
is; and from every page that is not terminal, exit followed by its confirmation ends in
Exited with the store unchanged. -/
theorem exit_writes_no_statistics (r : Routine) (env1 env2 : Env) (p : Page)
    (h : p.route = Route.routine) :
    (handleExit p).store = p.store
    ∧ (confirmExit p).store = p.store
    ∧ (closeExitConfirm p).store = p.store
    ∧ (step r env1 p Event.exit).store = p.store
    ∧ (step r env1 p Event.confirmExit).store = p.store
    ∧ (step r env1 p Event.cancelExit).store = p.store
    ∧ sessionState (run r p [(env1, Event.exit), (env2, Event.confirmExit)])
        = SessionState.Exited
    ∧ (run r p [(env1, Event.exit), (env2, Event.confirmExit)]).store = p.store := by
  refine ⟨rfl, rfl, rfl, ?_, ?_, ?_, ?_, ?_⟩
  · simp [step, h, handleExit]
  · simp only [step, h]; split <;> rfl
  · simp only [step, h]; split <;> rfl
  · simp [run, step, h, handleExit, confirmExit, sessionState]
  · simp [run, step, h, handleExit, confirmExit]

/-- The sample workout routine: exit from the fresh page (Running), from the paused page and
from the page that shows the outcome form. -/
theorem exit_writes_no_statistics_witness :
    sessionState (Page.fresh emptyStore) = SessionState.Running
    ∧ sessionState pausedPage = SessionState.Paused
    ∧ sessionState awaitingPage = SessionState.AwaitingOutcome
    ∧ (run workoutRoutine (Page.fresh emptyStore)
        [(marchEnv, Event.exit), (marchEnv, Event.confirmExit)]).store
        = (Page.fresh emptyStore).store
    ∧ (run workoutRoutine pausedPage
        [(marchEnv, Event.exit), (marchEnv, Event.confirmExit)]).store = pausedPage.store
    ∧ (run workoutRoutine awaitingPage
        [(marchEnv, Event.exit), (marchEnv, Event.confirmExit)]).store = awaitingPage.store :=
  ⟨by decide, by decide, by decide,
   (exit_writes_no_statistics workoutRoutine marchEnv marchEnv (Page.fresh emptyStore)
      rfl).2.2.2.2.2.2.2,
   (exit_writes_no_statistics workoutRoutine marchEnv marchEnv pausedPage
      (by decide)).2.2.2.2.2.2.2,
   (exit_writes_no_statistics workoutRoutine marchEnv marchEnv awaitingPage
      (by decide)).2.2.2.2.2.2.2⟩

/-! ## C12: a session can be counted twice -/

/-- C12, evaluated where it fails. The sample stretch routine, two series of two exercises,
starts with no document for March 2025. Its fourth press of "Complete Exercise" takes the
terminal branch and starts `saveStatistics`; the session is still Running, and a fifth press
handled before the store calls have come back starts `saveStatistics` again. When the calls
have come back the session is Completed and the document of the month counts two stretch
completions. -/
theorem double_press_counts_twice :
    (runAsync stretchRoutine { page := Page.fresh emptyStore, pending := [] }
        (doublePress.take 4)).pending.length = 1
    ∧ sessionState (runAsync stretchRoutine { page := Page.fresh emptyStore, pending := [] }
        (doublePress.take 4)).page = SessionState.Running
    ∧ (runAsync stretchRoutine { page := Page.fresh emptyStore, pending := [] }
        (doublePress.take 5)).pending.length = 2
    ∧ sessionState (runAsync stretchRoutine { page := Page.fresh emptyStore, pending := [] }
        doublePress).page = SessionState.Completed
    ∧ (runAsync stretchRoutine { page := Page.fresh emptyStore, pending := [] }
        doublePress).pending = []
    ∧ ((runAsync stretchRoutine { page := Page.fresh emptyStore, pending := [] }
        doublePress).page.store 2025 3).map (fun d => d.stretch) = some 2 := by
  decide

/-! ## C13: a tick while Running -/

/-- C13. A tick handled while the session is Running adds exactly 1 to `elapsedTime`, leaves
the session Running and keeps `currentSeries` and `currentExerciseIndex`. -/
theorem tick_while_running (r : Routine) (env : Env) (p : Page)
    (h : sessionState p = SessionState.Running) :
    (step r env p Event.tick).session.elapsedTime = p.session.elapsedTime + 1
    ∧ sessionState (step r env p Event.tick) = SessionState.Running
    ∧ (step r env p Event.tick).session.currentSeries = p.session.currentSeries
    ∧ (step r env p Event.tick).session.currentExerciseIndex
        = p.session.currentExerciseIndex := by
  obtain ⟨hroute, hmodal, hpaused⟩ := running_shown p h
  simp [step, hroute, timerTick, hpaused, sessionState, hmodal]

/-- The fresh page of the sample workout routine: a tick makes `elapsedTime` 1. -/
theorem tick_while_running_witness :
    sessionState (Page.fresh emptyStore) = SessionState.Running
    ∧ (step workoutRoutine marchEnv (Page.fresh emptyStore) Event.tick).session.elapsedTime
        = (Page.fresh emptyStore).session.elapsedTime + 1 :=
  ⟨by decide, (tick_while_running workoutRoutine marchEnv (Page.fresh emptyStore) (by decide)).1⟩

/-! ## C14: ticks while Paused -/

/-- C14. A Running session is paused, any number of clock intervals pass, and the session is
resumed: while paused the session is Paused with `elapsedTime` as at the moment of the pause,
and after the resume it is Running with that same `elapsedTime`; the whole session state is
the one before the pause. -/
theorem ticks_dropped_while_paused (r : Routine) (envPause envResume : Env) (ticks : List Env)
    (p : Page) (h : sessionState p = SessionState.Running) :
    sessionState (run r p ((envPause, Event.togglePause) :: tickEvents ticks))
        = SessionState.Paused
    ∧ (run r p ((envPause, Event.togglePause) :: tickEvents ticks)).session.elapsedTime
        = p.session.elapsedTime
    ∧ sessionState (run r p ((envPause, Event.togglePause) :: tickEvents ticks
          ++ [(envResume, Event.togglePause)])) = SessionState.Running
    ∧ (run r p ((envPause, Event.togglePause) :: tickEvents ticks
          ++ [(envResume, Event.togglePause)])).session.elapsedTime = p.session.elapsedTime
    ∧ (run r p ((envPause, Event.togglePause) :: tickEvents ticks
          ++ [(envResume, Event.togglePause)])).session = p.session := by
  obtain ⟨hroute, hmodal, hpaused⟩ := running_shown p h
  have hpause : step r envPause p Event.togglePause = togglePause p := by
    simp [step, hroute]
  have hticks : run r p ((envPause, Event.togglePause) :: tickEvents ticks) = togglePause p := by
    have hcons : run r p ((envPause, Event.togglePause) :: tickEvents ticks)
        = run r (step r envPause p Event.togglePause) (tickEvents ticks) := rfl
    rw [hcons, hpause]
    exact run_ticks_paused r ticks (togglePause p) (by simp [togglePause, hpaused])
  have hresume : run r p ((envPause, Event.togglePause) :: tickEvents ticks
      ++ [(envResume, Event.togglePause)]) = togglePause (togglePause p) := by
    rw [run_snoc, hticks]
    simp [step, togglePause, hroute]
  rw [hticks, hresume]
  refine ⟨?_, rfl, ?_, rfl, ?_⟩
  · simp [sessionState, togglePause, hroute, hmodal, hpaused]
  · simp [sessionState, togglePause, hroute, hmodal, hpaused]
  · simp [togglePause]

/-- The fresh page of the sample workout routine, paused for three clock intervals. -/
theorem ticks_dropped_while_paused_witness :
    sessionState (Page.fresh emptyStore) = SessionState.Running
    ∧ (run workoutRoutine (Page.fresh emptyStore)
        ((marchEnv, Event.togglePause) :: tickEvents [marchEnv, marchEnv, marchEnv]
          ++ [(marchEnv, Event.togglePause)])).session.elapsedTime
      = (Page.fresh emptyStore).session.elapsedTime :=
  ⟨by decide,
   (ticks_dropped_while_paused workoutRoutine marchEnv marchEnv [marchEnv, marchEnv, marchEnv]
      (Page.fresh emptyStore) (by decide)).2.2.2.1⟩

/-! ## C15: pause and resume -/

/-- C15. The pause button takes a Running session to Paused and a Paused session to Running,
each time keeping `currentSeries`, `currentExerciseIndex` and `elapsedTime`; pressed twice in
a row on a page that is not terminal it gives back the very same session, with the store as
it was. -/
theorem pause_resume (r : Routine) (env1 env2 : Env) (p : Page)
    (h : p.route = Route.routine) :
    (sessionState p = SessionState.Running →
        sessionState (step r env1 p Event.togglePause) = SessionState.Paused)
    ∧ (sessionState p = SessionState.Paused →
        sessionState (step r env1 p Event.togglePause) = SessionState.Running)
    ∧ (step r env1 p Event.togglePause).session.currentSeries = p.session.currentSeries
    ∧ (step r env1 p Event.togglePause).session.currentExerciseIndex
        = p.session.currentExerciseIndex
    ∧ (step r env1 p Event.togglePause).session.elapsedTime = p.session.elapsedTime
    ∧ (run r p [(env1, Event.togglePause), (env2, Event.togglePause)]).session = p.session
    ∧ sessionState (run r p [(env1, Event.togglePause), (env2, Event.togglePause)])
        = sessionState p
    ∧ (run r p [(env1, Event.togglePause), (env2, Event.togglePause)]).store = p.store := by
  have hstep : step r env1 p Event.togglePause = togglePause p := by simp [step, h]
  have hrun : run r p [(env1, Event.togglePause), (env2, Event.togglePause)]
      = togglePause (togglePause p) := by
    simp [run, step, h, togglePause]
  rw [hstep, hrun]
  refine ⟨?_, ?_, rfl, rfl, rfl, ?_, ?_, rfl⟩
  · intro hrunning
    obtain ⟨_, hmodal, hpaused⟩ := running_shown p hrunning
    simp [sessionState, togglePause, h, hmodal, hpaused]
  · intro hp
    obtain ⟨_, hmodal, hpaused⟩ := paused_shown p hp
    simp [sessionState, togglePause, h, hmodal, hpaused]
  · simp [togglePause]
  · simp [sessionState, togglePause, h]

/-- The sample workout routine: pause from the fresh page, resume from the paused page. -/
theorem pause_resume_witness :
    sessionState (Page.fresh emptyStore) = SessionState.Running
    ∧ sessionState (step workoutRoutine marchEnv (Page.fresh emptyStore) Event.togglePause)
        = SessionState.Paused
    ∧ sessionState pausedPage = SessionState.Paused
    ∧ sessionState (step workoutRoutine marchEnv pausedPage Event.togglePause)
        = SessionState.Running
    ∧ (run workoutRoutine (Page.fresh emptyStore)
        [(marchEnv, Event.togglePause), (marchEnv, Event.togglePause)]).session
        = (Page.fresh emptyStore).session :=
  ⟨by decide,
   (pause_resume workoutRoutine marchEnv marchEnv (Page.fresh emptyStore) rfl).1 (by decide),
   by decide,
   (pause_resume workoutRoutine marchEnv marchEnv pausedPage (by decide)).2.1 (by decide),
   (pause_resume workoutRoutine marchEnv marchEnv (Page.fresh emptyStore) rfl).2.2.2.2.2.1⟩

/-! ## C16: completing an exercise while Paused -/

/-- C16, as amended. A "Complete Exercise" press handled while the session is Paused, at a
position that is not the last exercise of the last series, leaves the session Paused: the
pause flag stays set and a following tick does not count; the position advances exactly as
the press advances it from the same page not paused, `elapsedTime` keeps its value and the
store is not written. -/
theorem complete_while_paused_stays_paused (r : Routine) (env env1 : Env) (p : Page)
    (h : sessionState p = SessionState.Paused)
    (hpos : (isLastExercise r p.session && isLastSeries r p.session) = false) :
    sessionState (step r env p Event.completeExercise) = SessionState.Paused
    ∧ (step r env p Event.completeExercise).session.isPaused = true
    ∧ (step r env1 (step r env p Event.completeExercise) Event.tick).session.elapsedTime
        = p.session.elapsedTime
    ∧ (step r env p Event.completeExercise).session.currentSeries
        = (step r env (togglePause p) Event.completeExercise).session.currentSeries
    ∧ (step r env p Event.completeExercise).session.currentExerciseIndex
        = (step r env (togglePause p) Event.completeExercise).session.currentExerciseIndex
    ∧ sessionState (step r env (togglePause p) Event.completeExercise) = SessionState.Running
    ∧ (step r env p Event.completeExercise).session.elapsedTime = p.session.elapsedTime
    ∧ (step r env p Event.completeExercise).store = p.store := by
  obtain ⟨hroute, hmodal, hpaused⟩ := paused_shown p h
  have hstep : step r env p Event.completeExercise = handleComplete env r p := by
    simp [step, hroute]
  have hstep1 : step r env (togglePause p) Event.completeExercise
      = handleComplete env r (togglePause p) := by
    simp [step, hroute, togglePause]
  rw [hstep, hstep1]
  cases hlast : isLastExercise r p.session with
  | true =>
    have hser : isLastSeries r p.session = false := by simpa [hlast] using hpos
    rw [handleComplete_next_series_eq env r p hlast hser,
      handleComplete_next_series_eq env r (togglePause p) hlast hser]
    simp [step, hroute, togglePause, sessionState, hmodal, hpaused, timerTick]
  | false =>
    rw [handleComplete_next_exercise_eq env r p hlast,
      handleComplete_next_exercise_eq env r (togglePause p) hlast]
    simp [step, hroute, togglePause, sessionState, hmodal, hpaused, timerTick]

/-- The paused page of the sample workout routine, at the first of its two exercises. -/
theorem complete_while_paused_stays_paused_witness :
    sessionState pausedPage = SessionState.Paused
    ∧ (isLastExercise workoutRoutine pausedPage.session
        && isLastSeries workoutRoutine pausedPage.session) = false
    ∧ sessionState (step workoutRoutine marchEnv pausedPage Event.completeExercise)
        = SessionState.Paused :=
  ⟨by decide, by decide,
   (complete_while_paused_stays_paused workoutRoutine marchEnv marchEnv pausedPage
      (by decide) (by decide)).1⟩

/-- C16, as stated, fails: the sample workout routine is paused at its first exercise and the
exercise is completed; the position advances to the second exercise, but the session is
Paused, not Running, and the next tick leaves `elapsedTime` at 0. -/
theorem complete_while_paused_not_running :
    sessionState pausedPage = SessionState.Paused
    ∧ (step workoutRoutine marchEnv pausedPage Event.completeExercise).session.currentExerciseIndex
        = 1
    ∧ sessionState (step workoutRoutine marchEnv pausedPage Event.completeExercise)
        ≠ SessionState.Running
    ∧ sessionState (step workoutRoutine marchEnv pausedPage Event.completeExercise)
        = SessionState.Paused
    ∧ (run workoutRoutine pausedPage
        [(marchEnv, Event.completeExercise), (marchEnv, Event.tick)]).session.elapsedTime = 0 := by
  decide

/-! ## C17: the first completion of a month creates the record -/

/-- C17, as amended. When the store has no document for the month of the current date (and
the store calls resolve), `saveStatistics` creates one in which the counter of the routine
type is 1 and the three other counters are 0; `effort` holds the one number `parseInt` reads
from the effort field if one was given and is empty otherwise; `calories` is the number
`parseInt` reads from its field and `km` the number `parseFloat` reads from its field, if
given, and 0 otherwise. An effort and calories written in plain digits, below `2 ^ 53`, are
stored as written; a distance written as a decimal number is stored as the double nearest to
it. -/
theorem saveStatistics_creates_record (env : Env) (r : Routine) (sd : StatsData) (p : Page)
    (havail : env.storeAvailable = true)
    (habsent : p.store env.now.fullYear env.now.monthKey = none) :
    ∃ d : MoveStats,
      (saveStatistics env r sd p).store env.now.fullYear env.now.monthKey = some d
      ∧ d.typeCount r.type = 1
      ∧ (∀ t, t ≠ r.type → d.typeCount t = 0)
      ∧ d.effort = (if truthy sd.effort then [parseInt (sd.effort.getD "")] else [])
      ∧ d.calories = (if truthy sd.calories then parseInt (sd.calories.getD "") else 0)
      ∧ d.km = (if truthy sd.km then parseFloat (sd.km.getD "") else 0)
      ∧ (∀ text, sd.effort = some text → wholeNumberText text = true →
          digitsValue 10 text.toList < 2 ^ 53 →
          d.effort.map JsNum.toRat = [some ((digitsValue 10 text.toList : Nat) : ℚ)])
      ∧ (∀ text, sd.calories = some text → wholeNumberText text = true →
          digitsValue 10 text.toList < 2 ^ 53 →
          d.calories.toRat = some ((digitsValue 10 text.toList : Nat) : ℚ))
      ∧ (∀ text, sd.km = some text → decimalText text = true →
          ∃ v : Decimal, toNumber text = some v ∧ 0 ≤ v.toRat ∧ d.km = v.toDouble) := by
  have heffort : (savedDoc r.type sd none).effort
      = (if truthy sd.effort then [parseInt (sd.effort.getD "")] else []) := by
    cases r.type <;> simp [savedDoc, buildNewStats]
  have hcal : (savedDoc r.type sd none).calories
      = (if truthy sd.calories then parseInt (sd.calories.getD "") else 0) := by
    cases r.type <;> simp [savedDoc, buildNewStats]
  have hkm : (savedDoc r.type sd none).km
      = (if truthy sd.km then parseFloat (sd.km.getD "") else 0) := by
    cases r.type <;> simp [savedDoc, buildNewStats]
  refine ⟨savedDoc r.type sd none, ?_, ?_, ?_, heffort, hcal, hkm, ?_, ?_, ?_⟩
  · rw [saveStatistics_store_at_key env r sd p havail, habsent]
  · simpa using savedDoc_typeCount r.type sd none
  · intro t ht
    simpa using savedDoc_typeCount_other r.type t sd none ht
  · intro text htext hwhole hsmall
    rw [heffort, truthy_of_wholeNumberText _ text htext hwhole, if_pos rfl, htext]
    simp only [Option.getD_some, List.map_cons, List.map_nil]
    rw [parseInt_plain_value text hwhole hsmall]
  · intro text htext hwhole hsmall
    rw [hcal, truthy_of_wholeNumberText _ text htext hwhole, if_pos rfl, htext]
    exact parseInt_plain_value text hwhole hsmall
  · intro text htext hdec
    obtain ⟨v, hv, hpos, hparse⟩ := parseFloat_decimalText text hdec
    refine ⟨v, hv, hpos, ?_⟩
    rw [hkm, truthy_of_decimalText _ text htext hdec, if_pos rfl, htext]
    exact hparse

/-- The sample workout routine with the outcome form shown and no document for March 2025,
saved with effort 4, 250 calories and 5.2 km. -/
theorem saveStatistics_creates_record_witness :
    marchEnv.storeAvailable = true
    ∧ awaitingPage.store marchEnv.now.fullYear marchEnv.now.monthKey = none
    ∧ ∃ d : MoveStats,
      (saveStatistics marchEnv workoutRoutine sampleOutcome awaitingPage).store
          marchEnv.now.fullYear marchEnv.now.monthKey = some d
      ∧ d.typeCount workoutRoutine.type = 1
      ∧ (∀ t, t ≠ workoutRoutine.type → d.typeCount t = 0)
      ∧ d.effort = [4]
      ∧ d.calories = 250
      ∧ d.km = parseFloat "5.2" := by
  obtain ⟨d, hd, h1, h0, he, hc, hk, _⟩ :=
    saveStatistics_creates_record marchEnv workoutRoutine sampleOutcome awaitingPage rfl
      (by decide)
  refine ⟨rfl, by decide, d, hd, h1, h0, ?_, ?_, ?_⟩
  · rw [he]; decide
  · rw [hc]; decide
  · rw [hk]; decide

/-- C17, as stated, fails: with no document for March 2025, the outcome gives 12.5 calories;
the field reads as the number 12.5 and the record is created with 12 calories; and calories
given as `1e3`, which the field reads as 1000, create a record with 1 calorie. -/
theorem saveStatistics_creates_truncated_calories :
    awaitingPage.store 2025 3 = none
    ∧ toNumber "12.5" = some { mantissa := 125, exponent := -1 }
    ∧ ((saveStatistics marchEnv workoutRoutine fractionalCalories awaitingPage).store
          2025 3).map (fun d => d.calories) = some 12
    ∧ (12 : JsNum) ≠ parseFloat "12.5"
    ∧ toNumber "1e3" = some { mantissa := 1, exponent := 3 }
    ∧ ((saveStatistics marchEnv workoutRoutine
          { effort := some "3", calories := some "1e3", km := none } awaitingPage).store
          2025 3).map (fun d => d.calories) = some 1
    ∧ (1 : JsNum) ≠ parseFloat "1e3" := by
  decide

/-! ## C18: a completion adds 1 to the counter of its type -/

/-- C18. When the store has a document for the month of the current date (and the store
calls resolve), `saveStatistics` leaves a document whose counter of the routine type is the
old one plus exactly 1 and whose three other counters are the old ones, whichever of the four
types the routine has. -/
theorem saveStatistics_increments_type_counter (env : Env) (r : Routine) (sd : StatsData)
    (p : Page) (old : MoveStats) (havail : env.storeAvailable = true)
    (hdoc : p.store env.now.fullYear env.now.monthKey = some old) :
    ∃ d : MoveStats,
      (saveStatistics env r sd p).store env.now.fullYear env.now.monthKey = some d
      ∧ d.typeCount r.type = old.typeCount r.type + 1
      ∧ (∀ t, t ≠ r.type → d.typeCount t = old.typeCount t) := by
  refine ⟨savedDoc r.type sd (some old), ?_, ?_, ?_⟩
  · rw [saveStatistics_store_at_key env r sd p havail, hdoc]
  · simpa using savedDoc_typeCount r.type sd (some old)
  · intro t ht
    simpa using savedDoc_typeCount_other r.type t sd (some old) ht

/-- The sample workout routine saved over the store with the March document. -/
theorem saveStatistics_increments_type_counter_witness :
    marchEnv.storeAvailable = true
    ∧ marchPage.store marchEnv.now.fullYear marchEnv.now.monthKey = some marchDoc
    ∧ ∃ d : MoveStats,
      (saveStatistics marchEnv workoutRoutine sampleOutcome marchPage).store
          marchEnv.now.fullYear marchEnv.now.monthKey = some d
      ∧ d.typeCount workoutRoutine.type = marchDoc.typeCount workoutRoutine.type + 1
      ∧ (∀ t, t ≠ workoutRoutine.type → d.typeCount t = marchDoc.typeCount t) :=
  ⟨rfl, by decide,
   saveStatistics_increments_type_counter marchEnv workoutRoutine sampleOutcome marchPage
     marchDoc rfl (by decide)⟩

/-! ## C19: the effort stored is the one `parseInt` reads -/

/-- When the store calls resolve, `saveStatistics` leaves a month document whose `effort` is,
if an effort was given, the previous samples (none for a new document) in their order
followed by the number `parseInt` reads from the field, one sample longer; and the previous
samples unchanged if no effort was given. An effort from 1 to 5 written in plain digits is
read as itself. -/
theorem saveStatistics_appends_parsed_effort (env : Env) (r : Routine) (sd : StatsData)
    (p : Page) (havail : env.storeAvailable = true) :
    ∃ d : MoveStats,
      (saveStatistics env r sd p).store env.now.fullYear env.now.monthKey = some d
      ∧ (truthy sd.effort = true →
          d.effort = ((p.store env.now.fullYear env.now.monthKey).map
                        (fun old => old.effort)).getD [] ++ [parseInt (sd.effort.getD "")]
          ∧ d.effort.length = (((p.store env.now.fullYear env.now.monthKey).map
                        (fun old => old.effort)).getD []).length + 1
          ∧ d.effort.take (((p.store env.now.fullYear env.now.monthKey).map
                        (fun old => old.effort)).getD []).length
              = ((p.store env.now.fullYear env.now.monthKey).map
                        (fun old => old.effort)).getD [])
      ∧ (truthy sd.effort = false →
          d.effort = ((p.store env.now.fullYear env.now.monthKey).map
                        (fun old => old.effort)).getD [])
      ∧ (∀ e : Nat, 1 ≤ e → e ≤ 5 → parseInt (toString e) = JsNum.ofInt (e : Int)) := by
  refine ⟨savedDoc r.type sd (p.store env.now.fullYear env.now.monthKey),
    saveStatistics_store_at_key env r sd p havail, ?_, ?_, ?_⟩
  · intro h
    rw [savedDoc_effort_of_truthy r.type sd _ h]
    refine ⟨rfl, by simp, by simp⟩
  · intro h
    exact savedDoc_effort_of_not_truthy r.type sd _ h
  · intro e h1 h5
    interval_cases e <;> decide

/-- C19, evaluated where it fails. The outcome form of the sample workout routine is shown
over the March document, whose samples are `[3]`. The effort `0.5e1` is the number 5 for the
rules of the form, which report nothing; the submit completes the session, and the sample
stored is 0, which is what `parseInt` reads. The effort `50e-1`, which is also 5 for the
rules, is stored as 50. -/
theorem validated_effort_stored_as_parseInt_reads :
    sessionState marchPage = SessionState.AwaitingOutcome
    ∧ toNumber "0.5e1" = some { mantissa := 5, exponent := 0 }
    ∧ validateEffort "0.5e1" = none
    ∧ sessionState (step workoutRoutine marchEnv marchPage
        (Event.submitOutcome { effort := "0.5e1", calories := "", km := "" }))
        = SessionState.Completed
    ∧ ((step workoutRoutine marchEnv marchPage
        (Event.submitOutcome { effort := "0.5e1", calories := "", km := "" })).store
          2025 3).map (fun d => d.effort) = some [3, 0]
    ∧ toNumber "50e-1" = some { mantissa := 50, exponent := -1 }
    ∧ validateEffort "50e-1" = none
    ∧ ((step workoutRoutine marchEnv marchPage
        (Event.submitOutcome { effort := "50e-1", calories := "", km := "" })).store
          2025 3).map (fun d => d.effort) = some [3, 50]
    ∧ parseFloat "0.5e1" = 5 ∧ parseFloat "50e-1" = 5 := by
  decide

/-! ## C20: calories are added as `parseInt` reads them -/

/-- C20, as amended. When the store calls resolve, `saveStatistics` leaves a month document
whose `calories` is the previous total (0 for a new document) if no calories were given; if
they were, it is the sum, rounded to a double, of the previous total and the number
`parseInt` reads from the field (that number itself for a new document). For calories
written as a whole number in plain digits, 0 included, over a previous total that is a whole
number, the new total is exactly the sum of the two, as long as it is below `2 ^ 53`; of
calories written as a decimal number only the digits before the point are read. -/
theorem saveStatistics_adds_calories (env : Env) (r : Routine) (sd : StatsData) (p : Page)
    (havail : env.storeAvailable = true) :
    ∃ d : MoveStats,
      (saveStatistics env r sd p).store env.now.fullYear env.now.monthKey = some d
      ∧ (truthy sd.calories = false →
          d.calories = ((p.store env.now.fullYear env.now.monthKey).map
                          (fun old : MoveStats => old.calories)).getD 0)
      ∧ (truthy sd.calories = true →
          d.calories = match p.store env.now.fullYear env.now.monthKey with
            | some old => old.calories.add (parseInt (sd.calories.getD ""))
            | none => parseInt (sd.calories.getD ""))
      ∧ (∀ (text : String) (c0 : Nat), sd.calories = some text →
          wholeNumberText text = true →
          (((p.store env.now.fullYear env.now.monthKey).map
              (fun old : MoveStats => old.calories)).getD 0).toRat = some (c0 : ℚ) →
          c0 + digitsValue 10 text.toList < 2 ^ 53 →
          d.calories.toRat = some ((c0 + digitsValue 10 text.toList : Nat) : ℚ))
      ∧ (∀ text, sd.calories = some text → decimalText text = true →
          parseInt text
            = JsNum.ofInt (digitsValue 10 (text.toList.takeWhile Char.isDigit) : Int)) := by
  refine ⟨savedDoc r.type sd (p.store env.now.fullYear env.now.monthKey),
    saveStatistics_store_at_key env r sd p havail, ?_, ?_, ?_, ?_⟩
  · intro h
    rw [savedDoc_calories]
    cases p.store env.now.fullYear env.now.monthKey <;> simp [h]
  · intro h
    rw [savedDoc_calories]
    cases p.store env.now.fullYear env.now.monthKey <;> simp [h]
  · intro text c0 htext hwhole hprev hsmall
    have htruthy := truthy_of_wholeNumberText _ text htext hwhole
    have hread := parseInt_plain_value text hwhole (by omega)
    rw [savedDoc_calories]
    cases hdoc : p.store env.now.fullYear env.now.monthKey with
    | none =>
      rw [hdoc] at hprev
      simp only [Option.map_none', Option.getD_none, JsNum.zero_toRat, Option.some.injEq]
        at hprev
      have hc0 : c0 = 0 := by exact_mod_cast hprev.symm
      subst hc0
      rw [htext] at htruthy
      simp only [htext, Option.getD_some, Nat.zero_add]
      rw [if_pos htruthy]
      exact hread
    | some old =>
      rw [hdoc] at hprev
      simp only [Option.map_some', Option.getD_some] at hprev
      rw [htext] at htruthy
      simp only [htext, Option.getD_some]
      rw [if_pos htruthy]
      have := add_exact old.calories (parseInt text) _ _
        ((c0 + digitsValue 10 text.toList : Nat) : Int) hprev hread (by push_cast; ring)
        (by simpa using hsmall)
      simpa using this
  · intro text _ hdec
    exact parseInt_decimalText text hdec

/-- The sample workout routine saved with 250 calories over the store with the March
document, whose total was 100. -/
theorem saveStatistics_adds_calories_witness :
    marchEnv.storeAvailable = true
    ∧ truthy sampleOutcome.calories = true
    ∧ parseInt "250" = 250
    ∧ ((saveStatistics marchEnv workoutRoutine sampleOutcome marchPage).store
          marchEnv.now.fullYear marchEnv.now.monthKey).map (fun d => d.calories)
        = some 350 := by
  refine ⟨rfl, by decide, by decide, ?_⟩
  obtain ⟨d, hd, _, hadd, _⟩ :=
    saveStatistics_adds_calories marchEnv workoutRoutine sampleOutcome marchPage rfl
  rw [hd, Option.map_some', hadd (by decide)]
  decide

/-- C20, as stated, fails: the March document has 100 calories and the outcome gives 12.5;
the field reads as the number 12.5, `parseInt` reads 12, and the saved total is 112, which
is not the sum of 100 and 12.5. Calories given as `1e3` add 1, and of the calories
`9007199254740993`, which are not a double, `9007199254740992` are added. -/
theorem saveStatistics_drops_calories_fraction :
    toNumber "12.5" = some { mantissa := 125, exponent := -1 }
    ∧ parseInt "12.5" = 12
    ∧ marchPage.store 2025 3 = some marchDoc
    ∧ marchDoc.calories = 100
    ∧ ((saveStatistics marchEnv workoutRoutine fractionalCalories marchPage).store 2025 3).map
          (fun d => d.calories) = some 112
    ∧ (112 : JsNum) ≠ JsNum.add 100 (parseFloat "12.5")
    ∧ parseInt "1e3" = 1
    ∧ parseInt "9007199254740993" = 9007199254740992 := by
  decide

/-! ## C21: the distance is added to the total -/

/-- C21, as amended. When the store calls resolve, `saveStatistics` leaves a month document
whose `km` is the previous total (0 for a new document) if no distance was given; if one
was, it is the sum, rounded to a double, of the previous total and the number `parseFloat`
reads from the field (that number itself for a new document). For a distance written as a
decimal number in plain digits that number is the double nearest to the number written,
which is not negative; and for a whole number of kilometres over a previous total that is a
whole number, the new total is exactly the sum of the two, as long as it is below
`2 ^ 53`. -/
theorem saveStatistics_adds_km (env : Env) (r : Routine) (sd : StatsData) (p : Page)
    (havail : env.storeAvailable = true) :
    ∃ d : MoveStats,
      (saveStatistics env r sd p).store env.now.fullYear env.now.monthKey = some d
      ∧ (truthy sd.km = false →
          d.km = ((p.store env.now.fullYear env.now.monthKey).map
                    (fun old : MoveStats => old.km)).getD 0)
      ∧ (truthy sd.km = true →
          d.km = match p.store env.now.fullYear env.now.monthKey with
            | some old => old.km.add (parseFloat (sd.km.getD ""))
            | none => parseFloat (sd.km.getD ""))
      ∧ (∀ text, sd.km = some text → decimalText text = true →
          ∃ v : Decimal, toNumber text = some v ∧ 0 ≤ v.toRat
            ∧ parseFloat text = v.toDouble)
      ∧ (∀ (text : String) (k0 : Nat), sd.km = some text →
          wholeNumberText text = true →
          (((p.store env.now.fullYear env.now.monthKey).map
              (fun old : MoveStats => old.km)).getD 0).toRat = some (k0 : ℚ) →
          k0 + digitsValue 10 text.toList < 2 ^ 53 →
          d.km.toRat = some ((k0 + digitsValue 10 text.toList : Nat) : ℚ)) := by
  refine ⟨savedDoc r.type sd (p.store env.now.fullYear env.now.monthKey),
    saveStatistics_store_at_key env r sd p havail, ?_, ?_, ?_, ?_⟩
  · intro h
    rw [savedDoc_km]
    cases p.store env.now.fullYear env.now.monthKey <;> simp [h]
  · intro h
    rw [savedDoc_km]
    cases p.store env.now.fullYear env.now.monthKey <;> simp [h]
  · intro text _ hdec
    exact parseFloat_decimalText text hdec
  · intro text k0 htext hwhole hprev hsmall
    have htruthy := truthy_of_wholeNumberText _ text htext hwhole
    have hread := parseFloat_plain_value text hwhole (by omega)
    rw [savedDoc_km]
    cases hdoc : p.store env.now.fullYear env.now.monthKey with
    | none =>
      rw [hdoc] at hprev
      simp only [Option.map_none', Option.getD_none, JsNum.zero_toRat, Option.some.injEq]
        at hprev
      have hk0 : k0 = 0 := by exact_mod_cast hprev.symm
      subst hk0
      rw [htext] at htruthy
      simp only [htext, Option.getD_some, Nat.zero_add]
      rw [if_pos htruthy]
      exact hread
    | some old =>
      rw [hdoc] at hprev
      simp only [Option.map_some', Option.getD_some] at hprev
      rw [htext] at htruthy
      simp only [htext, Option.getD_some]
      rw [if_pos htruthy]
      have := add_exact old.km (parseFloat text) _ _
        ((k0 + digitsValue 10 text.toList : Nat) : Int) hprev hread (by push_cast; ring)
        (by simpa using hsmall)
      simpa using this

/-- The sample workout routine saved with 5.2 km over the store with the March document,
whose total was 0. -/
theorem saveStatistics_adds_km_witness :
    marchEnv.storeAvailable = true
    ∧ truthy sampleOutcome.km = true
    ∧ marchDoc.km = 0
    ∧ ((saveStatistics marchEnv workoutRoutine sampleOutcome marchPage).store
          marchEnv.now.fullYear marchEnv.now.monthKey).map (fun d => d.km)
        = some (JsNum.add 0 (parseFloat "5.2"))
    ∧ JsNum.add 0 (parseFloat "5.2") = parseFloat "5.2" := by
  refine ⟨rfl, by decide, by decide, ?_, by decide⟩
  obtain ⟨d, hd, _, hadd, _⟩ :=
    saveStatistics_adds_km marchEnv workoutRoutine sampleOutcome marchPage rfl
  rw [hd, Option.map_some', hadd (by decide)]
  decide

set_option maxRecDepth 100000 in
/-- C21, as stated, fails: the month document has 0.1 km, the double nearest to 0.1, and the
outcome gives 0.2 km; the total saved is 0.30000000000000004, the double next above the one
nearest to 0.3. -/
theorem saveStatistics_km_sum_is_rounded :
    tenthKmPage.store 2025 3 = some tenthKmDoc
    ∧ tenthKmDoc.km = parseFloat "0.1"
    ∧ parseFloat "0.2" = JsNum.finite 7205759403792794 (-55)
    ∧ ((saveStatistics marchEnv workoutRoutine
          { effort := some "3", calories := none, km := some "0.2" } tenthKmPage).store
          2025 3).map (fun d => d.km) = some (JsNum.finite 5404319552844596 (-54))
    ∧ parseFloat "0.3" = JsNum.finite 5404319552844595 (-54)
    ∧ (JsNum.finite 5404319552844596 (-54)).toString = "0.30000000000000004" := by
  refine ⟨by decide, by decide, by decide, by decide, by decide, ?_⟩
  decide

/-! ## Auxiliary facts on two updates of one document -/

/-- The four counters, written with `increment`, do not depend on the order in which two
updates reach the document. -/
theorem applyUpdates_counters_commute (d : MoveStats) (u1 u2 : Updates) (t : RoutineType) :
    (applyUpdates (applyUpdates d u1) u2).typeCount t
      = (applyUpdates (applyUpdates d u2) u1).typeCount t := by
  cases t <;> cases h1 : u1.type <;> cases h2 : u2.type <;>
    simp [applyUpdates, MoveStats.incrementType, MoveStats.typeCount, h1, h2]

/-! ## C22: two writes computed from the same read -/

/-- C22, evaluated where it fails. Two workout completions, one with effort 4 and 100
calories and one with effort 5 and 200 calories, both compute their write from the same read
of March 2025. Read from the document with one workout, effort `[3]` and 100 calories, the
two `updateDoc` leave workout 3 and 400 calories in either order, but the effort samples are
`[3, 5]` in one order and `[3, 4]` in the other: the later write replaces the sample of the
earlier one. Read while the month has no document, the two `setDoc` leave the document of
the later write alone, with workout 1. -/
theorem same_read_writes_lose_updates :
    afterWrites marchStore 2025 3
        [chooseWrite RoutineType.workout effortFourOutcome (marchStore 2025 3),
         chooseWrite RoutineType.workout effortFiveOutcome (marchStore 2025 3)]
      = some (3, [3, 5], 400)
    ∧ afterWrites marchStore 2025 3
        [chooseWrite RoutineType.workout effortFiveOutcome (marchStore 2025 3),
         chooseWrite RoutineType.workout effortFourOutcome (marchStore 2025 3)]
      = some (3, [3, 4], 400)
    ∧ afterWrites emptyStore 2025 3
        [chooseWrite RoutineType.workout effortFourOutcome (emptyStore 2025 3),
         chooseWrite RoutineType.workout effortFiveOutcome (emptyStore 2025 3)]
      = some (1, [5], 200)
    ∧ afterWrites emptyStore 2025 3
        [chooseWrite RoutineType.workout effortFiveOutcome (emptyStore 2025 3),
         chooseWrite RoutineType.workout effortFourOutcome (emptyStore 2025 3)]
      = some (1, [4], 100) := by
  decide

/-! ## Auxiliary facts on completions recorded one after the other -/

theorem saveStatistics_store (env : Env) (r : Routine) (sd : StatsData) (p : Page)
    (h : env.storeAvailable = true) :
    (saveStatistics env r sd p).store = recordCompletion env r.type sd p.store := by
  rw [saveStatistics_available env r sd p h]
  rfl

/-- A completion of another type without outcome leaves the workout counter and the effort
samples of every month as they are. -/
theorem workoutAndEffort_other_type (env : Env) (t : RoutineType) (st : Store)
    (year month : Int) (ht : t ≠ RoutineType.workout) :
    workoutAndEffort (recordCompletion env t StatsData.empty st) year month
      = workoutAndEffort st year month := by
  unfold workoutAndEffort recordCompletion
  by_cases hkey : year = env.now.fullYear ∧ month = env.now.monthKey
  · obtain ⟨hy, hm⟩ := hkey
    subst hy hm
    rw [setDoc_same]
    have hw := savedDoc_typeCount_other t RoutineType.workout StatsData.empty
      (st env.now.fullYear env.now.monthKey) (fun h => ht h.symm)
    have he := savedDoc_effort_of_not_truthy t StatsData.empty
      (st env.now.fullYear env.now.monthKey) (by simp [StatsData.empty, truthy])
    simp only [MoveStats.typeCount] at hw
    simp only [Option.map_some', Option.getD_some]
    rw [hw, he]
  · rw [setDoc_other _ _ _ _ _ _ hkey]

/-- A workout completion with an effort adds 1 to the workout counter of its month and puts
the effort after the samples. -/
theorem workoutAndEffort_workout (env : Env) (sd : StatsData) (st : Store)
    (h : truthy sd.effort = true) :
    workoutAndEffort (recordCompletion env RoutineType.workout sd st)
        env.now.fullYear env.now.monthKey
      = ((workoutAndEffort st env.now.fullYear env.now.monthKey).1 + 1,
         (workoutAndEffort st env.now.fullYear env.now.monthKey).2
           ++ [parseInt (sd.effort.getD "")]) := by
  unfold workoutAndEffort recordCompletion
  rw [setDoc_same]
  have hw := savedDoc_typeCount RoutineType.workout sd (st env.now.fullYear env.now.monthKey)
  have he := savedDoc_effort_of_truthy RoutineType.workout sd
    (st env.now.fullYear env.now.monthKey) h
  simp only [MoveStats.typeCount] at hw
  simp only [Option.map_some', Option.getD_some]
  rw [hw, he]

/-! ## C23: workout completions and a completion of another type -/

/-- C23. Two workout completions with efforts 3 and 5, recorded one after the other in a
month without a document, leave the workout counter 2 and the effort samples `[3, 5]`; the
same holds when a completion of another type without outcome is recorded before them,
between them or after them, at any date; and such a completion commutes with a workout
completion on the workout counter and the effort samples, whatever the store. -/
theorem workout_completions_with_other_type (env env1 : Env) (t : RoutineType)
    (ht : t ≠ RoutineType.workout) :
    workoutAndEffort
        (recordCompletion env RoutineType.workout effortFive
          (recordCompletion env RoutineType.workout effortThree emptyStore))
        env.now.fullYear env.now.monthKey = (2, [3, 5])
    ∧ workoutAndEffort
        (recordCompletion env RoutineType.workout effortFive
          (recordCompletion env RoutineType.workout effortThree
            (recordCompletion env1 t StatsData.empty emptyStore)))
        env.now.fullYear env.now.monthKey = (2, [3, 5])
    ∧ workoutAndEffort
        (recordCompletion env RoutineType.workout effortFive
          (recordCompletion env1 t StatsData.empty
            (recordCompletion env RoutineType.workout effortThree emptyStore)))
        env.now.fullYear env.now.monthKey = (2, [3, 5])
    ∧ workoutAndEffort
        (recordCompletion env1 t StatsData.empty
          (recordCompletion env RoutineType.workout effortFive
            (recordCompletion env RoutineType.workout effortThree emptyStore)))
        env.now.fullYear env.now.monthKey = (2, [3, 5])
    ∧ ∀ (st : Store) (sd : StatsData), truthy sd.effort = true →
        workoutAndEffort
            (recordCompletion env1 t StatsData.empty
              (recordCompletion env RoutineType.workout sd st))
            env.now.fullYear env.now.monthKey
          = workoutAndEffort
            (recordCompletion env RoutineType.workout sd
              (recordCompletion env1 t StatsData.empty st))
            env.now.fullYear env.now.monthKey := by
  have h3 : truthy effortThree.effort = true := by decide
  have h5 : truthy effortFive.effort = true := by decide
  have hbase : ∀ st : Store,
      workoutAndEffort st env.now.fullYear env.now.monthKey = (0, []) →
      workoutAndEffort
        (recordCompletion env RoutineType.workout effortFive
          (recordCompletion env RoutineType.workout effortThree st))
        env.now.fullYear env.now.monthKey = (2, [3, 5]) := by
    intro st hst
    rw [workoutAndEffort_workout env effortFive _ h5,
      workoutAndEffort_workout env effortThree _ h3, hst]
    decide
  have hempty : workoutAndEffort emptyStore env.now.fullYear env.now.monthKey = (0, []) := rfl
  refine ⟨hbase emptyStore hempty, ?_, ?_, ?_, ?_⟩
  · apply hbase
    rw [workoutAndEffort_other_type env1 t _ _ _ ht]
    exact hempty
  · rw [workoutAndEffort_workout env effortFive _ h5,
      workoutAndEffort_other_type env1 t _ _ _ ht,
      workoutAndEffort_workout env effortThree _ h3, hempty]
    decide
  · rw [workoutAndEffort_other_type env1 t _ _ _ ht]
    exact hbase emptyStore hempty
  · intro st sd hsd
    rw [workoutAndEffort_other_type env1 t _ _ _ ht,
      workoutAndEffort_workout env sd _ hsd, workoutAndEffort_workout env sd _ hsd,
      workoutAndEffort_other_type env1 t _ _ _ ht]

/-- A stretch completion inserted among the two workout completions of March 2025. -/
theorem workout_completions_with_other_type_witness :
    RoutineType.stretch ≠ RoutineType.workout
    ∧ workoutAndEffort
        (recordCompletion marchEnv RoutineType.workout effortFive
          (recordCompletion marchEnv RoutineType.stretch StatsData.empty
            (recordCompletion marchEnv RoutineType.workout effortThree emptyStore)))
        marchEnv.now.fullYear marchEnv.now.monthKey = (2, [3, 5]) :=
  ⟨by decide,
   (workout_completions_with_other_type marchEnv marchEnv RoutineType.stretch
      (by decide)).2.2.1⟩

/-! ## Auxiliary facts on `loadStats` -/

/-- A sum of doubles that are whole numbers, made from a whole number one term after the
other, is exact as long as it stays below `2 ^ 53`. -/
theorem foldl_add_exact (xs : List JsNum) (ns : List Nat) (acc : JsNum) (a : Nat)
    (hacc : acc.toRat = some (a : ℚ))
    (hxs : xs.map JsNum.toRat = ns.map (fun n : Nat => some (n : ℚ)))
    (hsmall : a + ns.sum < 2 ^ 53) :
    (xs.foldl JsNum.add acc).toRat = some ((a + ns.sum : Nat) : ℚ) := by
  induction xs generalizing ns acc a with
  | nil =>
    cases ns with
    | nil => simpa using hacc
    | cons n rest => simp at hxs
  | cons x rest ih =>
    cases ns with
    | nil => simp at hxs
    | cons n more =>
      simp only [List.map_cons, List.cons.injEq] at hxs
      have hx := hxs.1
      have hrest := hxs.2
      simp only [List.sum_cons] at hsmall ⊢
      have hstep := add_exact acc x _ _ ((a + n : Nat) : Int) hacc hx (by push_cast; ring)
        (by simp only [Int.natAbs_ofNat]; omega)
      rw [List.foldl_cons]
      have := ih more (acc.add x) (a + n) (by simpa using hstep) hrest (by omega)
      rw [this]
      congr 2
      omega

/-- The sum of doubles `loadStats` makes, as a sum of the list of the terms. -/
theorem sumInOrder_eq_foldl (docs : List (String × DocData)) (f : DocData → Option JsNum) :
    sumInOrder docs f = (docs.map (fun doc => orZeroNum (f doc.2))).foldl JsNum.add 0 := by
  unfold sumInOrder
  rw [List.foldl_map]

/-- The yearly statistics after the documents of a list have been visited. -/
theorem foldl_loadStatsStep_year (k : Int) (docs : List (String × DocData)) (acc : Stats) :
    (docs.foldl (loadStatsStep k) acc).year
      = { stretch := acc.year.stretch + (docs.map (fun doc => orZero doc.2.stretch)).sum
          workout := acc.year.workout + (docs.map (fun doc => orZero doc.2.workout)).sum
          running := acc.year.running + (docs.map (fun doc => orZero doc.2.running)).sum
          sports := acc.year.sports + (docs.map (fun doc => orZero doc.2.sports)).sum
          effort := acc.year.effort ++ (docs.map (fun doc => doc.2.effort.getD [])).flatten
          calories := docs.foldl (fun a doc => a.add (orZeroNum doc.2.calories))
            acc.year.calories
          km := docs.foldl (fun a doc => a.add (orZeroNum doc.2.km)) acc.year.km } := by
  induction docs generalizing acc with
  | nil => simp
  | cons doc rest ih =>
    rw [List.foldl_cons, ih]
    simp only [loadStatsStep, List.map_cons, List.sum_cons, List.flatten_cons,
      List.append_assoc, add_assoc, List.foldl_cons]

/-- A sum over the documents `getDocs` returns is the sum over the months in the order of
their ids, a month without document counting for 0. -/
theorem sum_filterMap_months {α : Type} [AddCommMonoid α] (st : Store) (year : Int)
    (ms : List Int) (g : DocData → α) :
    ((ms.filterMap (fun m => (st year m).map (fun d => (docId m, d.toDocData)))).map
        (fun doc => g doc.2)).sum
      = (ms.map (fun m => ((st year m).map (fun d => g d.toDocData)).getD 0)).sum := by
  induction ms with
  | nil => rfl
  | cons m rest ih =>
    rw [List.filterMap_cons]
    cases hm : st year m with
    | none => simp [hm, ih]
    | some d => simp [hm, ih]

/-- The effort samples of the documents `getDocs` returns, one document after the other. -/
theorem flatten_filterMap_months (st : Store) (year : Int) (ms : List Int) :
    ((ms.filterMap (fun m => (st year m).map (fun d => (docId m, d.toDocData)))).map
        (fun doc => doc.2.effort.getD [])).flatten
      = (ms.map (fun m => ((st year m).map (fun d => d.effort)).getD [])).flatten := by
  induction ms with
  | nil => rfl
  | cons m rest ih =>
    rw [List.filterMap_cons]
    cases hm : st year m with
    | none => simp [hm, ih]
    | some d =>
      simp only [hm, Option.map_some', List.map_cons, List.flatten_cons, Option.getD_some, ih]
      rfl

/-- A sum over the months does not depend on the order of the document ids. -/
theorem sum_firestoreMonthOrder {α : Type} [AddCommMonoid α] (h : Int → α) :
    (firestoreMonthOrder.map h).sum = (monthsOfYear.map h).sum := by
  have hperm : List.Perm firestoreMonthOrder monthsOfYear := by decide
  exact (hperm.map h).sum_eq

/-- The yearly statistics `loadStats` computes from any documents. -/
theorem loadStats_year_of_docs (now : Date) (docs : List (String × DocData)) (stats : Stats) :
    (loadStats now (some docs) stats).year
      = { stretch := (docs.map (fun doc => orZero doc.2.stretch)).sum
          workout := (docs.map (fun doc => orZero doc.2.workout)).sum
          running := (docs.map (fun doc => orZero doc.2.running)).sum
          sports := (docs.map (fun doc => orZero doc.2.sports)).sum
          effort := (docs.map (fun doc => doc.2.effort.getD [])).flatten
          calories := sumInOrder docs (fun d => d.calories)
          km := sumInOrder docs (fun d => d.km) } := by
  unfold loadStats
  simp only [foldl_loadStatsStep_year, Stats.initial, YearStats.zero, zero_add,
    List.nil_append, sumInOrder]

/-- The yearly statistics `loadStats` computes from the documents of a store. -/
theorem loadStats_year_of_store (now : Date) (st : Store) (stats : Stats) :
    (loadStats now (some (st.getDocs now.fullYear)) stats).year
      = { stretch := sumOverMonths st now.fullYear (fun d => d.stretch)
          workout := sumOverMonths st now.fullYear (fun d => d.workout)
          running := sumOverMonths st now.fullYear (fun d => d.running)
          sports := sumOverMonths st now.fullYear (fun d => d.sports)
          effort := (firestoreMonthOrder.map
            (fun m => ((st now.fullYear m).map (fun d => d.effort)).getD [])).flatten
          calories := sumInOrder (st.getDocs now.fullYear) (fun d => d.calories)
          km := sumInOrder (st.getDocs now.fullYear) (fun d => d.km) } := by
  rw [loadStats_year_of_docs]
  simp only [Store.getDocs, sumOverMonths]
  rw [sum_filterMap_months st now.fullYear firestoreMonthOrder (fun d => orZero d.stretch),
    sum_filterMap_months st now.fullYear firestoreMonthOrder (fun d => orZero d.workout),
    sum_filterMap_months st now.fullYear firestoreMonthOrder (fun d => orZero d.running),
    sum_filterMap_months st now.fullYear firestoreMonthOrder (fun d => orZero d.sports),
    flatten_filterMap_months, sum_firestoreMonthOrder, sum_firestoreMonthOrder,
    sum_firestoreMonthOrder, sum_firestoreMonthOrder]
  rfl

/-- The id of the document of each month is read back by `parseInt` as the month. -/
theorem parseInt_docId :
    ∀ m ∈ firestoreMonthOrder, parseInt (docId m) = JsNum.ofInt m := by
  decide

/-- Distinct months are distinct doubles. -/
theorem ofInt_month_inj :
    ∀ m ∈ firestoreMonthOrder, ∀ k ∈ firestoreMonthOrder,
      JsNum.ofInt m = JsNum.ofInt k → m = k := by
  decide

theorem monthKey_mem_firestoreMonthOrder (now : Date) : now.monthKey ∈ firestoreMonthOrder := by
  have h : ∀ i : Fin 12, ((i.val : Int) + 1) ∈ firestoreMonthOrder := by decide
  exact h now.monthIndex

theorem monthKey_mem_monthsOfYear (now : Date) : now.monthKey ∈ monthsOfYear := by
  have h : ∀ i : Fin 12, ((i.val : Int) + 1) ∈ monthsOfYear := by decide
  exact h now.monthIndex

/-- The monthly statistics after the documents of a list of distinct months of a store have
been visited: the document of the current month if it is among them. -/
theorem foldl_loadStatsStep_month (k : Int) (hmonth : k ∈ firestoreMonthOrder) (st : Store)
    (year : Int) (ms : List Int)
    (hsub : ∀ m ∈ ms, m ∈ firestoreMonthOrder) (hnd : ms.Nodup) (acc : Stats) :
    ((ms.filterMap (fun m => (st year m).map (fun d => (docId m, d.toDocData)))).foldl
        (loadStatsStep k) acc).month
      = if k ∈ ms then ((st year k).map MoveStats.toDocData).getD acc.month else acc.month := by
  induction ms generalizing acc with
  | nil => simp
  | cons m rest ih =>
    have hrest : ∀ x ∈ rest, x ∈ firestoreMonthOrder :=
      fun x hx => hsub x (List.mem_cons_of_mem _ hx)
    have hm : parseInt (docId m) = JsNum.ofInt m :=
      parseInt_docId m (hsub m (List.mem_cons_self _ _))
    obtain ⟨hnotin, hnd1⟩ := List.nodup_cons.mp hnd
    rw [List.filterMap_cons]
    cases hdoc : st year m with
    | none =>
      simp only [Option.map_none']
      rw [ih hrest hnd1]
      by_cases hk : k = m
      · subst hk
        simp [hnotin, hdoc]
      · simp [hk]
    | some d =>
      simp only [Option.map_some', List.foldl_cons]
      rw [ih hrest hnd1]
      by_cases hk : k = m
      · subst hk
        simp [hnotin, hdoc, loadStatsStep, hm]
      · have hne : ¬ JsNum.ofInt m = JsNum.ofInt k := fun h =>
          hk (ofInt_month_inj m (hsub m (List.mem_cons_self _ _)) k hmonth h).symm
        simp [hk, loadStatsStep, hm, hne]

/-- The monthly statistics `loadStats` computes from the documents of a store. -/
theorem loadStats_month_of_store (now : Date) (st : Store) (stats : Stats) :
    (loadStats now (some (st.getDocs now.fullYear)) stats).month
      = ((st now.fullYear now.monthKey).map MoveStats.toDocData).getD DocData.zero := by
  unfold loadStats Store.getDocs
  simp only []
  rw [foldl_loadStatsStep_month now.monthKey (monthKey_mem_firestoreMonthOrder now) st
    now.fullYear firestoreMonthOrder (fun _ h => h) (by decide) Stats.initial,
    if_pos (monthKey_mem_firestoreMonthOrder now)]
  rfl

/-- A sum over distinct months after the quantity of one of them has changed. -/
theorem sum_map_update (l : List Int) (hnd : l.Nodup) (k : Int) (hk : k ∈ l) (f g : Int → Int)
    (hfg : ∀ m, m ≠ k → g m = f m) :
    (l.map g).sum = (l.map f).sum + (g k - f k) := by
  induction l with
  | nil => simp at hk
  | cons m rest ih =>
    obtain ⟨hnotin, hnd1⟩ := List.nodup_cons.mp hnd
    simp only [List.map_cons, List.sum_cons]
    by_cases hmk : m = k
    · subst hmk
      have hsame : rest.map g = rest.map f := by
        apply List.map_congr_left
        intro x hx
        exact hfg x (fun h => hnotin (h ▸ hx))
      rw [hsame]
      omega
    · have hin : k ∈ rest := by
        rcases List.mem_cons.mp hk with h | h
        · exact absurd h.symm hmk
        · exact h
      rw [ih hnd1 hin, hfg m hmk]
      omega

/-! ## Auxiliary facts on the counters read back -/

theorem toDocData_typeCount (d : MoveStats) (t : RoutineType) :
    d.toDocData.typeCount t = some (d.typeCount t) := by
  cases t <;> rfl

theorem loadStats_year_typeCount (now : Date) (st : Store) (stats : Stats) (t : RoutineType) :
    (loadStats now (some (st.getDocs now.fullYear)) stats).year.typeCount t
      = sumOverMonths st now.fullYear (fun d => d.typeCount t) := by
  rw [loadStats_year_of_store]
  cases t <;> rfl

/-! ## C24: the yearly statistics are the sums over the documents of the year -/

/-- C24, as amended. The yearly statistics `loadStats` computes are, for the four counters,
the sums over the documents `getDocs` returned, a missing field counting for 0, and on the
documents of a store the sums over the twelve months, a month without document counting for
0; the effort samples are those of the documents one after the other; `calories` and `km`
are the sums of doubles made from 0 in the order of the documents, each sum rounded, a
missing field counting for 0. Where the values of a field are whole numbers and their total
is below `2 ^ 53`, that sum is exactly the total. With documents for March and July only,
`running` 2 and 3, the yearly `running` is 5. -/
theorem loadStats_year_is_sum (now : Date) (docs : List (String × DocData)) (st : Store)
    (stats : Stats) :
    (loadStats now (some docs) stats).year
      = { stretch := (docs.map (fun doc => orZero doc.2.stretch)).sum
          workout := (docs.map (fun doc => orZero doc.2.workout)).sum
          running := (docs.map (fun doc => orZero doc.2.running)).sum
          sports := (docs.map (fun doc => orZero doc.2.sports)).sum
          effort := (docs.map (fun doc => doc.2.effort.getD [])).flatten
          calories := sumInOrder docs (fun d => d.calories)
          km := sumInOrder docs (fun d => d.km) }
    ∧ (loadStats now (some (st.getDocs now.fullYear)) stats).year
      = { stretch := sumOverMonths st now.fullYear (fun d => d.stretch)
          workout := sumOverMonths st now.fullYear (fun d => d.workout)
          running := sumOverMonths st now.fullYear (fun d => d.running)
          sports := sumOverMonths st now.fullYear (fun d => d.sports)
          effort := (firestoreMonthOrder.map
            (fun m => ((st now.fullYear m).map (fun d => d.effort)).getD [])).flatten
          calories := sumInOrder (st.getDocs now.fullYear) (fun d => d.calories)
          km := sumInOrder (st.getDocs now.fullYear) (fun d => d.km) }
    ∧ (∀ ns : List Nat,
        docs.map (fun doc => (orZeroNum doc.2.calories).toRat)
          = ns.map (fun n : Nat => some (n : ℚ)) →
        ns.sum < 2 ^ 53 →
        (loadStats now (some docs) stats).year.calories.toRat = some ((ns.sum : Nat) : ℚ))
    ∧ (∀ ns : List Nat,
        docs.map (fun doc => (orZeroNum doc.2.km).toRat) = ns.map (fun n : Nat => some (n : ℚ)) →
        ns.sum < 2 ^ 53 →
        (loadStats now (some docs) stats).year.km.toRat = some ((ns.sum : Nat) : ℚ))
    ∧ (loadStats now (some marchJulyDocs) stats).year.running = 5
    ∧ (loadStats now (some marchJulyDocs) stats).year.workout = 0
    ∧ (loadStats now (some marchJulyDocs) stats).year.effort = []
    ∧ (loadStats marchEnv.now (some (marchJulyStore.getDocs 2025)) stats).year.running = 5
    ∧ (loadStats marchEnv.now (some (marchJulyStore.getDocs 2025)) stats).year.effort = [4]
    ∧ (loadStats marchEnv.now (some (marchJulyStore.getDocs 2025)) stats).year.calories
        = 120 := by
  have hexact : ∀ (f : DocData → Option JsNum) (ns : List Nat),
      docs.map (fun doc => (orZeroNum (f doc.2)).toRat) = ns.map (fun n : Nat => some (n : ℚ)) →
      ns.sum < 2 ^ 53 → (sumInOrder docs f).toRat = some ((ns.sum : Nat) : ℚ) := by
    intro f ns hns hsmall
    rw [sumInOrder_eq_foldl]
    have := foldl_add_exact (docs.map (fun doc => orZeroNum (f doc.2))) ns 0 0
      (by simpa using JsNum.zero_toRat) (by simpa [Function.comp_def] using hns)
      (by omega)
    simpa using this
  have hstore : loadStats marchEnv.now (some (marchJulyStore.getDocs 2025)) stats
      = loadStats marchEnv.now (some (marchJulyStore.getDocs 2025)) Stats.initial := rfl
  refine ⟨loadStats_year_of_docs now docs stats, loadStats_year_of_store now st stats,
    ?_, ?_, ?_, ?_, ?_, ?_, ?_, ?_⟩
  · intro ns hns hsmall
    rw [loadStats_year_of_docs]
    exact hexact (fun d => d.calories) ns hns hsmall
  · intro ns hns hsmall
    rw [loadStats_year_of_docs]
    exact hexact (fun d => d.km) ns hns hsmall
  · rw [loadStats_year_of_docs]; decide
  · rw [loadStats_year_of_docs]; decide
  · rw [loadStats_year_of_docs]; decide
  · rw [hstore]; decide
  · rw [hstore]; decide
  · rw [hstore]; decide

/-- The documents of March and July 2025 with 100 and 120 calories: the yearly calories read
in March 2025 are 220. -/
theorem loadStats_year_is_sum_witness :
    caloriesDocs.map (fun doc => (orZeroNum doc.2.calories).toRat)
        = [100, 120].map (fun n : Nat => some (n : ℚ))
    ∧ ([100, 120] : List Nat).sum < 2 ^ 53
    ∧ (loadStats marchEnv.now (some caloriesDocs) Stats.initial).year.calories.toRat
        = some ((([100, 120] : List Nat).sum : Nat) : ℚ)
    ∧ (loadStats marchEnv.now (some caloriesDocs) Stats.initial).year.calories = 220 := by
  have hterms : caloriesDocs.map (fun doc => (orZeroNum doc.2.calories).toRat)
      = [100, 120].map (fun n : Nat => some (n : ℚ)) := by
    have h100 : (100 : JsNum) = JsNum.finite 7036874417766400 (-46) := by decide
    have h120 : (120 : JsNum) = JsNum.finite 8444249301319680 (-46) := by decide
    simp only [caloriesDocs, List.map_cons, List.map_nil, orZeroNum, h100, h120]
    norm_num [JsNum.toRat]
  exact ⟨hterms, by decide,
    (loadStats_year_is_sum marchEnv.now caloriesDocs emptyStore Stats.initial).2.2.1
      [100, 120] hterms (by decide),
    by decide⟩

set_option maxRecDepth 100000 in
/-- C24, as stated, fails for the distances: with the documents of January, February and
March holding 0.1, 0.2 and 0.3 km, the yearly `km` is 0.6000000000000001, which is not the
double nearest to the sum, 0.6; the same three documents added in the reverse order give
0.6. -/
theorem loadStats_year_km_depends_on_order :
    (loadStats marchEnv.now (some tenthsDocs) Stats.initial).year.km
        = JsNum.finite 5404319552844596 (-53)
    ∧ parseFloat "0.6" = JsNum.finite 5404319552844595 (-53)
    ∧ (loadStats marchEnv.now (some tenthsDocs.reverse) Stats.initial).year.km
        = parseFloat "0.6"
    ∧ (JsNum.finite 5404319552844596 (-53)).toString = "0.6000000000000001" := by
  refine ⟨by decide, by decide, by decide, ?_⟩
  decide

/-! ## C25: the monthly statistics are the document of the current month -/

/-- C25. The monthly statistics `loadStats` computes from the documents of a store are the
document of the current month of the current year when there is one and the object of zeros
when there is none; a document at any other key does not change them. -/
theorem loadStats_month_is_current_document (now : Date) (st : Store) (stats : Stats) :
    (loadStats now (some (st.getDocs now.fullYear)) stats).month
      = ((st now.fullYear now.monthKey).map MoveStats.toDocData).getD DocData.zero
    ∧ (∀ d, st now.fullYear now.monthKey = some d →
        (loadStats now (some (st.getDocs now.fullYear)) stats).month = d.toDocData)
    ∧ (st now.fullYear now.monthKey = none →
        (loadStats now (some (st.getDocs now.fullYear)) stats).month = DocData.zero)
    ∧ (∀ (year month : Int) (d : MoveStats),
        ¬ (now.fullYear = year ∧ now.monthKey = month) →
        (loadStats now (some ((st.setDoc year month d).getDocs now.fullYear)) stats).month
          = (loadStats now (some (st.getDocs now.fullYear)) stats).month) := by
  refine ⟨loadStats_month_of_store now st stats, ?_, ?_, ?_⟩
  · intro d hd
    rw [loadStats_month_of_store, hd]
    rfl
  · intro hnone
    rw [loadStats_month_of_store, hnone]
    rfl
  · intro year month d hne
    rw [loadStats_month_of_store, loadStats_month_of_store, setDoc_other _ _ _ _ _ _ hne]

/-- The store with the March document read in March 2025, and the same store with a document
for July added. -/
theorem loadStats_month_is_current_document_witness :
    marchStore marchEnv.now.fullYear marchEnv.now.monthKey = some marchDoc
    ∧ (loadStats marchEnv.now (some (marchStore.getDocs marchEnv.now.fullYear))
        Stats.initial).month = marchDoc.toDocData
    ∧ ¬ (marchEnv.now.fullYear = 2025 ∧ marchEnv.now.monthKey = 7)
    ∧ (loadStats marchEnv.now
        (some ((marchStore.setDoc 2025 7 marchDoc).getDocs marchEnv.now.fullYear))
        Stats.initial).month
      = (loadStats marchEnv.now (some (marchStore.getDocs marchEnv.now.fullYear))
        Stats.initial).month :=
  ⟨by decide,
   (loadStats_month_is_current_document marchEnv.now marchStore Stats.initial).2.1 marchDoc
     (by decide),
   by decide,
   (loadStats_month_is_current_document marchEnv.now marchStore Stats.initial).2.2.2 2025 7
     marchDoc (by decide)⟩

/-! ## Auxiliary facts on `calculateAvgEffort` -/

/-- The sum of samples that are whole numbers is exact when it is below `2 ^ 53`. -/
theorem sumEffort_whole (l : List Nat) (hsum : l.sum < 2 ^ 53) :
    (sumEffort (l.map (fun e : Nat => JsNum.ofInt (e : Int)))).toRat
      = some ((l.sum : Nat) : ℚ) := by
  have hterms : (l.map (fun e : Nat => JsNum.ofInt (e : Int))).map JsNum.toRat
      = l.map (fun n : Nat => some (n : ℚ)) := by
    rw [List.map_map]
    apply List.map_congr_left
    intro e he
    have hle : e ≤ l.sum := List.single_le_sum (fun _ _ => Nat.zero_le _) e he
    have := ofInt_toRat (e : Int) (by simp only [Int.natAbs_ofNat]; omega)
    simpa using this
  have := foldl_add_exact (l.map (fun e : Nat => JsNum.ofInt (e : Int))) l 0 0
    (by simpa using JsNum.zero_toRat) hterms (by omega)
  unfold sumEffort
  simpa using this

/-- The sum of samples from 1 to 5 is between their number and five times their number. -/
theorem sum_of_samples (l : List Nat) (h : ∀ e ∈ l, 1 ≤ e ∧ e ≤ 5) :
    l.length ≤ l.sum ∧ l.sum ≤ 5 * l.length := by
  induction l with
  | nil => simp
  | cons x rest ih =>
    have hx := h x (List.mem_cons_self _ _)
    have hrest := ih (fun e he => h e (List.mem_cons_of_mem _ he))
    simp only [List.length_cons, List.sum_cons]
    omega

/-- A sum below `2 ^ 48` of fewer than `2 ^ 32` samples: the quotient is below a power of two
that, times twenty times the number of samples, is below `2 ^ 54`. -/
theorem quotient_below_power (s d : Nat) (hd : 0 < d) (hd32 : d < 2 ^ 32) (hs : s < 2 ^ 48) :
    ∃ b : Nat, s < d * 2 ^ b ∧ 20 * d * 2 ^ b < 2 ^ 54 := by
  have hex : ∃ b : Nat, s < d * 2 ^ b := by
    refine ⟨s, ?_⟩
    have h1 : s < 2 ^ s := Nat.lt_two_pow s
    have h2 : 1 * 2 ^ s ≤ d * 2 ^ s := Nat.mul_le_mul_right _ hd
    omega
  have hpow32 : (2 : Nat) ^ 32 = 4294967296 := by norm_num
  have hpow48 : (2 : Nat) ^ 48 = 281474976710656 := by norm_num
  have hpow54 : (2 : Nat) ^ 54 = 18014398509481984 := by norm_num
  refine ⟨Nat.find hex, Nat.find_spec hex, ?_⟩
  cases hb : Nat.find hex with
  | zero =>
    rw [pow_zero]
    omega
  | succ b =>
    have hmin : ¬ s < d * 2 ^ b := Nat.find_min hex (by omega)
    have hle : d * 2 ^ b ≤ s := not_lt.mp hmin
    have hsucc : 20 * d * 2 ^ (b + 1) = 40 * (d * 2 ^ b) := by
      rw [pow_succ]
      ring
    rw [hsucc]
    omega

/-- The number of tenths picked for a double near the quotient of two whole numbers is
within a half tenth of the quotient, if the double is nearer to the quotient than any other
quotient by the same divisor is to a number of twentieths. -/
theorem tenths_of_nearby_quotient (n s d : Nat) (v δ : ℚ) (hd : 0 < d)
    (hlo : (n : ℚ) ≤ 10 * v + 1 / 2) (hhi : 10 * v + 1 / 2 < (n : ℚ) + 1)
    (herr : |v - (s : ℚ) / (d : ℚ)| ≤ δ) (hδd : 20 * δ * (d : ℚ) < 1) :
    |(n : ℚ) / 10 - (s : ℚ) / (d : ℚ)| ≤ 1 / 20 := by
  have hdq : (0 : ℚ) < (d : ℚ) := by exact_mod_cast hd
  obtain ⟨he1, he2⟩ := abs_le.mp herr
  have hμ : (s : ℚ) / (d : ℚ) * (d : ℚ) = (s : ℚ) := div_mul_cancel₀ _ (ne_of_gt hdq)
  have hupper : 20 * s ≤ (2 * n + 1) * d := by
    by_contra hnot
    have hnat : (2 * n + 1) * d + 1 ≤ 20 * s := by omega
    have hq : ((2 * (n : ℚ) + 1) * (d : ℚ) + 1) ≤ 20 * (s : ℚ) := by exact_mod_cast hnat
    have h20 : 20 * ((s : ℚ) / (d : ℚ)) < 2 * (n : ℚ) + 1 + 20 * δ := by linarith
    have := mul_lt_mul_of_pos_right h20 hdq
    rw [mul_assoc, hμ] at this
    nlinarith
  have hlower : (2 * n) * d ≤ 20 * s + d := by
    by_contra hnot
    have hnat : 20 * s + d + 1 ≤ (2 * n) * d := by omega
    have hq : 20 * (s : ℚ) + (d : ℚ) + 1 ≤ (2 * (n : ℚ)) * (d : ℚ) := by exact_mod_cast hnat
    have h20 : 2 * (n : ℚ) - 1 - 20 * δ ≤ 20 * ((s : ℚ) / (d : ℚ)) := by linarith
    have := mul_le_mul_of_nonneg_right h20 hdq.le
    rw [mul_assoc, hμ] at this
    nlinarith
  have hupq : 20 * (s : ℚ) ≤ (2 * (n : ℚ) + 1) * (d : ℚ) := by exact_mod_cast hupper
  have hloq : (2 * (n : ℚ)) * (d : ℚ) ≤ 20 * (s : ℚ) + (d : ℚ) := by exact_mod_cast hlower
  rw [abs_le]
  constructor
  · have : (s : ℚ) / (d : ℚ) ≤ (n : ℚ) / 10 + 1 / 20 := by
      rw [div_le_iff₀ hdq]
      have hring : ((n : ℚ) / 10 + 1 / 20) * (d : ℚ)
          = ((2 * (n : ℚ) + 1) * (d : ℚ)) / 20 := by ring
      rw [hring]
      linarith
    linarith
  · have : (n : ℚ) / 10 - 1 / 20 ≤ (s : ℚ) / (d : ℚ) := by
      rw [le_div_iff₀ hdq]
      have hring : ((n : ℚ) / 10 - 1 / 20) * (d : ℚ)
          = (2 * (n : ℚ) * (d : ℚ) - (d : ℚ)) / 20 := by ring
      rw [hring]
      linarith
    linarith

/-- The average of samples that are whole numbers, fewer than `2 ^ 32` of them with a sum
below `2 ^ 48`: a number of tenths that is within a half tenth of the mean. -/
theorem calculateAvgEffort_whole (l : List Nat) (hne : l ≠ []) (hlen : l.length < 2 ^ 32)
    (hsum : l.sum < 2 ^ 48) :
    ∃ n : Nat,
      calculateAvgEffort (some (l.map (fun e : Nat => JsNum.ofInt (e : Int))))
        = AvgEffort.fixed (FixedText.decimal false n)
      ∧ |(n : ℚ) / 10 - (l.sum : ℚ) / (l.length : ℚ)| ≤ 1 / 20 := by
  have hpos : 0 < l.length := List.length_pos.mpr hne
  have hlen0 : l.length ≠ 0 := by omega
  have hpow48 : (2 : Nat) ^ 48 = 281474976710656 := by norm_num
  have hpow53 : (2 : Nat) ^ 53 = 9007199254740992 := by norm_num
  have hexact := sumEffort_whole l (by omega)
  by_cases hs0 : l.sum = 0
  · refine ⟨0, ?_, ?_⟩
    · rw [hs0] at hexact
      obtain ⟨m, e, hx, hv⟩ := toRat_eq_some _ _ hexact
      have hm : m = 0 := by
        have hpow : (2 : ℚ) ^ e ≠ 0 := by positivity
        have : (m : ℚ) = 0 := by
          have hv0 : (m : ℚ) * (2 : ℚ) ^ e = 0 := by
            rw [hv]
            simp
          rcases mul_eq_zero.mp hv0 with h | h
          · exact h
          · exact absurd h hpow
        exact_mod_cast this
      subst hm
      simp only [calculateAvgEffort, List.length_map, hlen0, if_false, divideByLength, hx,
        JsNum.divNat]
      simp [JsNum.ofRatio, toFixed1, nearestTenths]
    · rw [hs0]
      simp
  · have hspos : 0 < l.sum := Nat.pos_of_ne_zero hs0
    obtain ⟨b, hb1, hb2⟩ := quotient_below_power l.sum l.length hpos hlen hsum
    obtain ⟨K, y, hK, hy, hlo, hhi, herr⟩ :=
      divNat_bounds (sumEffort (l.map (fun e : Nat => JsNum.ofInt (e : Int)))) l.sum l.length
        hexact hspos hpos (by omega)
    have hKb : 53 ≤ K + b := hK b hb1
    have hy0 : (0 : ℚ) ≤ y := by
      have := hlo 0 (by omega)
      simpa using this
    have hybound : y ≤ ((2 ^ 48 : Nat) : ℚ) := hhi (2 ^ 48) (by
      have : 1 * 2 ^ 48 ≤ l.length * 2 ^ 48 := Nat.mul_le_mul_right _ hpos
      rw [Nat.mul_comm] at this
      rw [Nat.mul_comm]
      omega)
    have hyabs : |y| = y := abs_of_nonneg hy0
    obtain ⟨n, hfix, hn1, hn2⟩ := toFixed1_of_value _ y hy (by
      rw [hyabs]
      have : ((2 ^ 48 : Nat) : ℚ) < 10 ^ 21 := by norm_num
      linarith)
    rw [hyabs] at hn1 hn2
    have hneg : ¬ y < 0 := not_lt.mpr hy0
    have hδd : 20 * (1 / (2 : ℚ) ^ (K + 1)) * (l.length : ℚ) < 1 := by
      have hnat : 20 * l.length < 2 ^ (K + 1) := by
        by_contra hge
        have hge1 : 2 ^ (K + 1) ≤ 20 * l.length := by omega
        have h54 : 2 ^ 54 ≤ 2 ^ (K + 1) * 2 ^ b := by
          rw [← Nat.pow_add]
          apply Nat.pow_le_pow_right (by decide)
          omega
        have : 2 ^ (K + 1) * 2 ^ b ≤ 20 * l.length * 2 ^ b := Nat.mul_le_mul_right _ hge1
        omega
      have hq : (20 : ℚ) * (l.length : ℚ) < (2 : ℚ) ^ (K + 1) := by exact_mod_cast hnat
      have hp : (0 : ℚ) < (2 : ℚ) ^ (K + 1) := by positivity
      have heq : 20 * (1 / (2 : ℚ) ^ (K + 1)) * (l.length : ℚ)
          = (20 * (l.length : ℚ)) / (2 : ℚ) ^ (K + 1) := by ring
      rw [heq, div_lt_one hp]
      exact hq
    refine ⟨n, ?_, tenths_of_nearby_quotient n l.sum l.length y _ hpos hn1 hn2 herr hδd⟩
    simp only [calculateAvgEffort, List.length_map, hlen0, if_false, divideByLength, hfix,
      hneg, decide_False]

/-- The rounding to a double never gives `NaN`. -/
theorem ofRatio_ne_nan (negative : Bool) (n d : Nat) : JsNum.ofRatio negative n d ≠ JsNum.nan := by
  unfold JsNum.ofRatio
  simp only []
  split_ifs <;> simp

/-- A quotient by a whole number that is not 0 is `NaN` only if the dividend is. -/
theorem divNat_eq_nan_iff (x : JsNum) (d : Nat) (hd : d ≠ 0) :
    x.divNat d = JsNum.nan ↔ x = JsNum.nan := by
  cases x with
  | nan => simp [JsNum.divNat]
  | infinity a => simp [JsNum.divNat]
  | finite m e =>
    simp only [JsNum.divNat, hd, if_false]
    constructor
    · intro h
      exact absurd h (ofRatio_ne_nan _ _ _)
    · intro h
      cases h

/-- A quotient by 0 is not a finite number. -/
theorem divNat_zero_toRat (x : JsNum) : (x.divNat 0).toRat = none := by
  cases x with
  | nan => rfl
  | infinity a => rfl
  | finite m e =>
    simp only [JsNum.divNat, if_true]
    split_ifs <;> rfl

/-! ## Auxiliary facts on the text of the average -/

/-- The average of the samples 3 and 4 is displayed as 3.5. -/
theorem calculateAvgEffort_sample :
    calculateAvgEffort (some [3, 4]) = AvgEffort.fixed (FixedText.decimal false 35)
    ∧ (FixedText.decimal false 35).text = "3.5" := by
  decide

/-- The average of eleven samples 1 and nine samples 2, whose mean is 1.45, is displayed as
1.4: the quotient is the double nearest to 1.45, which is below it. -/
theorem calculateAvgEffort_tie_sample :
    calculateAvgEffort (some (List.replicate 11 1 ++ List.replicate 9 2))
      = AvgEffort.fixed (FixedText.decimal false 14)
    ∧ (FixedText.decimal false 14).text = "1.4"
    ∧ divideByLength (sumEffort (List.replicate 11 1 ++ List.replicate 9 2)) 20
        = JsNum.finite 6530219459687219 (-52)
    ∧ (6530219459687219 : ℚ) / 2 ^ 52 < 29 / 20 := by
  refine ⟨by decide, by decide, by decide, by norm_num⟩

/-! ## C26: no average of no samples -/

/-- C26. The function `calculateAvgEffort` returns the number 0 for an argument that is
missing and for an empty array, and for nothing else; for an array that is not empty it
returns the text `toFixed(1)` makes of the sum divided by the length, which is at least 1,
so that the quotient fails to be a number only when the sum does (a sample that is `NaN`),
never because of the divisor; a division by 0 would give no finite number. -/
theorem calculateAvgEffort_empty_is_zero :
    calculateAvgEffort none = AvgEffort.zero
    ∧ calculateAvgEffort (some []) = AvgEffort.zero
    ∧ (∀ arr, calculateAvgEffort arr = AvgEffort.zero ↔ (arr = none ∨ arr = some []))
    ∧ (∀ x : JsNum, (divideByLength x 0).toRat = none)
    ∧ (∀ arr : List JsNum, arr ≠ [] →
        1 ≤ arr.length
        ∧ calculateAvgEffort (some arr)
            = AvgEffort.fixed (toFixed1 (divideByLength (sumEffort arr) arr.length))
        ∧ (divideByLength (sumEffort arr) arr.length = JsNum.nan
            ↔ sumEffort arr = JsNum.nan)) := by
  refine ⟨rfl, rfl, ?_, fun x => divNat_zero_toRat x, ?_⟩
  · intro arr
    cases arr with
    | none => simp [calculateAvgEffort]
    | some l =>
      cases l with
      | nil => simp [calculateAvgEffort]
      | cons x rest => simp [calculateAvgEffort]
  · intro arr hne
    have hlen : arr.length ≠ 0 := fun h => hne (List.length_eq_zero.mp h)
    refine ⟨Nat.one_le_iff_ne_zero.mpr hlen, ?_, ?_⟩
    · simp only [calculateAvgEffort, hlen, if_false]
    · exact divNat_eq_nan_iff _ _ hlen

/-- The samples 3 and 4: the division is by 2 and gives a number. -/
theorem calculateAvgEffort_empty_is_zero_witness :
    ([3, 4] : List JsNum) ≠ []
    ∧ 1 ≤ ([3, 4] : List JsNum).length
    ∧ calculateAvgEffort (some [3, 4])
        = AvgEffort.fixed (toFixed1 (divideByLength (sumEffort [3, 4])
            ([3, 4] : List JsNum).length))
    ∧ (divideByLength (sumEffort [3, 4]) ([3, 4] : List JsNum).length = JsNum.nan
        ↔ sumEffort [3, 4] = JsNum.nan) :=
  ⟨by decide, calculateAvgEffort_empty_is_zero.2.2.2.2 [3, 4] (by decide)⟩

/-! ## C27: the average is the mean rounded to one decimal -/

/-- C27. For samples that are whole numbers, not none of them, fewer than `2 ^ 32` as in
every array and with a sum below `2 ^ 48`, `calculateAvgEffort` returns the text
`toFixed(1)` makes of the sum, which is exact, divided by the number of samples and rounded
to a double: a number of tenths that is within a half tenth of the mean of the samples. For
samples from 1 to 5 the sum is below `2 ^ 48` and the number of tenths is from 10 to 50, so
that the average displayed is from 1.0 to 5.0. Of any double below `10 ^ 21` in magnitude
`toFixed(1)` makes its sign and the number of tenths within a half tenth of its
magnitude. -/
theorem calculateAvgEffort_is_rounded_mean (l : List Nat) (hne : l ≠ [])
    (hlen : l.length < 2 ^ 32) (hsum : l.sum < 2 ^ 48) :
    calculateAvgEffort (some (l.map (fun e : Nat => JsNum.ofInt (e : Int))))
      = AvgEffort.fixed (toFixed1 (divideByLength
          (sumEffort (l.map (fun e : Nat => JsNum.ofInt (e : Int)))) l.length))
    ∧ (sumEffort (l.map (fun e : Nat => JsNum.ofInt (e : Int)))).toRat
        = some ((l.sum : Nat) : ℚ)
    ∧ (∃ n : Nat,
        calculateAvgEffort (some (l.map (fun e : Nat => JsNum.ofInt (e : Int))))
          = AvgEffort.fixed (FixedText.decimal false n)
        ∧ |(n : ℚ) / 10 - (l.sum : ℚ) / (l.length : ℚ)| ≤ 1 / 20
        ∧ (FixedText.decimal false n).text = toString (n / 10) ++ "." ++ toString (n % 10)
        ∧ ((∀ e ∈ l, 1 ≤ e ∧ e ≤ 5) → 10 ≤ n ∧ n ≤ 50))
    ∧ (∀ l5 : List Nat, l5.length < 2 ^ 32 → (∀ e ∈ l5, 1 ≤ e ∧ e ≤ 5) → l5.sum < 2 ^ 48)
    ∧ (∀ (x : JsNum) (v : ℚ), x.toRat = some v → |v| < 10 ^ 21 →
        ∃ n : Nat, toFixed1 x = FixedText.decimal (decide (v < 0)) n
          ∧ |(n : ℚ) / 10 - abs v| ≤ 1 / 20) := by
  have hlen0 : l.length ≠ 0 := fun h => hne (List.length_eq_zero.mp h)
  have hpow48 : (2 : Nat) ^ 48 = 281474976710656 := by norm_num
  have hpow53 : (2 : Nat) ^ 53 = 9007199254740992 := by norm_num
  have hpow32 : (2 : Nat) ^ 32 = 4294967296 := by norm_num
  refine ⟨?_, sumEffort_whole l (by omega), ?_, ?_, ?_⟩
  · simp only [calculateAvgEffort, List.length_map, hlen0, if_false]
  · obtain ⟨n, hn, hclose⟩ := calculateAvgEffort_whole l hne hlen hsum
    refine ⟨n, hn, hclose, by simp [FixedText.text], ?_⟩
    intro hrange
    obtain ⟨hge, hle⟩ := sum_of_samples l hrange
    have hposq : (0 : ℚ) < (l.length : ℚ) := by
      exact_mod_cast List.length_pos.mpr hne
    have h1 : (1 : ℚ) ≤ (l.sum : ℚ) / (l.length : ℚ) := by
      rw [le_div_iff₀ hposq, one_mul]
      exact_mod_cast hge
    have h5 : (l.sum : ℚ) / (l.length : ℚ) ≤ 5 := by
      rw [div_le_iff₀ hposq]
      exact_mod_cast hle
    obtain ⟨hc1, hc2⟩ := abs_le.mp hclose
    constructor
    · have : (9 : ℚ) < (n : ℚ) := by linarith
      have : 9 < n := by exact_mod_cast this
      omega
    · have : (n : ℚ) < 51 := by linarith
      have : n < 51 := by exact_mod_cast this
      omega
  · intro l5 hl5 hrange
    have := (sum_of_samples l5 hrange).2
    omega
  · intro x v hx hsmall
    obtain ⟨n, hfix, hn1, hn2⟩ := toFixed1_of_value x v hx hsmall
    refine ⟨n, hfix, ?_⟩
    rw [abs_le]
    constructor <;> linarith

/-- The samples 3 and 4: the average displayed is 3.5. -/
theorem calculateAvgEffort_is_rounded_mean_witness :
    ([3, 4] : List Nat) ≠ []
    ∧ ([3, 4] : List Nat).length < 2 ^ 32
    ∧ ([3, 4] : List Nat).sum < 2 ^ 48
    ∧ calculateAvgEffort (some [3, 4]) = AvgEffort.fixed (FixedText.decimal false 35)
    ∧ ∃ n : Nat,
        calculateAvgEffort (some (([3, 4] : List Nat).map
            (fun e : Nat => JsNum.ofInt (e : Int))))
          = AvgEffort.fixed (FixedText.decimal false n)
        ∧ |(n : ℚ) / 10 - (([3, 4] : List Nat).sum : ℚ) / (([3, 4] : List Nat).length : ℚ)|
            ≤ 1 / 20
        ∧ (FixedText.decimal false n).text = toString (n / 10) ++ "." ++ toString (n % 10)
        ∧ ((∀ e ∈ ([3, 4] : List Nat), 1 ≤ e ∧ e ≤ 5) → 10 ≤ n ∧ n ≤ 50) :=
  ⟨by decide, by decide, by decide, by decide,
   (calculateAvgEffort_is_rounded_mean [3, 4] (by decide) (by decide) (by decide)).2.2.1⟩

/-! ## Auxiliary facts on the invariant of a month document -/

/-- Exponent notation is read differently by the rules of the form and by `parseInt`: the
text `0.5e1` is the number 5 for the rules and 0 for `parseInt`. -/
theorem exponent_effort_read_differently :
    validateEffort "0.5e1" = none ∧ parseInt "0.5e1" = 0 := by
  decide

/-- The sample workout routine saved with effort 4, 250 calories and 5.2 km, over the March
document and over the store without documents, leaves a month document that holds the
invariant. -/
theorem saveStatistics_sample_keeps_invariant :
    marchDoc.valid = true
    ∧ ((saveStatistics marchEnv workoutRoutine sampleOutcome marchPage).store
          marchEnv.now.fullYear marchEnv.now.monthKey).map MoveStats.valid = some true
    ∧ ((saveStatistics marchEnv workoutRoutine sampleOutcome (Page.fresh emptyStore)).store
          marchEnv.now.fullYear marchEnv.now.monthKey).map MoveStats.valid = some true := by
  decide

/-! ## C28: the invariant of the month document is not preserved -/

/-- C28, evaluated where it fails. The March document holds the invariant: its counters are
not negative, its only effort sample is 3, its calories and km are not negative. The outcome
form is submitted with the effort `0.5e1`, which is the number 5 for the rules of the form:
they report nothing and the session is completed. The month document then has the effort
samples `[3, 0]`, and the invariant does not hold of it, 0 being no whole number from 1 to
5. With the effort `50e-1` the sample stored is 50. -/
theorem validated_effort_breaks_invariant :
    marchPage.store 2025 3 = some marchDoc
    ∧ marchDoc.valid = true
    ∧ sessionState marchPage = SessionState.AwaitingOutcome
    ∧ validateEffort "0.5e1" = none
    ∧ sessionState (step workoutRoutine marchEnv marchPage
        (Event.submitOutcome { effort := "0.5e1", calories := "", km := "" }))
        = SessionState.Completed
    ∧ ((step workoutRoutine marchEnv marchPage
        (Event.submitOutcome { effort := "0.5e1", calories := "", km := "" })).store
          2025 3).map MoveStats.valid = some false
    ∧ ((step workoutRoutine marchEnv marchPage
        (Event.submitOutcome { effort := "0.5e1", calories := "", km := "" })).store
          2025 3).map (fun d => d.effort) = some [3, 0]
    ∧ validateEffort "50e-1" = none
    ∧ ((step workoutRoutine marchEnv marchPage
        (Event.submitOutcome { effort := "50e-1", calories := "", km := "" })).store
          2025 3).map MoveStats.valid = some false := by
  decide

/-! ## C29: the write and the read use the same key -/

/-- C29. When the store calls resolve and the month of the date has no document,
`saveStatistics` followed by `loadStats` at the same date gives monthly statistics whose
counter of the routine type is 1 and yearly statistics whose counter of the routine type is
1 more than before the save: the month key written, from 1 to 12, is the one `parseInt`
reads back from the document id. -/
theorem saveStatistics_then_loadStats (env : Env) (r : Routine) (sd : StatsData) (p : Page)
    (stats : Stats) (havail : env.storeAvailable = true)
    (hnone : p.store env.now.fullYear env.now.monthKey = none) :
    1 ≤ env.now.monthKey ∧ env.now.monthKey ≤ 12
    ∧ parseInt (docId env.now.monthKey) = JsNum.ofInt env.now.monthKey
    ∧ (loadStats env.now
        (some ((saveStatistics env r sd p).store.getDocs env.now.fullYear)) stats).month.typeCount
          r.type = some 1
    ∧ (loadStats env.now
        (some ((saveStatistics env r sd p).store.getDocs env.now.fullYear)) stats).year.typeCount
          r.type
      = (loadStats env.now (some (p.store.getDocs env.now.fullYear)) stats).year.typeCount
          r.type + 1 := by
  have hsaved : (savedDoc r.type sd (p.store env.now.fullYear env.now.monthKey)).typeCount
      r.type = 1 := by
    rw [savedDoc_typeCount, hnone]
    rfl
  have hrange : 1 ≤ env.now.monthKey ∧ env.now.monthKey ≤ 12 := by
    have := env.now.monthIndex.isLt
    unfold Date.monthKey
    omega
  refine ⟨hrange.1, hrange.2,
    parseInt_docId _ (monthKey_mem_firestoreMonthOrder env.now), ?_, ?_⟩
  · rw [loadStats_month_of_store, saveStatistics_store_at_key env r sd p havail]
    simp only [Option.map_some', Option.getD_some]
    rw [toDocData_typeCount, hsaved]
  · rw [loadStats_year_typeCount, loadStats_year_typeCount, saveStatistics_available env r sd p
      havail]
    unfold sumOverMonths
    simp only [Page.completed]
    rw [sum_map_update monthsOfYear (by decide) env.now.monthKey
      (monthKey_mem_monthsOfYear env.now)
      (fun m => ((p.store env.now.fullYear m).map (fun d => d.typeCount r.type)).getD 0)
      (fun m => (((p.store.setDoc env.now.fullYear env.now.monthKey
        (savedDoc r.type sd (p.store env.now.fullYear env.now.monthKey))) env.now.fullYear
          m).map (fun d => d.typeCount r.type)).getD 0)]
    · simp only [setDoc_same, Option.map_some', Option.getD_some, hsaved]
      rw [hnone]
      simp
    · intro m hm
      rw [setDoc_other _ _ _ _ _ _ (fun h => hm h.2)]

/-- The sample stretch routine completed in March 2025 over a store with a document for
July only. -/
theorem saveStatistics_then_loadStats_witness :
    marchEnv.storeAvailable = true
    ∧ (Page.fresh (emptyStore.setDoc 2025 7 marchDoc)).store
        marchEnv.now.fullYear marchEnv.now.monthKey = none
    ∧ (loadStats marchEnv.now
        (some ((saveStatistics marchEnv stretchRoutine StatsData.empty
          (Page.fresh (emptyStore.setDoc 2025 7 marchDoc))).store.getDocs
            marchEnv.now.fullYear)) Stats.initial).month.typeCount stretchRoutine.type = some 1
    ∧ (loadStats marchEnv.now
        (some ((saveStatistics marchEnv stretchRoutine StatsData.empty
          (Page.fresh (emptyStore.setDoc 2025 7 marchDoc))).store.getDocs
            marchEnv.now.fullYear)) Stats.initial).year.typeCount stretchRoutine.type
      = (loadStats marchEnv.now
          (some ((Page.fresh (emptyStore.setDoc 2025 7 marchDoc)).store.getDocs
            marchEnv.now.fullYear)) Stats.initial).year.typeCount stretchRoutine.type + 1 :=
  ⟨rfl, by decide,
   (saveStatistics_then_loadStats marchEnv stretchRoutine StatsData.empty
      (Page.fresh (emptyStore.setDoc 2025 7 marchDoc)) Stats.initial rfl (by decide)).2.2.2.1,
   (saveStatistics_then_loadStats marchEnv stretchRoutine StatsData.empty
      (Page.fresh (emptyStore.setDoc 2025 7 marchDoc)) Stats.initial rfl (by decide)).2.2.2.2⟩

/-! ## Auxiliary facts on `formatTime` -/

theorem digitChar_isDigit (k : Nat) (hk : k < 10) : (Nat.digitChar k).isDigit = true := by
  have h : ∀ i : Fin 10, (Nat.digitChar i.val).isDigit = true := by decide
  exact h ⟨k, hk⟩

theorem digitValue_digitChar (k : Nat) (hk : k < 10) :
    digitValue 10 (Nat.digitChar k) = some k := by
  have h : ∀ i : Fin 10, digitValue 10 (Nat.digitChar i.val) = some i.val := by decide
  exact h ⟨k, hk⟩

/-- The characters `toString` writes for a natural number are digits. -/
theorem toDigitsCore_isDigit (fuel n : Nat) (ds : List Char)
    (hds : ∀ c ∈ ds, c.isDigit = true) :
    ∀ c ∈ Nat.toDigitsCore 10 fuel n ds, c.isDigit = true := by
  induction fuel generalizing n ds with
  | zero => simpa [Nat.toDigitsCore] using hds
  | succ fuel ih =>
    have hd : (Nat.digitChar (n % 10)).isDigit = true :=
      digitChar_isDigit _ (Nat.mod_lt _ (by decide))
    have hcons : ∀ c ∈ Nat.digitChar (n % 10) :: ds, c.isDigit = true := by
      intro c hc
      rcases List.mem_cons.mp hc with h | h
      · rw [h]; exact hd
      · exact hds c h
    unfold Nat.toDigitsCore
    by_cases h0 : n / 10 = 0
    · simp only [h0, if_true]
      exact hcons
    · simp only [h0, if_false]
      exact ih (n / 10) _ hcons

theorem foldl_digits_acc (ds : List Char) (acc : Nat) :
    ds.foldl (fun a c => a * 10 + (digitValue 10 c).getD 0) acc
      = acc * 10 ^ ds.length + digitsValue 10 ds := by
  unfold digitsValue
  induction ds generalizing acc with
  | nil => simp
  | cons c rest ih =>
    simp only [List.foldl_cons, List.length_cons]
    rw [ih, ih (0 * 10 + (digitValue 10 c).getD 0)]
    ring

theorem digitsValue_cons (c : Char) (ds : List Char) :
    digitsValue 10 (c :: ds) = (digitValue 10 c).getD 0 * 10 ^ ds.length + digitsValue 10 ds := by
  have h := foldl_digits_acc ds ((digitValue 10 c).getD 0)
  unfold digitsValue at h ⊢
  simp only [List.foldl_cons, Nat.zero_mul, Nat.zero_add]
  exact h

/-- The digits `toString` writes for a natural number have that number as their value. -/
theorem toDigitsCore_value (fuel n : Nat) (ds : List Char) (hfuel : n < fuel) :
    digitsValue 10 (Nat.toDigitsCore 10 fuel n ds) = n * 10 ^ ds.length + digitsValue 10 ds := by
  induction fuel generalizing n ds with
  | zero => omega
  | succ fuel ih =>
    have hd : digitValue 10 (Nat.digitChar (n % 10)) = some (n % 10) :=
      digitValue_digitChar _ (Nat.mod_lt _ (by decide))
    unfold Nat.toDigitsCore
    by_cases h0 : n / 10 = 0
    · simp only [h0, if_true]
      rw [digitsValue_cons, hd, Option.getD_some]
      have hn : n % 10 = n := Nat.mod_eq_of_lt (by omega)
      rw [hn]
    · simp only [h0, if_false]
      rw [ih (n / 10) _ (by omega), digitsValue_cons, hd, Option.getD_some, List.length_cons]
      have hdiv := Nat.div_add_mod n 10
      calc n / 10 * 10 ^ (ds.length + 1) + (n % 10 * 10 ^ ds.length + digitsValue 10 ds)
          = (10 * (n / 10) + n % 10) * 10 ^ ds.length + digitsValue 10 ds := by ring
        _ = n * 10 ^ ds.length + digitsValue 10 ds := by rw [hdiv]

theorem toString_isDigit (n : Nat) : ∀ c ∈ (toString n).toList, c.isDigit = true :=
  toDigitsCore_isDigit (n + 1) n [] (by simp)

theorem toString_value (n : Nat) : digitsValue 10 (toString n).toList = n := by
  have h := toDigitsCore_value (n + 1) n [] (by omega)
  simpa [digitsValue] using h

theorem padStart_toList (s : String) (k : Nat) (c : Char) :
    (padStart s k c).toList = List.replicate (k - s.length) c ++ s.toList := rfl

/-- A field of the time consists of digits. -/
theorem field_isDigit (n : Nat) : ∀ c ∈ (padStart (toString n) 2 '0').toList, c.isDigit = true := by
  intro c hc
  rw [padStart_toList] at hc
  rcases List.mem_append.mp hc with h | h
  · rw [(List.mem_replicate.mp h).2]
    decide
  · exact toString_isDigit n c h

theorem digitsValue_replicate_zero (k : Nat) (cs : List Char) :
    digitsValue 10 (List.replicate k '0' ++ cs) = digitsValue 10 cs := by
  induction k with
  | zero => simp
  | succ k ih =>
    rw [List.replicate_succ, List.cons_append, digitsValue_cons, ih]
    have h0 : digitValue 10 '0' = some 0 := by decide
    simp [h0]

/-- A field of the time has the number it shows as its value. -/
theorem field_value (n : Nat) : digitsValue 10 (padStart (toString n) 2 '0').toList = n := by
  rw [padStart_toList, digitsValue_replicate_zero, toString_value]

theorem field_length_ge (n : Nat) : 2 ≤ (padStart (toString n) 2 '0').length := by
  show 2 ≤ (padStart (toString n) 2 '0').toList.length
  rw [padStart_toList, List.length_append, List.length_replicate]
  have : (toString n).toList.length = (toString n).length := rfl
  omega

theorem field_length_eq (n : Nat) (hn : n < 100) : (padStart (toString n) 2 '0').length = 2 := by
  show (padStart (toString n) 2 '0').toList.length = 2
  rw [padStart_toList, List.length_append, List.length_replicate]
  have hlen : (toString n).length ≤ 2 := Nat.repr_length n 2 (by decide) (by omega)
  have : (toString n).toList.length = (toString n).length := rfl
  omega

/-- Two texts made of a run of digits, a colon and a rest are equal only if the runs of
digits are equal and the rests are. -/
theorem digits_colon_inj (a b c d : List Char) (ha : ∀ x ∈ a, x.isDigit = true)
    (hc : ∀ x ∈ c, x.isDigit = true) (h : a ++ ':' :: b = c ++ ':' :: d) : a = c ∧ b = d := by
  have hcolon : ¬ (':' : Char).isDigit = true := by decide
  have h1 : (a ++ ':' :: b).takeWhile Char.isDigit = a := by
    rw [List.takeWhile_append_of_pos ha, List.takeWhile_cons_of_neg hcolon, List.append_nil]
  have h2 : (c ++ ':' :: d).takeWhile Char.isDigit = c := by
    rw [List.takeWhile_append_of_pos hc, List.takeWhile_cons_of_neg hcolon, List.append_nil]
  have h3 : (a ++ ':' :: b).dropWhile Char.isDigit = ':' :: b := by
    rw [List.dropWhile_append_of_pos ha, List.dropWhile_cons_of_neg hcolon]
  have h4 : (c ++ ':' :: d).dropWhile Char.isDigit = ':' :: d := by
    rw [List.dropWhile_append_of_pos hc, List.dropWhile_cons_of_neg hcolon]
  rw [h] at h1 h3
  rw [h2] at h1
  rw [h4] at h3
  exact ⟨h1.symm, (List.cons.inj h3).2.symm⟩

/-- The text of a double that is a whole number up to `2 ^ 53`: its digits. -/
theorem toString_of_nat (x : JsNum) (v : Nat) (hx : x.toRat = some (v : ℚ))
    (hv : v ≤ 2 ^ 53) : x.toString = toString v := by
  obtain ⟨m, e, rfl, hval⟩ := toRat_eq_some x _ hx
  have hv1 : (m : ℚ) * (2 : ℚ) ^ e = ((v : Int) : ℚ) := by simpa using hval
  obtain ⟨hq, hsign⟩ := scaled_as_quotient m e (v : Int) hv1
  have hm : ¬ m < 0 := fun h => by
    have := hsign.mp h
    omega
  simp only [Int.natAbs_ofNat] at hq
  have hrepr : ∀ k : Nat, String.mk (Nat.toDigits 10 k) = toString k := fun _ => rfl
  unfold JsNum.toString
  by_cases hm0 : m = 0
  · subst hm0
    simp only [Int.natAbs_zero, Nat.zero_mul] at hq
    have hpos : 0 < 2 ^ (-e).toNat := by positivity
    have hv0 : v = 0 := by
      rcases Nat.eq_zero_or_pos v with h | h
      · exact h
      · have := Nat.mul_pos h hpos
        omega
    subst hv0
    rfl
  · simp only [hm0, if_false, hm]
    by_cases he : 0 ≤ e
    · have h0 : (-e).toNat = 0 := by
        rw [Int.toNat_eq_zero]
        omega
      rw [h0, pow_zero, Nat.mul_one] at hq
      rw [if_pos ⟨he, by rw [hq]; exact hv⟩, hq, hrepr]
      simp
    · have h0 : e.toNat = 0 := by
        rw [Int.toNat_eq_zero]
        omega
      rw [h0, pow_zero, Nat.mul_one] at hq
      have hpos : 0 < 2 ^ (-e).toNat := by positivity
      rw [if_neg (fun h => he h.1), if_pos ⟨by omega, by rw [hq]; exact Nat.mul_mod_left _ _⟩,
        hq, Nat.mul_div_cancel _ hpos, hrepr]
      simp

/-- The time shown for a whole number of seconds below `2 ^ 53`, by its three fields. -/
theorem formatTime_natCast (n : Nat) (hn : n < 2 ^ 53) :
    formatTime (JsNum.ofInt (n : Int))
      = padStart (toString (n / 3600)) 2 '0' ++ ":" ++ padStart (toString (n % 3600 / 60)) 2 '0'
          ++ ":" ++ padStart (toString (n % 60)) 2 '0' := by
  have hx : (JsNum.ofInt (n : Int)).toRat = some (n : ℚ) := by
    have := ofInt_toRat (n : Int) (by simpa using hn)
    simpa using this
  have hpow : (2 : Nat) ^ 53 = 9007199254740992 := by norm_num
  have h1 : ((JsNum.ofInt (n : Int)).divNat 3600).floor.toString = toString (n / 3600) := by
    apply toString_of_nat
    · have := floor_divNat_toRat _ n 3600 42 hx (by decide) hn (by norm_num; omega)
        (by norm_num)
      simpa using this
    · have : n / 3600 ≤ n := Nat.div_le_self _ _
      omega
  have hmod : ((JsNum.ofInt (n : Int)).modNat 3600).toRat = some ((n % 3600 : Nat) : ℚ) := by
    have := modNat_toRat _ n 3600 hx (by decide) (by norm_num)
    simpa using this
  have h2 : (((JsNum.ofInt (n : Int)).modNat 3600).divNat 60).floor.toString
      = toString (n % 3600 / 60) := by
    apply toString_of_nat
    · have := floor_divNat_toRat _ (n % 3600) 60 6 hmod (by decide) (by omega) (by omega)
        (by norm_num)
      simpa using this
    · omega
  have h3 : ((JsNum.ofInt (n : Int)).modNat 60).toString = toString (n % 60) := by
    apply toString_of_nat
    · have := modNat_toRat _ n 60 hx (by decide) (by norm_num)
      simpa using this
    · omega
  unfold formatTime
  simp only [h1, h2, h3]

theorem formatTime_toList (n : Nat) (hn : n < 2 ^ 53) :
    (formatTime (JsNum.ofInt (n : Int))).toList
      = (padStart (toString (n / 3600)) 2 '0').toList
          ++ ':' :: ((padStart (toString (n % 3600 / 60)) 2 '0').toList
          ++ ':' :: (padStart (toString (n % 60)) 2 '0').toList) := by
  rw [formatTime_natCast n hn]
  simp only [String.toList, String.data_append, List.append_assoc]
  rfl

/-- The number of seconds is read back from the time shown. -/
theorem formatTime_injective_nat (n k : Nat) (hn : n < 2 ^ 53) (hk : k < 2 ^ 53)
    (h : formatTime (JsNum.ofInt (n : Int)) = formatTime (JsNum.ofInt (k : Int))) :
    n = k := by
  have hl : (formatTime (JsNum.ofInt (n : Int))).toList
      = (formatTime (JsNum.ofInt (k : Int))).toList := by rw [h]
  rw [formatTime_toList n hn, formatTime_toList k hk] at hl
  obtain ⟨hH, hrest⟩ := digits_colon_inj _ _ _ _ (field_isDigit _) (field_isDigit _) hl
  obtain ⟨hM, hS⟩ := digits_colon_inj _ _ _ _ (field_isDigit _) (field_isDigit _) hrest
  have e1 := congrArg (digitsValue 10) hH
  have e2 := congrArg (digitsValue 10) hM
  have e3 := congrArg (digitsValue 10) hS
  rw [field_value, field_value] at e1 e2 e3
  omega

/-! ## C30: the time shown -/

/-- C30, as amended. For a whole number of seconds `s` that is not negative and is below
`2 ^ 53`, `formatTime` shows three fields separated by colons, for numbers `h`, `m` and
`sec` with `m < 60`, `sec < 60` and `h * 3600 + m * 60 + sec = s`; each field consists of
digits, at least two of them, and has its number as value; below 360000 seconds every field
has two characters and the text has eight; and two such numbers of seconds that are shown
the same are equal. -/
theorem formatTime_fields (s : Nat) (hs : s < 2 ^ 53) :
    ∃ h m sec : Nat,
      h * 3600 + m * 60 + sec = s ∧ m < 60 ∧ sec < 60
      ∧ (JsNum.ofInt (s : Int)).toRat = some (s : ℚ)
      ∧ formatTime (JsNum.ofInt (s : Int))
          = padStart (toString h) 2 '0' ++ ":" ++ padStart (toString m) 2 '0' ++ ":"
              ++ padStart (toString sec) 2 '0'
      ∧ 2 ≤ (padStart (toString h) 2 '0').length
      ∧ (padStart (toString m) 2 '0').length = 2
      ∧ (padStart (toString sec) 2 '0').length = 2
      ∧ (∀ c ∈ (padStart (toString h) 2 '0').toList, c.isDigit = true)
      ∧ (∀ c ∈ (padStart (toString m) 2 '0').toList, c.isDigit = true)
      ∧ (∀ c ∈ (padStart (toString sec) 2 '0').toList, c.isDigit = true)
      ∧ digitsValue 10 (padStart (toString h) 2 '0').toList = h
      ∧ digitsValue 10 (padStart (toString m) 2 '0').toList = m
      ∧ digitsValue 10 (padStart (toString sec) 2 '0').toList = sec
      ∧ (s < 360000 →
          (padStart (toString h) 2 '0').length = 2
          ∧ (formatTime (JsNum.ofInt (s : Int))).length = 8)
      ∧ (∀ s1 : Nat, s1 < 2 ^ 53 →
          formatTime (JsNum.ofInt (s1 : Int)) = formatTime (JsNum.ofInt (s : Int)) →
          s1 = s) := by
  have hm : s % 3600 / 60 < 60 := by omega
  have hsec : s % 60 < 60 := by omega
  have hx : (JsNum.ofInt (s : Int)).toRat = some (s : ℚ) := by
    have := ofInt_toRat (s : Int) (by simpa using hs)
    simpa using this
  refine ⟨s / 3600, s % 3600 / 60, s % 60, by omega, hm, hsec, hx, formatTime_natCast s hs,
    field_length_ge _, field_length_eq _ (by omega), field_length_eq _ (by omega),
    field_isDigit _, field_isDigit _, field_isDigit _, field_value _, field_value _,
    field_value _, ?_, ?_⟩
  · intro hlt
    have hh : s / 3600 < 100 := by omega
    refine ⟨field_length_eq _ hh, ?_⟩
    rw [formatTime_natCast s hs]
    simp only [String.length_append, field_length_eq _ hh, field_length_eq _ (show
      s % 3600 / 60 < 100 by omega), field_length_eq _ (show s % 60 < 100 by omega)]
    rfl
  · intro s1 hs1 heq
    exact formatTime_injective_nat s1 s hs1 hs heq

/-- One hour, two minutes and five seconds. -/
theorem formatTime_fields_witness :
    3725 < 2 ^ 53
    ∧ formatTime (JsNum.ofInt 3725) = "01:02:05"
    ∧ ∃ h m sec : Nat,
        h * 3600 + m * 60 + sec = 3725 ∧ m < 60 ∧ sec < 60
        ∧ formatTime (JsNum.ofInt ((3725 : Nat) : Int))
            = padStart (toString h) 2 '0' ++ ":" ++ padStart (toString m) 2 '0' ++ ":"
                ++ padStart (toString sec) 2 '0' := by
  obtain ⟨h, m, sec, h1, h2, h3, _, h4, _⟩ := formatTime_fields 3725 (by norm_num)
  exact ⟨by norm_num, by decide, h, m, sec, h1, h2, h3, h4⟩

set_option maxRecDepth 100000 in
/-- C30, as stated, fails: `2 ^ 82` seconds, which are a double, are shown as
`1.3432509106829213e+21:05:04`, whose first field is not made of digits: the quotient by
3600 is rounded to a double, and a double from `10 ^ 21` is written with an exponent. And
the whole numbers `2 ^ 53` and `2 ^ 53 + 1` are the same double, so that they are shown the
same. -/
theorem formatTime_of_large_seconds :
    JsNum.ofInt (2 ^ 82) = JsNum.finite (2 ^ 52) 30
    ∧ formatTime (JsNum.ofInt (2 ^ 82)) = "1.3432509106829213e+21:05:04"
    ∧ JsNum.ofInt (2 ^ 53 + 1) = JsNum.ofInt (2 ^ 53)
    ∧ formatTime (JsNum.ofInt (2 ^ 53 + 1)) = formatTime (JsNum.ofInt (2 ^ 53)) := by
  refine ⟨by decide, by decide, by decide, ?_⟩
  have h : JsNum.ofInt (2 ^ 53 + 1) = JsNum.ofInt (2 ^ 53) := by decide
  rw [h]

end Evolve
